import Mathlib

/-!
# xls2img: image extraction from a BIFF8 workbook stream

A shallow embedding of `src/src/xls2img_images.c`.

Conventions of the embedding.

* A byte is a `Fin 256`; a buffer is a `List Byte` holding exactly the bytes the C
  code may legally read through the corresponding pointer.  Reading an index
  outside that list is an out-of-bounds read of the C program (undefined
  behaviour) and is reported as `Fault.outOfBounds`.
* A C loop that can repeat a state forever is reported as `Fault.nonTermination`.
* The allocations of the image scanner (`malloc` / `realloc` of the collector, of
  the result array and of the image copies) are taken to succeed.  The collector
  records the `capacity` of its allocation; its `data` are the `size` bytes written
  so far, and a read past them is reported as `Fault.outOfBounds` whether it falls
  into the unwritten rest of the allocation or past its end.
* Pointers into a buffer are offsets (`Nat`) from the start of the buffer.
* `int` has 32 bits: the end finders return a pointer difference converted by
  `(int)`, which is `int_cast`.
-/

set_option maxRecDepth 100000

namespace Xls2Img

/-- One octet of a buffer. -/
abbrev Byte := Fin 256

/-- The two ways in which a run of the C code can fail to return a value. -/
inductive Fault where
  | outOfBounds
  | nonTermination
  deriving DecidableEq, Repr

/-- Error code `XLS2IMG_ERROR_INVALID_ARGUMENT` of `xls2img.h`. -/
def XLS2IMG_ERROR_INVALID_ARGUMENT : Int := -3

/-- Error code `XLS2IMG_ERROR_NO_IMAGES` of `xls2img.h`. -/
def XLS2IMG_ERROR_NO_IMAGES : Int := -5

/-- Record type `BIFF8_MsoDrawingGroup`. -/
def BIFF8_MsoDrawingGroup : Nat := 0x00EB

/-- Record type `BIFF8_CONTINUE`. -/
def BIFF8_CONTINUE : Nat := 0x003C

/-- Record type `BIFF8_EOF_RECORD`. -/
def BIFF8_EOF_RECORD : Nat := 0x000A

/-- The enumeration `XLS2IMG_FORMAT`. -/
inductive XLS2IMG_FORMAT where
  | XLS2IMG_UNKNOWN
  | XLS2IMG_PNG
  | XLS2IMG_JPG
  deriving DecidableEq, Repr

open XLS2IMG_FORMAT

/-- The struct `XLS2IMG_IMAGE`: `data` is the owned copy of the payload. -/
structure XLS2IMG_IMAGE where
  format : XLS2IMG_FORMAT
  size : Nat
  data : List Byte
  deriving DecidableEq, Repr

/-- The struct `XLS2IMG_RESULT`; the empty list stands for the null `images` pointer. -/
structure XLS2IMG_RESULT where
  images : List XLS2IMG_IMAGE
  count : Int
  deriving DecidableEq, Repr

/-- An image added to the result array, together with the offset in the
drawing-group blob it was copied from (the offset is not stored by the C code). -/
structure Emitted where
  start : Nat
  image : XLS2IMG_IMAGE
  deriving DecidableEq, Repr

/-- The eight bytes `89 50 4E 47 0D 0A 1A 0A`. -/
def pngSignature : List Byte := [0x89, 0x50, 0x4E, 0x47, 0x0D, 0x0A, 0x1A, 0x0A]

/-- ASCII `JFIF`. -/
def jfifId : List Byte := [0x4A, 0x46, 0x49, 0x46]

/-- ASCII `Exif`. -/
def exifId : List Byte := [0x45, 0x78, 0x69, 0x66]

/-- ASCII `IEND`. -/
def iendType : List Byte := [0x49, 0x45, 0x4E, 0x44]

/-- The read `data[k]` of the C code. -/
def rd (data : List Byte) (k : Nat) : Except Fault Byte :=
  match data[k]? with
  | some b => .ok b
  | none => .error .outOfBounds

/-- The C condition `data[off] == c0 && data[off+1] == c1 && ...` with its
short-circuit evaluation: bytes are read one by one until the first mismatch. -/
def bytes_match (data : List Byte) : Nat → List Byte → Except Fault Bool
  | _, [] => .ok true
  | off, c :: cs =>
    match rd data off with
    | .error e => .error e
    | .ok b => if b = c then bytes_match data (off + 1) cs else .ok false

/-- The function `xls2img_identify_format`, called on the bytes from `data` on. -/
def xls2img_identify_format (data : List Byte) : Except Fault XLS2IMG_FORMAT :=
  match bytes_match data 0 pngSignature with
  | .error e => .error e
  | .ok true => .ok XLS2IMG_PNG
  | .ok false =>
    match bytes_match data 0 [0xFF, 0xD8] with
    | .error e => .error e
    | .ok true => .ok XLS2IMG_JPG
    | .ok false => .ok XLS2IMG_UNKNOWN

/-- The subtraction `a - b` of two `size_t` values (64 bits), for `a, b < 2^64`. -/
def size_t_sub (a b : Nat) : Nat :=
  if b ≤ a then a - b else a + 2 ^ 64 - b

/-- The APP-segment test of `xls2img_find_next_header` (lines 83-98 and 103-118):
`app_length_offset = i + 4`, the two length bytes are read, and the identifier at
`app_length_offset + 2` is compared with `ident`. -/
def app_ident_here (data : List Byte) (size i : Nat) (ident : List Byte) : Except Fault Bool :=
  let app_length_offset := i + 4
  if app_length_offset + 1 < size then
    match rd data app_length_offset with
    | .error e => .error e
    | .ok _ =>
      match rd data (app_length_offset + 1) with
      | .error e => .error e
      | .ok _ =>
        let identifier_start_offset := app_length_offset + 2
        if identifier_start_offset + 4 ≤ size then
          bytes_match data identifier_start_offset ident
        else .ok false
  else .ok false

/-- The body of the `for` loop of `xls2img_find_next_header` at index `i`:
`true` when the body executes `return data + i`. -/
def header_here (data : List Byte) (size i : Nat) : Except Fault Bool :=
  match rd data i with
  | .error e => .error e
  | .ok firstByte =>
    match rd data (i + 1) with
    | .error e => .error e
    | .ok secondByte =>
      match (if firstByte = 0x89 ∧ secondByte = 0x50 then
               bytes_match data (i + 2) [0x4E, 0x47, 0x0D, 0x0A, 0x1A, 0x0A]
             else .ok false) with
      | .error e => .error e
      | .ok true => .ok true
      | .ok false =>
        if firstByte = 0xFF ∧ secondByte = 0xD8 then
          if i + 3 < size then
            match rd data (i + 2) with
            | .error e => .error e
            | .ok app_marker_high =>
              match rd data (i + 3) with
              | .error e => .error e
              | .ok app_marker_low =>
                if app_marker_high = 0xFF ∧ app_marker_low = 0xE0 then
                  app_ident_here data size i jfifId
                else if app_marker_high = 0xFF ∧ app_marker_low = 0xE1 then
                  app_ident_here data size i exifId
                else .ok false
          else .ok false
        else .ok false

/-- The `for` loop of `xls2img_find_next_header`, `for (i = ..; i < bound; i++)`,
started at index `i` with `fuel = data.length - i`.  Every iteration reads
`data[i]` and `data[i + 1]`, so once `fuel` is used up (`i = data.length`) a
further iteration is an out-of-bounds read. -/
def find_next_header_loop (data : List Byte) (size bound : Nat) :
    Nat → Nat → Except Fault (Option Nat)
  | 0, i => if i < bound then .error .outOfBounds else .ok none
  | fuel + 1, i =>
    if i < bound then
      match header_here data size i with
      | .error e => .error e
      | .ok true => .ok (some i)
      | .ok false => find_next_header_loop data size bound fuel (i + 1)
    else .ok none

/-- The function `xls2img_find_next_header(data, size)`: the offset of the
returned pointer from `data`, or `none` for `NULL`.  The loop bound `size - 9`
is computed in `size_t`. -/
def xls2img_find_next_header (data : List Byte) (size : Nat) : Except Fault (Option Nat) :=
  find_next_header_loop data size (size_t_sub size 9) data.length 0

/-- The value of `(p[0] << 24) | (p[1] << 16) | (p[2] << 8) | p[3]` as a `uint32_t`. -/
def be32 (b0 b1 b2 b3 : Byte) : Nat :=
  b0.val * 2 ^ 24 + b1.val * 2 ^ 16 + b2.val * 2 ^ 8 + b3.val

/-- The conversion `(int)d` of a pointer difference `d` (`ptrdiff_t`, 64 bits) to
`int` (32 bits, two's complement): the value congruent to `d` modulo `2^32` in
the range from `-2^31` to `2^31 - 1`. -/
def int_cast (d : Int) : Int := (d + 2 ^ 31) % 2 ^ 32 - 2 ^ 31

/-- The `while (p < end)` loop of `xls2img_find_png_end`, `p` being the offset of
the cursor from `data`.  `12 + chunk_len` is computed in `uint32_t`; when it is
`0` the cursor does not move and the loop repeats the same state forever.
Otherwise the cursor grows by at least one, so `fuel = size` iterations are
never exceeded.  The loop yields `-1` or the pointer difference `(p + 12) - data`
of line 147; the conversion `(int)` of that line is applied by
`xls2img_find_png_end`. -/
def find_png_end_loop (data : List Byte) (size : Nat) : Nat → Nat → Except Fault Int
  | 0, _ => .error .nonTermination
  | fuel + 1, p =>
    if p < size then
      if size - p < 8 then .ok (-1)
      else
        match rd data p, rd data (p + 1), rd data (p + 2), rd data (p + 3) with
        | .ok b0, .ok b1, .ok b2, .ok b3 =>
          let chunk_len := be32 b0 b1 b2 b3
          match bytes_match data (p + 4) iendType with
          | .error e => .error e
          | .ok true => .ok ((p + 12 : Nat) : Int)
          | .ok false =>
            let step := (12 + chunk_len) % 2 ^ 32
            if step = 0 then .error .nonTermination
            else if p + step > size then .ok (-1)
            else find_png_end_loop data size fuel (p + step)
        | _, _, _, _ => .error .outOfBounds
    else .ok (-1)

/-- The function `xls2img_find_png_end(data, size)`: the returned `int`.  The
value of the loop goes through `(int)` (line 147), which leaves `-1` as it is. -/
def xls2img_find_png_end (data : List Byte) (size : Nat) : Except Fault Int :=
  if size < 8 then .ok (-1)
  else
    match bytes_match data 0 [0x89, 0x50, 0x4E, 0x47] with
    | .error e => .error e
    | .ok false => .ok (-1)
    | .ok true =>
      match find_png_end_loop data size size 8 with
      | .error e => .error e
      | .ok d => .ok (int_cast d)

/-- The `while (p >= limit)` loop of `xls2img_find_jpg_end` with `k` candidate
positions `limit, ..., limit + k - 1` left, visited from the highest down.  The
loop yields `-1` or the pointer difference `(p + 2) - actual_start_of_last_jpg`
of line 163; the conversion `(int)` of that line is applied by
`xls2img_find_jpg_end`. -/
def find_jpg_end_loop (blob : List Byte) (limit : Nat) : Nat → Except Fault Int
  | 0 => .ok (-1)
  | k + 1 =>
    match bytes_match blob (limit + k) [0xFF, 0xD9] with
    | .error e => .error e
    | .ok true => .ok ((limit + k + 2 - limit : Nat) : Int)
    | .ok false => find_jpg_end_loop blob limit k

/-- The function `xls2img_find_jpg_end(start_search_from, actual_start_of_last_jpg)`,
both pointers being offsets into `blob`: the cursor starts at
`start_search_from - 2` and walks down to `actual_start_of_last_jpg`.  The value
of the loop goes through `(int)` (line 163), which leaves `-1` as it is. -/
def xls2img_find_jpg_end (blob : List Byte) (start_search_from actual_start_of_last_jpg : Nat) :
    Except Fault Int :=
  match find_jpg_end_loop blob actual_start_of_last_jpg
      (start_search_from - 1 - actual_start_of_last_jpg) with
  | .error e => .error e
  | .ok d => .ok (int_cast d)

/-- The struct `BufferCollector`: `data` holds the `size` bytes written so far
and `capacity` is the size of the allocation they lie in. -/
structure BufferCollector where
  data : List Byte
  capacity : Nat
  deriving DecidableEq, Repr

/-- The function `buffer_collector_init`, also the state after `buffer_collector_free`. -/
def buffer_collector_init : BufferCollector := ⟨[], 0⟩

/-- The function `buffer_collector_append` (allocation succeeds, so it returns 1). -/
def buffer_collector_append (collector : BufferCollector) (data : List Byte) : BufferCollector :=
  if collector.data.length + data.length > collector.capacity then
    let new_capacity := collector.capacity * 2
    let new_capacity :=
      if new_capacity < collector.data.length + data.length then
        collector.data.length + data.length
      else new_capacity
    let new_capacity := new_capacity * 3 / 2
    ⟨collector.data ++ data, new_capacity⟩
  else ⟨collector.data ++ data, collector.capacity⟩

/-- The function `add_image_to_result`: `size` bytes are copied from offset
`start` of the blob, which holds the bytes written to the collector.  A copy that
runs past them reads bytes the program never wrote (inside the allocation while
`start + size` is at most its capacity, past its end otherwise) and is reported
as a fault. -/
def add_image_to_result (blob : List Byte) (images : List Emitted) (start size : Nat)
    (format : XLS2IMG_FORMAT) : Except Fault (List Emitted) :=
  if start + size ≤ blob.length then
    .ok (images ++ [⟨start, ⟨format, size, (blob.drop start).take size⟩⟩])
  else .error .outOfBounds

/-- The function `process_last_image_if_any`: `last` is the pair
`(last_img_start, last_img_fmt)`, `none` for a null `last_img_start`, and
`current_block_ptr_or_end` is an offset into `blob`.  The caller's pair is reset to
null afterwards. -/
def process_last_image_if_any (blob : List Byte) (last : Option (Nat × XLS2IMG_FORMAT))
    (images : List Emitted) (current_block_ptr_or_end : Nat) : Except Fault (List Emitted) :=
  match last with
  | none => .ok images
  | some (last_img_start, last_img_fmt) =>
    match (match last_img_fmt with
           | XLS2IMG_PNG =>
             xls2img_find_png_end (blob.drop last_img_start)
               (current_block_ptr_or_end - last_img_start)
           | XLS2IMG_JPG => xls2img_find_jpg_end blob current_block_ptr_or_end last_img_start
           | XLS2IMG_UNKNOWN => .ok (-1)) with
    | .error e => .error e
    | .ok img_size =>
      if img_size > 0 then
        add_image_to_result blob images last_img_start img_size.toNat last_img_fmt
      else .ok images

/-- The loop `while (block_ptr < block_end)` of `xls2img_extract_images`
(lines 330-350); `block_ptr` is an offset into the blob.  It returns the pending
pair and the images at loop exit.  `block_ptr` grows by at least one per iteration,
so `fuel = blob.length` iterations are never exceeded. -/
def scan_loop (blob : List Byte) :
    Nat → Nat → Option (Nat × XLS2IMG_FORMAT) → List Emitted →
      Except Fault (Option (Nat × XLS2IMG_FORMAT) × List Emitted)
  | 0, _, last, images => .ok (last, images)
  | fuel + 1, block_ptr, last, images =>
    if block_ptr < blob.length then
      match xls2img_find_next_header (blob.drop block_ptr) (blob.length - block_ptr) with
      | .error e => .error e
      | .ok none => .ok (last, images)
      | .ok (some i) =>
        let next_header := block_ptr + i
        match process_last_image_if_any blob last images next_header with
        | .error e => .error e
        | .ok images1 =>
          match xls2img_identify_format (blob.drop next_header) with
          | .error e => .error e
          | .ok fmt =>
            let last1 :=
              if fmt = XLS2IMG_PNG ∨ fmt = XLS2IMG_JPG then some (next_header, fmt) else none
            scan_loop blob fuel (next_header + 1) last1 images1
    else .ok (last, images)

/-- Lines 325-354 of `xls2img_extract_images`: the scan of a non-empty
reassembled drawing-group blob, started with no pending image, followed by the
final `process_last_image_if_any` against the end of the blob. -/
def scan_drawing_group (blob : List Byte) : Except Fault (List Emitted) :=
  match scan_loop blob blob.length 0 none [] with
  | .error e => .error e
  | .ok (last, images) => process_last_image_if_any blob last images blob.length

/-- The local state of the record walk of `xls2img_extract_images`. -/
structure WalkState where
  collecting_mso : Bool
  mso_collector : BufferCollector
  images : List XLS2IMG_IMAGE
  deriving DecidableEq, Repr

/-- The branch `else if (collecting_mso)` (lines 321-360): the collector is
scanned when it holds at least one byte, then freed. -/
def flush_collector (st : WalkState) : Except Fault WalkState :=
  if st.mso_collector.data.length > 0 then
    match scan_drawing_group st.mso_collector.data with
    | .error e => .error e
    | .ok found =>
      .ok ⟨false, buffer_collector_init, st.images ++ found.map Emitted.image⟩
  else .ok ⟨false, buffer_collector_init, st.images⟩

/-- The record walk `while (ptr < end_ptr)` of `xls2img_extract_images`; `rest`
holds the bytes from `ptr` to `end_ptr`.  Every iteration consumes at least the
four header bytes, so `fuel = rest.length` iterations are never exceeded. -/
def record_loop : Nat → List Byte → WalkState → Except Fault WalkState
  | 0, _, st => .ok st
  | fuel + 1, rest, st =>
    match rest with
    | b0 :: b1 :: b2 :: b3 :: body =>
      let recordType := b1.val * 256 + b0.val
      let recordSize := b3.val * 256 + b2.val
      match (if recordType = BIFF8_MsoDrawingGroup then
               if recordSize ≤ body.length then
                 .ok (⟨true, ⟨body.take recordSize, recordSize * 2⟩, st.images⟩ : WalkState)
               else .error Fault.outOfBounds
             else if st.collecting_mso ∧ recordType = BIFF8_CONTINUE then
               if recordSize ≤ body.length then
                 .ok { st with
                       mso_collector :=
                         buffer_collector_append st.mso_collector (body.take recordSize) }
               else .error Fault.outOfBounds
             else if st.collecting_mso then flush_collector st
             else .ok st) with
      | .error e => .error e
      | .ok st1 =>
        if recordSize > body.length then .ok st1
        else record_loop fuel (body.drop recordSize) st1
    | _ => .ok st

/-- The function `xls2img_extract_images(workbook_data, workbook_size, result)`
for a non-null `workbook_data` of `workbook_size = workbook_data.length` bytes and
a non-null `result`: the returned `int` and the final contents of `*result`. -/
def xls2img_extract_images (workbook_data : List Byte) (result : XLS2IMG_RESULT) :
    Except Fault (Int × XLS2IMG_RESULT) :=
  if workbook_data.length = 0 then .ok (XLS2IMG_ERROR_INVALID_ARGUMENT, result)
  else
    match record_loop workbook_data.length workbook_data ⟨false, buffer_collector_init, []⟩ with
    | .error e => .error e
    | .ok st =>
      let count := st.images.length
      if count > 0 then .ok ((count : Int), ⟨st.images, (count : Int)⟩)
      else .ok (XLS2IMG_ERROR_NO_IMAGES, ⟨[], 0⟩)


/-- The signature recogniser of the specification, PNG case: the eight bytes at
position `i` of the blob are the PNG signature. -/
def isPngStart (blob : List Byte) (i : Nat) : Prop := pngSignature <+: blob.drop i

/-- The signature recogniser of the specification, JPEG case: the blob holds
`FF D8` at position `i`, followed by the APP marker `FF E0` with the identifier
`JFIF` at `i + 6`, or by `FF E1` with the identifier `Exif` at `i + 6`. -/
def isJpegStart (blob : List Byte) (i : Nat) : Prop :=
  ([0xFF, 0xD8, 0xFF, 0xE0] <+: blob.drop i ∧ jfifId <+: blob.drop (i + 6)) ∨
  ([0xFF, 0xD8, 0xFF, 0xE1] <+: blob.drop i ∧ exifId <+: blob.drop (i + 6))

/-- Position `i` of the blob is an image start: a PNG signature or a JFIF / Exif
JPEG header. -/
def isImageStart (blob : List Byte) (i : Nat) : Prop := isPngStart blob i ∨ isJpegStart blob i

instance (blob : List Byte) (i : Nat) : Decidable (isPngStart blob i) := by
  unfold isPngStart; infer_instance
instance (blob : List Byte) (i : Nat) : Decidable (isJpegStart blob i) := by
  unfold isJpegStart; infer_instance
instance (blob : List Byte) (i : Nat) : Decidable (isImageStart blob i) := by
  unfold isImageStart; infer_instance


/-- Equality of outcomes is decidable. -/
instance decEqOutcome {α : Type} [DecidableEq α] : DecidableEq (Except Fault α)
  | .ok a, .ok b =>
    if h : a = b then isTrue (by rw [h]) else isFalse (fun hc => h (by cases hc; rfl))
  | .error a, .error b =>
    if h : a = b then isTrue (by rw [h]) else isFalse (fun hc => h (by cases hc; rfl))
  | .ok _, .error _ => isFalse (fun hc => by cases hc)
  | .error _, .ok _ => isFalse (fun hc => by cases hc)

/-- A BIFF8 record: its 16-bit type and its payload. -/
structure Record where
  type : Nat
  payload : List Byte
  deriving DecidableEq, Repr

/-- The two bytes of a 16-bit value, little-endian. -/
def u16le (n : Nat) : List Byte := [Fin.ofNat (n % 256), Fin.ofNat (n / 256 % 256)]

/-- The bytes of a record in the workbook stream: `u16 type, u16 size`, payload. -/
def Record.encode (r : Record) : List Byte :=
  u16le r.type ++ u16le r.payload.length ++ r.payload

/-- A record whose type and payload length fit their 16-bit header fields. -/
def Record.valid (r : Record) : Prop := r.type < 65536 ∧ r.payload.length < 65536

/-- The workbook stream made of the given records, in order. -/
def encode_records : List Record → List Byte
  | [] => []
  | r :: rs => r.encode ++ encode_records rs

/-- A drawing group of 16 bytes: the PNG signature followed by a chunk header
whose length field is `FF FF FF F4` and whose type is not `IEND`. -/
def c1_blob : List Byte :=
  [0x89, 0x50, 0x4E, 0x47, 0x0D, 0x0A, 0x1A, 0x0A, 0xFF, 0xFF, 0xFF, 0xF4, 0x49, 0x44, 0x41, 0x54]

/-- A workbook stream of two records: `MsoDrawingGroup` carrying `c1_blob`, then `EOF`. -/
def c1_workbook : List Byte :=
  [0xEB, 0x00, 0x10, 0x00] ++ c1_blob ++ [0x0A, 0x00, 0x00, 0x00]

/-- The effect of one iteration of the record walk on a whole record (lines
297-360): start a collection, append a `Continue` payload, flush, or nothing. -/
def record_step (st : WalkState) (r : Record) : Except Fault WalkState :=
  if r.type = BIFF8_MsoDrawingGroup then
    .ok ⟨true, ⟨r.payload, r.payload.length * 2⟩, st.images⟩
  else if st.collecting_mso ∧ r.type = BIFF8_CONTINUE then
    .ok { st with mso_collector := buffer_collector_append st.mso_collector r.payload }
  else if st.collecting_mso then flush_collector st
  else .ok st

/-- The record walk over a list of whole records: `record_step` on each in turn. -/
def walk_records : WalkState → List Record → Except Fault WalkState
  | st, [] => .ok st
  | st, r :: rs =>
    match record_step st r with
    | .error e => .error e
    | .ok st1 => walk_records st1 rs

/-- The value returned by `xls2img_extract_images` and the final `*result`, from
the images collected by the record walk (lines 366-383). -/
def extract_outcome (images : List XLS2IMG_IMAGE) : Int × XLS2IMG_RESULT :=
  if images.length > 0 then ((images.length : Int), ⟨images, (images.length : Int)⟩)
  else (XLS2IMG_ERROR_NO_IMAGES, ⟨[], 0⟩)


/-- A PNG chunk other than the final `IEND`: type, payload and CRC field. -/
structure PngChunk where
  type : List Byte
  payload : List Byte
  crc : List Byte
  deriving DecidableEq, Repr

/-- The four bytes of a 32-bit value, big-endian. -/
def be32_bytes (n : Nat) : List Byte :=
  [Fin.ofNat (n / 2 ^ 24 % 256), Fin.ofNat (n / 2 ^ 16 % 256), Fin.ofNat (n / 2 ^ 8 % 256),
    Fin.ofNat (n % 256)]

/-- The bytes of a chunk: 4-byte big-endian length, 4-byte type, payload, 4-byte CRC. -/
def PngChunk.encode (c : PngChunk) : List Byte :=
  be32_bytes c.payload.length ++ c.type ++ c.payload ++ c.crc

/-- A chunk with a 4-byte type other than `IEND`, a 4-byte CRC field and a
payload length allowed by the PNG format (below `2^31`). -/
def PngChunk.valid (c : PngChunk) : Prop :=
  c.type.length = 4 ∧ c.type ≠ iendType ∧ c.crc.length = 4 ∧ c.payload.length < 2 ^ 31

/-- The bytes of a sequence of chunks. -/
def encode_chunks : List PngChunk → List Byte
  | [] => []
  | c :: cs => c.encode ++ encode_chunks cs

/-- The zero-length `IEND` chunk with CRC field `crc`. -/
def iend_chunk (crc : List Byte) : List Byte := [0, 0, 0, 0] ++ iendType ++ crc

/-- A well-formed PNG: the signature, the chunks, and the final `IEND` chunk. -/
def png_file (chunks : List PngChunk) (crc : List Byte) : List Byte :=
  pngSignature ++ encode_chunks chunks ++ iend_chunk crc

instance (r : Record) : Decidable r.valid := by
  unfold Record.valid; infer_instance

instance (c : PngChunk) : Decidable c.valid := by
  unfold PngChunk.valid; infer_instance

/-- The chunks of a small PNG: `IHDR` (13-byte payload) and `IDAT` (10-byte payload). -/
def c2_chunks : List PngChunk :=
  [⟨[0x49, 0x48, 0x44, 0x52], [0, 0, 0, 1, 0, 0, 0, 1, 8, 0, 0, 0, 0], [0x3A, 0x7E, 0x9B, 0x55]⟩,
   ⟨[0x49, 0x44, 0x41, 0x54], [0x08, 0x1D, 0x63, 0x60, 0x00, 0x00, 0x00, 0x02, 0x00, 0x01],
     [0xCF, 0xC8, 0x35, 0xE5]⟩]

/-- The CRC field of the `IEND` chunk of the small PNG. -/
def c2_crc : List Byte := [0xAE, 0x42, 0x60, 0x82]

/-- The small PNG, 67 bytes. -/
def c2_png : List Byte := png_file c2_chunks c2_crc

/-- Sixteen bytes of leading junk. -/
def c2_junk : List Byte := List.replicate 16 0x11

/-- Thirty-two bytes of trailing junk. -/
def c2_trailing : List Byte := List.replicate 32 0x22

/-- The drawing-group blob `junk(16) ++ PNG ++ junk(32)`. -/
def c2_blob : List Byte := c2_junk ++ c2_png ++ c2_trailing

/-- A `BOF` record (type `0x0809`) preceding the drawing group. -/
def bof_record : Record := ⟨0x0809, [0x00, 0x06, 0x05, 0x00]⟩

/-- An `EOF` record. -/
def eof_record : Record := ⟨BIFF8_EOF_RECORD, []⟩

/-- An empty `MsoDrawingGroup` record. -/
def empty_mso_record : Record := ⟨BIFF8_MsoDrawingGroup, []⟩

/-- The first ten bytes of a JPEG as recognised by the scanner: `FF D8`, the APP0
marker `FF E0` (APP1 `FF E1` when `exif`), the two length bytes, and the
identifier `JFIF` (`Exif`). -/
def jpeg_header (exif : Bool) (l0 l1 : Byte) : List Byte :=
  [0xFF, 0xD8, 0xFF, if exif then 0xE1 else 0xE0, l0, l1] ++ (if exif then exifId else jfifId)

/-- A JFIF or Exif JPEG: the header, any bytes, and the end-of-image marker `FF D9`. -/
def jpeg_file (exif : Bool) (l0 l1 : Byte) (body : List Byte) : List Byte :=
  jpeg_header exif l0 l1 ++ body ++ [0xFF, 0xD9]

/-- The byte string holds the pair `FF D9` at position `q`. -/
def hasEoiAt (bytes : List Byte) (q : Nat) : Prop := [0xFF, 0xD9] <+: bytes.drop q

instance (bytes : List Byte) (q : Nat) : Decidable (hasEoiAt bytes q) := by
  unfold hasEoiAt; infer_instance

/-- A JPEG that starts with `FF D8 FF E0 00 10 'JFIF' 00` and ends with `FF D9`. -/
def jfif_file (body : List Byte) : List Byte := jpeg_file false 0x00 0x10 (0x00 :: body)

/-- A small JFIF JPEG, 16 bytes. -/
def c3_jpeg : List Byte := jfif_file [0x01, 0x02, 0x03]

/-- Trailing junk that holds the pair `FF D9`. -/
def c3_junk_eoi : List Byte := [0x33, 0xFF, 0xD9, 0x33]

/-- Trailing junk without a `FF D9` pair. -/
def c3_junk : List Byte := [0x33, 0xFF, 0xD8, 0x33]

/-- A small Exif JPEG, 14 bytes. -/
def c4_jpeg : List Byte := jpeg_file true 0x00 0x08 [0x00, 0x00]

/-- A pending image `(last_img_start, last_img_fmt)` as the scan loop sets it: the
format is PNG at a PNG signature, JPEG at a JFIF or Exif JPEG header. -/
def pending_ok (blob : List Byte) (p : Nat × XLS2IMG_FORMAT) : Prop :=
  (p.2 = XLS2IMG_PNG ∧ isPngStart blob p.1) ∨ (p.2 = XLS2IMG_JPG ∧ isJpegStart blob p.1)

/-- The image `e` was emitted by `process_last_image_if_any` for a pending image
finalised against the bound `B` (the next header, or the end of the blob). -/
def emitted_from (blob : List Byte) (B : Nat) (e : Emitted) : Prop :=
  e.start < B ∧ B ≤ blob.length ∧ 0 < e.image.size ∧
  e.start + e.image.size ≤ blob.length ∧
  e.image.data = (blob.drop e.start).take e.image.size ∧
  ((e.image.format = XLS2IMG_PNG ∧ isPngStart blob e.start ∧
      xls2img_find_png_end (blob.drop e.start) (B - e.start) = .ok (e.image.size : Int)) ∨
   (e.image.format = XLS2IMG_JPG ∧ isJpegStart blob e.start ∧
      xls2img_find_jpg_end blob B e.start = .ok (e.image.size : Int)))

/-- A blob with a bare `FF D8` pair at offset 0, an Exif JPEG at offset 4 and the
small PNG after it. -/
def c8_blob : List Byte := [0xFF, 0xD8, 0x00, 0x00] ++ c4_jpeg ++ c2_png

/-- The workbook carrying `c8_blob` in one `MsoDrawingGroup` record followed by `EOF`. -/
def c8_workbook : List Byte :=
  encode_records [⟨BIFF8_MsoDrawingGroup, c8_blob⟩, eof_record]

/-- The images emitted from `c8_blob`. -/
def c8_found : List Emitted :=
  [⟨4, ⟨XLS2IMG_JPG, 14, c4_jpeg⟩⟩, ⟨18, ⟨XLS2IMG_PNG, 67, c2_png⟩⟩]

/-- How a walk over the chunk framing of a PNG ends. -/
inductive FramingEnd where
  | iend (stop : Nat)
  | crossing
  | oversize
  deriving DecidableEq, Repr

/-- The walk over the chunk framing (4-byte big-endian length, 4-byte type,
payload, 4-byte CRC) of `bytes` from offset `p`, at most `fuel` chunks: it ends
with `iend (q + 12)` at the first chunk of type `IEND`, `q` being the start of that
chunk (the length field of the `IEND` chunk is not used), with `oversize` at a
chunk whose length field is `2^32 - 12` or more, and with `crossing` when the four
length bytes of a chunk are not inside `bytes`. -/
def png_framing_walk (bytes : List Byte) : Nat → Nat → FramingEnd
  | 0, _ => .crossing
  | fuel + 1, p =>
    match bytes[p]?, bytes[p + 1]?, bytes[p + 2]?, bytes[p + 3]? with
    | some b0, some b1, some b2, some b3 =>
      if iendType <+: bytes.drop (p + 4) then .iend (p + 12)
      else if 2 ^ 32 ≤ 12 + be32 b0 b1 b2 b3 then .oversize
      else png_framing_walk bytes fuel (p + 12 + be32 b0 b1 b2 b3)
    | _, _, _, _ => .crossing

/-- The end of a PNG in the words of the specification: from offset `p`, each
chunk is a 4-byte big-endian length, a 4-byte type, `length` payload bytes and a
4-byte CRC, and the image ends immediately after the CRC of the chunk whose type
is `IEND`; `none` when a chunk crosses the end of `bytes`. -/
def spec_png_end (bytes : List Byte) : Nat → Nat → Option Nat
  | 0, _ => none
  | fuel + 1, p =>
    match bytes[p]?, bytes[p + 1]?, bytes[p + 2]?, bytes[p + 3]? with
    | some b0, some b1, some b2, some b3 =>
      let stop := p + 12 + be32 b0 b1 b2 b3
      if bytes.length < stop then none
      else if iendType <+: bytes.drop (p + 4) then some stop
      else spec_png_end bytes fuel stop
    | _, _, _, _ => none

/-- A drawing group holding the PNG signature and an `IEND` chunk whose length
field is 5: five payload bytes and the CRC follow the type. -/
def c6_blob : List Byte :=
  pngSignature ++ [0x00, 0x00, 0x00, 0x05] ++ iendType ++ [0x01, 0x02, 0x03, 0x04, 0x05] ++
    [0xAA, 0xBB, 0xCC, 0xDD]

/-- The workbook carrying `c6_blob` in one `MsoDrawingGroup` record followed by `EOF`. -/
def c6_workbook : List Byte :=
  encode_records [⟨BIFF8_MsoDrawingGroup, c6_blob⟩, eof_record]

/-- The image that `xls2img_extract_images` emits on `c6_workbook`. -/
def c6_image : XLS2IMG_IMAGE := ⟨XLS2IMG_PNG, 20, c6_blob.take 20⟩

/-- The workbook carrying the small PNG in one `MsoDrawingGroup` record followed
by `EOF`. -/
def c6_good_workbook : List Byte :=
  encode_records [⟨BIFF8_MsoDrawingGroup, c2_png⟩, eof_record]

/-- The `Continue` payloads of the small PNG split in three: bytes 40-59 and 60-66. -/
def c5_payloads : List (List Byte) := [(c2_png.drop 40).take 20, c2_png.drop 60]

/-- A drawing group holding an Exif JPEG followed by a PNG signature and an
`IEND` chunk whose four CRC bytes are missing: the blob ends after the type. -/
def c10_blob : List Byte := c4_jpeg ++ pngSignature ++ [0x00, 0x00, 0x00, 0x00] ++ iendType

/-- The workbook carrying `c10_blob` in one `MsoDrawingGroup` record followed by `EOF`. -/
def c10_workbook : List Byte :=
  encode_records [⟨BIFF8_MsoDrawingGroup, c10_blob⟩, eof_record]


/-! ## The compound-file reader (`src/src/xls2img_reader.c`)

Further conventions.

* `size_t` has 64 bits and the host is little-endian, so `parse_uint32` and the
  reads of the packed header and entry fields are little-endian reads.
* The header fields are read at their offsets in `COMPOUND_FILE_HDR` (512 bytes) and
  the entry fields at their offsets in `COMPOUND_FILE_ENTRY` (128 bytes).  These
  reads are total (`0` outside the buffer): `xls2img_open` accepts only buffers of
  at least 512 bytes and `xls2img_get_entry` returns only entries whose 128 bytes
  lie inside the buffer.  The 4-byte reads of `parse_uint32` at computed addresses
  are checked, and fault when they leave the buffer.
* The loops of the reader other than the directory walk are run with the number of
  iterations that bounds them in a reader made by `xls2img_open`, whose sector size
  is 512 or 4096 and whose mini-sector size is 64; they report
  `Fault.nonTermination` should that number be used up.
* The directory walk of `xls2img_get_workbook` need not terminate; it takes the
  number of iterations it may run as `fuel` and reports `Fault.nonTermination`
  when they are used up.
* The outcome of `malloc((size_t)entry->size)` in `xls2img_get_workbook` depends on
  the host; `xls2img_get_workbook_malloc` takes it as a parameter, and
  `xls2img_get_workbook` stands for the runs in which the allocation succeeds.  The
  allocation of the reader in `xls2img_open` (a fixed, small size) is taken to
  succeed.
-/

/-- Error code `XLS2IMG_SUCCESS`. -/
def XLS2IMG_SUCCESS : Int := 0

/-- Error code `XLS2IMG_ERROR_WRONG_FORMAT`. -/
def XLS2IMG_ERROR_WRONG_FORMAT : Int := -1

/-- Error code `XLS2IMG_ERROR_FILE_CORRUPTED`. -/
def XLS2IMG_ERROR_FILE_CORRUPTED : Int := -2

/-- Error code `XLS2IMG_ERROR_NO_WORKBOOK`. -/
def XLS2IMG_ERROR_NO_WORKBOOK : Int := -4

/-- Error code `XLS2IMG_ERROR_OUT_OF_MEMORY`. -/
def XLS2IMG_ERROR_OUT_OF_MEMORY : Int := -6

/-- The function `xls2img_strerror`. -/
def xls2img_strerror (error_code : Int) : String :=
  if error_code = XLS2IMG_SUCCESS then "Success"
  else if error_code = XLS2IMG_ERROR_WRONG_FORMAT then "Wrong file format"
  else if error_code = XLS2IMG_ERROR_FILE_CORRUPTED then "File is corrupted"
  else if error_code = XLS2IMG_ERROR_INVALID_ARGUMENT then "Invalid argument"
  else if error_code = XLS2IMG_ERROR_NO_WORKBOOK then "No workbook found"
  else if error_code = XLS2IMG_ERROR_NO_IMAGES then "No images found"
  else "Unknown error"

/-- The byte at offset `pos` of the buffer as a number (`0` outside the buffer). -/
def u8_at (buffer : List Byte) (pos : Nat) : Nat := (buffer.getD pos 0).val

/-- The little-endian `uint16_t` at offset `pos`. -/
def le16_at (buffer : List Byte) (pos : Nat) : Nat :=
  u8_at buffer pos + 256 * u8_at buffer (pos + 1)

/-- The little-endian `uint32_t` at offset `pos`. -/
def le32_at (buffer : List Byte) (pos : Nat) : Nat :=
  u8_at buffer pos + 256 * u8_at buffer (pos + 1) + 65536 * u8_at buffer (pos + 2) +
    16777216 * u8_at buffer (pos + 3)

/-- The little-endian `uint64_t` at offset `pos`. -/
def le64_at (buffer : List Byte) (pos : Nat) : Nat :=
  le32_at buffer pos + 4294967296 * le32_at buffer (pos + 4)

/-- The function `parse_uint32` applied to the address `buffer + pos`: it reads
the four bytes `pos .. pos + 3`. -/
def parse_uint32 (buffer : List Byte) (pos : Nat) : Except Fault Nat :=
  if pos + 4 ≤ buffer.length then .ok (le32_at buffer pos) else .error .outOfBounds

/-- The magic `D0 CF 11 E0 A1 B1 1A E1`. -/
def cfb_magic : List Byte := [0xD0, 0xCF, 0x11, 0xE0, 0xA1, 0xB1, 0x1A, 0xE1]

/-- The struct `XLS2IMG_READER`; `bufferLen` is `buffer.length` and `hdr` points to
the start of `buffer`. -/
structure XLS2IMG_READER where
  buffer : List Byte
  sectorSize : Nat
  minisectorSize : Nat
  miniStreamStartSector : Nat
  deriving DecidableEq, Repr

/-- The value of `sizeof(COMPOUND_FILE_HDR)`. -/
def sizeof_COMPOUND_FILE_HDR : Nat := 512

/-- The value of `sizeof(COMPOUND_FILE_ENTRY)`. -/
def sizeof_COMPOUND_FILE_ENTRY : Nat := 128

/-- Header field `majorVersion` (offset 26). -/
def hdr_majorVersion (buffer : List Byte) : Nat := le16_at buffer 26

/-- Header field `firstDirectorySectorLocation` (offset 48). -/
def hdr_firstDirectorySectorLocation (buffer : List Byte) : Nat := le32_at buffer 48

/-- Header field `miniStreamCutoffSize` (offset 56). -/
def hdr_miniStreamCutoffSize (buffer : List Byte) : Nat := le32_at buffer 56

/-- Header field `firstMiniFATSectorLocation` (offset 60). -/
def hdr_firstMiniFATSectorLocation (buffer : List Byte) : Nat := le32_at buffer 60

/-- Header field `firstDIFATSectorLocation` (offset 68). -/
def hdr_firstDIFATSectorLocation (buffer : List Byte) : Nat := le32_at buffer 68

/-- Header field `headerDIFAT[n]` (offset `76 + 4 * n`), for `n < 109`. -/
def hdr_headerDIFAT (buffer : List Byte) (n : Nat) : Nat := le32_at buffer (76 + 4 * n)

/-- Entry field `name[i]` of the entry at offset `entry` (offset `2 * i`). -/
def entry_name_at (buffer : List Byte) (entry i : Nat) : Nat := le16_at buffer (entry + 2 * i)

/-- The 32 UTF-16 units of the entry field `name`. -/
def entry_name (buffer : List Byte) (entry : Nat) : List Nat :=
  (List.range 32).map (entry_name_at buffer entry)

/-- Entry field `nameLen` (offset 64). -/
def entry_nameLen (buffer : List Byte) (entry : Nat) : Nat := le16_at buffer (entry + 64)

/-- Entry field `type` (offset 66). -/
def entry_type (buffer : List Byte) (entry : Nat) : Nat := u8_at buffer (entry + 66)

/-- Entry field `leftSiblingID` (offset 68). -/
def entry_leftSiblingID (buffer : List Byte) (entry : Nat) : Nat := le32_at buffer (entry + 68)

/-- Entry field `rightSiblingID` (offset 72). -/
def entry_rightSiblingID (buffer : List Byte) (entry : Nat) : Nat := le32_at buffer (entry + 72)

/-- Entry field `childID` (offset 76). -/
def entry_childID (buffer : List Byte) (entry : Nat) : Nat := le32_at buffer (entry + 76)

/-- Entry field `startSectorLocation` (offset 116). -/
def entry_startSectorLocation (buffer : List Byte) (entry : Nat) : Nat :=
  le32_at buffer (entry + 116)

/-- Entry field `size` (offset 120). -/
def entry_size (buffer : List Byte) (entry : Nat) : Nat := le64_at buffer (entry + 120)

/-- The function `xls2img_sector_offset_to_address`: the offset of the returned
pointer from `buffer`, `none` for `NULL`. -/
def xls2img_sector_offset_to_address (reader : XLS2IMG_READER) (sector offset : Nat) :
    Option Nat :=
  if sector ≥ 0xFFFFFFFA ∨ offset ≥ reader.sectorSize then none
  else
    let pos := reader.sectorSize + reader.sectorSize * sector + offset
    if pos ≥ reader.buffer.length then none else some pos

/-- The loop `while (fatSectorNumber >= entriesPerSector)` of
`xls2img_get_fat_sector_location`: `none` when the function returns `0xFFFFFFFF`
from inside the loop, else the final `(fatSectorNumber, difatSectorLocation)`.
Each iteration lowers `fatSectorNumber` by `entriesPerSector`, which is 127 or 1023,
so `fuel = fatSectorNumber + 1` iterations are never exceeded. -/
def difat_loop (reader : XLS2IMG_READER) (entriesPerSector : Nat) :
    Nat → Nat → Nat → Except Fault (Option (Nat × Nat))
  | 0, _, _ => .error .nonTermination
  | fuel + 1, fatSectorNumber, difatSectorLocation =>
    if fatSectorNumber ≥ entriesPerSector then
      match xls2img_sector_offset_to_address reader difatSectorLocation
          (reader.sectorSize - 4) with
      | none => .ok none
      | some addr =>
        match parse_uint32 reader.buffer addr with
        | .error e => .error e
        | .ok next => difat_loop reader entriesPerSector fuel
            (fatSectorNumber - entriesPerSector) next
    else .ok (some (fatSectorNumber, difatSectorLocation))

/-- The function `xls2img_get_fat_sector_location`. -/
def xls2img_get_fat_sector_location (reader : XLS2IMG_READER) (fatSectorNumber : Nat) :
    Except Fault Nat :=
  if fatSectorNumber < 109 then .ok (hdr_headerDIFAT reader.buffer fatSectorNumber)
  else
    let fatSectorNumber := fatSectorNumber - 109
    let entriesPerSector := reader.sectorSize / 4 - 1
    match difat_loop reader entriesPerSector (fatSectorNumber + 1) fatSectorNumber
        (hdr_firstDIFATSectorLocation reader.buffer) with
    | .error e => .error e
    | .ok none => .ok 0xFFFFFFFF
    | .ok (some (fatSectorNumber, difatSectorLocation)) =>
      match xls2img_sector_offset_to_address reader difatSectorLocation
          (fatSectorNumber * 4) with
      | none => .ok 0xFFFFFFFF
      | some addr => parse_uint32 reader.buffer addr

/-- The function `xls2img_get_next_sector`. -/
def xls2img_get_next_sector (reader : XLS2IMG_READER) (sector : Nat) : Except Fault Nat :=
  let entriesPerSector := reader.sectorSize / 4
  let fatSectorNumber := sector / entriesPerSector
  match xls2img_get_fat_sector_location reader fatSectorNumber with
  | .error e => .error e
  | .ok fatSectorLocation =>
    match xls2img_sector_offset_to_address reader fatSectorLocation
        ((sector % entriesPerSector) * 4) with
    | none => .ok 0xFFFFFFFF
    | some addr => parse_uint32 reader.buffer addr

/-- The loop of `xls2img_locate_final_sector`.  Each iteration lowers `offset` by
the sector size, so `fuel = offset` iterations are never exceeded. -/
def locate_final_sector_loop (reader : XLS2IMG_READER) :
    Nat → Nat → Nat → Except Fault (Nat × Nat)
  | 0, sector, offset =>
    if offset ≥ reader.sectorSize then .error .nonTermination else .ok (sector, offset)
  | fuel + 1, sector, offset =>
    if offset ≥ reader.sectorSize then
      match xls2img_get_next_sector reader sector with
      | .error e => .error e
      | .ok next =>
        if next = 0xFFFFFFFE ∨ next = 0xFFFFFFFF then .ok (sector, offset - reader.sectorSize)
        else locate_final_sector_loop reader fuel next (offset - reader.sectorSize)
    else .ok (sector, offset)

/-- The function `xls2img_locate_final_sector`: the pair `(finalSector, finalOffset)`. -/
def xls2img_locate_final_sector (reader : XLS2IMG_READER) (sector offset : Nat) :
    Except Fault (Nat × Nat) :=
  locate_final_sector_loop reader offset sector offset

/-- The loop `while (len > 0)` of `xls2img_read_stream`: the bytes written to the
output buffer, in order.  Each iteration copies at least one byte, so `fuel = len`
iterations are never exceeded. -/
def read_stream_loop (reader : XLS2IMG_READER) : Nat → Nat → Nat → Nat → Except Fault (List Byte)
  | 0, _, _, len => if len > 0 then .error .nonTermination else .ok []
  | fuel + 1, sector, offset, len =>
    if len > 0 then
      match xls2img_sector_offset_to_address reader sector offset with
      | none => .ok []
      | some src =>
        let copylen :=
          if len < reader.sectorSize - offset then len else reader.sectorSize - offset
        if reader.buffer.length < src + copylen then .ok []
        else
          let copied := (reader.buffer.drop src).take copylen
          match xls2img_get_next_sector reader sector with
          | .error e => .error e
          | .ok next =>
            if next = 0xFFFFFFFE ∨ next = 0xFFFFFFFF then .ok copied
            else
              match read_stream_loop reader fuel next 0 (len - copylen) with
              | .error e => .error e
              | .ok more => .ok (copied ++ more)
    else .ok []

/-- The function `xls2img_read_stream`: the bytes written to the output buffer
(a prefix of its `len` bytes; the rest stays uninitialised). -/
def xls2img_read_stream (reader : XLS2IMG_READER) (sector offset len : Nat) :
    Except Fault (List Byte) :=
  match xls2img_locate_final_sector reader sector offset with
  | .error e => .error e
  | .ok (sector, offset) => read_stream_loop reader len sector offset len

/-- The function `xls2img_get_next_mini_sector`. -/
def xls2img_get_next_mini_sector (reader : XLS2IMG_READER) (miniSector : Nat) :
    Except Fault Nat :=
  match xls2img_locate_final_sector reader (hdr_firstMiniFATSectorLocation reader.buffer)
      (miniSector * 4) with
  | .error e => .error e
  | .ok (sector, offset) =>
    match xls2img_sector_offset_to_address reader sector offset with
    | none => .ok 0xFFFFFFFF
    | some addr => parse_uint32 reader.buffer addr

/-- The function `xls2img_mini_sector_offset_to_address`. -/
def xls2img_mini_sector_offset_to_address (reader : XLS2IMG_READER) (sector offset : Nat) :
    Except Fault (Option Nat) :=
  match xls2img_locate_final_sector reader reader.miniStreamStartSector
      (sector * reader.minisectorSize + offset) with
  | .error e => .error e
  | .ok (sectorPos, sectorOffset) =>
    .ok (xls2img_sector_offset_to_address reader sectorPos sectorOffset)

/-- The loop of `xls2img_locate_final_mini_sector`, with `fuel = offset`. -/
def locate_final_mini_sector_loop (reader : XLS2IMG_READER) :
    Nat → Nat → Nat → Except Fault (Nat × Nat)
  | 0, sector, offset =>
    if offset ≥ reader.minisectorSize then .error .nonTermination else .ok (sector, offset)
  | fuel + 1, sector, offset =>
    if offset ≥ reader.minisectorSize then
      match xls2img_get_next_mini_sector reader sector with
      | .error e => .error e
      | .ok next =>
        if next = 0xFFFFFFFE ∨ next = 0xFFFFFFFF then
          .ok (sector, offset - reader.minisectorSize)
        else locate_final_mini_sector_loop reader fuel next (offset - reader.minisectorSize)
    else .ok (sector, offset)

/-- The function `xls2img_locate_final_mini_sector`. -/
def xls2img_locate_final_mini_sector (reader : XLS2IMG_READER) (sector offset : Nat) :
    Except Fault (Nat × Nat) :=
  locate_final_mini_sector_loop reader offset sector offset

/-- The loop `while (len > 0)` of `xls2img_read_mini_stream`.  Only the first
iteration can copy no byte (when `offset` is the mini-sector size), so
`fuel = len + 1` iterations are never exceeded. -/
def read_mini_stream_loop (reader : XLS2IMG_READER) :
    Nat → Nat → Nat → Nat → Except Fault (List Byte)
  | 0, _, _, len => if len > 0 then .error .nonTermination else .ok []
  | fuel + 1, sector, offset, len =>
    if len > 0 then
      match xls2img_mini_sector_offset_to_address reader sector offset with
      | .error e => .error e
      | .ok none => .ok []
      | .ok (some src) =>
        let room := (reader.minisectorSize + 2 ^ 64 - offset) % 2 ^ 64
        let copylen := if len < room then len else room
        if reader.buffer.length < src + copylen then .ok []
        else
          let copied := (reader.buffer.drop src).take copylen
          match xls2img_get_next_mini_sector reader sector with
          | .error e => .error e
          | .ok next =>
            if next = 0xFFFFFFFE ∨ next = 0xFFFFFFFF then .ok copied
            else
              match read_mini_stream_loop reader fuel next 0 (len - copylen) with
              | .error e => .error e
              | .ok more => .ok (copied ++ more)
    else .ok []

/-- The function `xls2img_read_mini_stream`: the bytes written to the output buffer. -/
def xls2img_read_mini_stream (reader : XLS2IMG_READER) (sector offset len : Nat) :
    Except Fault (List Byte) :=
  match xls2img_locate_final_mini_sector reader sector offset with
  | .error e => .error e
  | .ok (sector, offset) => read_mini_stream_loop reader (len + 1) sector offset len

/-- The function `xls2img_get_entry`: the offset of the returned entry from
`buffer`, `none` for `NULL`. -/
def xls2img_get_entry (reader : XLS2IMG_READER) (entryID : Nat) : Except Fault (Option Nat) :=
  if entryID = 0xFFFFFFFF then .ok none
  else
    match xls2img_locate_final_sector reader (hdr_firstDirectorySectorLocation reader.buffer)
        (entryID * sizeof_COMPOUND_FILE_ENTRY) with
    | .error e => .error e
    | .ok (sector, offset) =>
      if reader.buffer.length ≤
          reader.sectorSize + reader.sectorSize * sector + offset +
            sizeof_COMPOUND_FILE_ENTRY then .ok none
      else .ok (some (reader.sectorSize + reader.sectorSize * sector + offset))

/-- The function `xls2img_read_file` for the entry at offset `entry`: the bytes
written to the output buffer. -/
def xls2img_read_file (reader : XLS2IMG_READER) (entry : Nat) : Except Fault (List Byte) :=
  if entry_size reader.buffer entry = 0 then .ok []
  else if entry_size reader.buffer entry < hdr_miniStreamCutoffSize reader.buffer then
    xls2img_read_mini_stream reader (entry_startSectorLocation reader.buffer entry) 0
      (entry_size reader.buffer entry)
  else
    xls2img_read_stream reader (entry_startSectorLocation reader.buffer entry) 0
      (entry_size reader.buffer entry)

/-- The loop of `xls2img_string_compare` with `n` indices left, at index `i`. -/
def string_compare_loop (str1 str2 : List Nat) : Nat → Nat → Except Fault Bool
  | 0, _ => .ok true
  | n + 1, i =>
    match str1[i]?, str2[i]? with
    | some a, some b =>
      if a ≠ b then .ok false
      else if a = 0 then .ok true
      else string_compare_loop str1 str2 n (i + 1)
    | _, _ => .error .outOfBounds

/-- The function `xls2img_string_compare`: `true` for a non-zero return value. -/
def xls2img_string_compare (str1 str2 : List Nat) (len : Nat) : Except Fault Bool :=
  string_compare_loop str1 str2 len 0

/-- The array `workbookStr`: `Workbook` and the terminating 0. -/
def workbookStr : List Nat := [0x57, 0x6F, 0x72, 0x6B, 0x62, 0x6F, 0x6F, 0x6B, 0]

/-- The array `WORKBOOKStr`: `WORKBOOK` and the terminating 0. -/
def WORKBOOKStr : List Nat := [0x57, 0x4F, 0x52, 0x4B, 0x42, 0x4F, 0x4F, 0x4B, 0]

/-- The test of lines 169-179 of `xls2img_get_workbook` on the entry at offset
`entry`: the entry is a stream, `nameLen / 2` is positive, and one of the two
comparisons returns non-zero. -/
def entry_is_workbook (buffer : List Byte) (entry : Nat) : Except Fault Bool :=
  if entry_type buffer entry = 2 then
    let nameLen := entry_nameLen buffer entry / 2
    if nameLen > 0 then
      match xls2img_string_compare (entry_name buffer entry) workbookStr nameLen with
      | .error e => .error e
      | .ok true => .ok true
      | .ok false => xls2img_string_compare (entry_name buffer entry) WORKBOOKStr nameLen
    else .ok false
  else .ok false

/-- Lines 193-198 of `xls2img_get_workbook`: the next `childID`, `none` for `break`. -/
def next_childID (buffer : List Byte) (entry : Nat) : Option Nat :=
  if entry_leftSiblingID buffer entry ≠ 0xFFFFFFFF then some (entry_leftSiblingID buffer entry)
  else if entry_rightSiblingID buffer entry ≠ 0xFFFFFFFF then
    some (entry_rightSiblingID buffer entry)
  else none

/-- The loop `while (childID != 0xFFFFFFFF)` of `xls2img_get_workbook`, at most
`fuel` iterations: the offset of the entry accepted as the workbook, `none` when
the loop is left without one. -/
def workbook_walk (reader : XLS2IMG_READER) : Nat → Nat → Except Fault (Option Nat)
  | 0, _ => .error .nonTermination
  | fuel + 1, childID =>
    if childID ≠ 0xFFFFFFFF then
      match xls2img_get_entry reader childID with
      | .error e => .error e
      | .ok none => .ok none
      | .ok (some entry) =>
        match entry_is_workbook reader.buffer entry with
        | .error e => .error e
        | .ok true => .ok (some entry)
        | .ok false =>
          match next_childID reader.buffer entry with
          | some next => workbook_walk reader fuel next
          | none => .ok none
    else .ok none

/-- The function `xls2img_get_workbook`, its directory walk running at most `fuel`
iterations: the returned `int`, and the pair `(*data, *size)` when it is written
(`*data` given by the bytes written into the allocated buffer).  The allocator is
a parameter: `malloc n` tells whether `malloc(n)` returns a non-null pointer, and
when `malloc((size_t)entry->size)` returns null the function returns
`XLS2IMG_ERROR_INVALID_ARGUMENT` (line 183). -/
def xls2img_get_workbook_malloc (malloc : Nat → Bool) (fuel : Nat) (reader : XLS2IMG_READER) :
    Except Fault (Int × Option (List Byte × Nat)) :=
  match xls2img_get_entry reader 0 with
  | .error e => .error e
  | .ok none => .ok (XLS2IMG_ERROR_FILE_CORRUPTED, none)
  | .ok (some root) =>
    match workbook_walk reader fuel (entry_childID reader.buffer root) with
    | .error e => .error e
    | .ok none => .ok (XLS2IMG_ERROR_NO_WORKBOOK, none)
    | .ok (some entry) =>
      if malloc (entry_size reader.buffer entry) then
        match xls2img_read_file reader entry with
        | .error e => .error e
        | .ok workbook_data =>
          .ok (XLS2IMG_SUCCESS, some (workbook_data, entry_size reader.buffer entry))
      else .ok (XLS2IMG_ERROR_INVALID_ARGUMENT, none)

/-- The function `xls2img_get_workbook` in the runs in which its allocation
succeeds: `xls2img_get_workbook_malloc` with an allocator that never returns
null. -/
def xls2img_get_workbook (fuel : Nat) (reader : XLS2IMG_READER) :
    Except Fault (Int × Option (List Byte × Nat)) :=
  xls2img_get_workbook_malloc (fun _ => true) fuel reader

/-- Line 131 of `xls2img_open`: `hdr->majorVersion == 3 ? 512 : 4096`. -/
def header_sector_size (buffer : List Byte) : Nat :=
  if hdr_majorVersion buffer = 3 then 512 else 4096

/-- The function `xls2img_open` for a non-null `buffer` of `len = buffer.length`
bytes: the returned `int`, and `*reader` when it is written.  The field
`miniStreamStartSector`, not yet initialised when `xls2img_get_entry` is called and
not read by it, is 0 until it is set. -/
def xls2img_open (buffer : List Byte) : Except Fault (Int × Option XLS2IMG_READER) :=
  if buffer.length = 0 then .ok (XLS2IMG_ERROR_INVALID_ARGUMENT, none)
  else if buffer.length < sizeof_COMPOUND_FILE_HDR ∨ buffer.take 8 ≠ cfb_magic then
    .ok (XLS2IMG_ERROR_WRONG_FORMAT, none)
  else
    let sectorSize := header_sector_size buffer
    if buffer.length < sectorSize * 3 then .ok (XLS2IMG_ERROR_FILE_CORRUPTED, none)
    else
      let r : XLS2IMG_READER := ⟨buffer, sectorSize, 64, 0⟩
      match xls2img_get_entry r 0 with
      | .error e => .error e
      | .ok none => .ok (XLS2IMG_ERROR_FILE_CORRUPTED, none)
      | .ok (some root) =>
        .ok (XLS2IMG_SUCCESS,
          some { r with miniStreamStartSector := entry_startSectorLocation buffer root })

/-- The four bytes of a 32-bit value, little-endian. -/
def le32_bytes (n : Nat) : List Byte :=
  [Fin.ofNat (n % 256), Fin.ofNat (n / 256 % 256), Fin.ofNat (n / 65536 % 256),
    Fin.ofNat (n / 16777216 % 256)]

/-- A compound-file header of 512 bytes with the given major version, first
directory sector, mini-stream cutoff, first mini-FAT sector, first DIFAT sector and
`headerDIFAT[0]`; the other `headerDIFAT` entries are free (`FF FF FF FF`).  It
counts one FAT sector, and one mini-FAT sector when there is a first one. -/
def cfb_header (majorVersion firstDirectorySector cutoff firstMiniFATSector firstDIFATSector
    difat0 : Nat) : List Byte :=
  cfb_magic ++ List.replicate 16 0 ++ u16le 0x3E ++ u16le majorVersion ++ u16le 0xFFFE ++
    u16le 9 ++ u16le 6 ++ List.replicate 6 0 ++ le32_bytes 0 ++ le32_bytes 1 ++
    le32_bytes firstDirectorySector ++ le32_bytes 0 ++ le32_bytes cutoff ++
    le32_bytes firstMiniFATSector ++
    le32_bytes (if firstMiniFATSector = 0xFFFFFFFE then 0 else 1) ++
    le32_bytes firstDIFATSector ++
    le32_bytes 0 ++ le32_bytes difat0 ++ List.replicate 432 0xFF

/-- A directory entry of 128 bytes: the name units (at most 32), `nameLen`, type,
colour (0 red, 1 black), left sibling, right sibling, child, start sector and size
(below `2^32`). -/
def dir_entry (name : List Nat) (nameLen type color left right child start size : Nat) :
    List Byte :=
  (name.map u16le).flatten ++ List.replicate (64 - 2 * name.length) 0 ++ u16le nameLen ++
    [Fin.ofNat type, Fin.ofNat color] ++ le32_bytes left ++ le32_bytes right ++
    le32_bytes child ++
    List.replicate 36 0 ++ le32_bytes start ++ le32_bytes size ++ le32_bytes 0

/-- The UTF-16 units of `Root Entry`. -/
def rootName : List Nat := [0x52, 0x6F, 0x6F, 0x74, 0x20, 0x45, 0x6E, 0x74, 0x72, 0x79]

/-- A FAT sector of 512 bytes whose first entries are given, the others free. -/
def fat_sector (entries : List Nat) : List Byte :=
  (entries.map le32_bytes).flatten ++ List.replicate (512 - 4 * entries.length) 0xFF

/-- The contents of a data sector: 512 times the byte `b`. -/
def data_sector (b : Byte) : List Byte := List.replicate 512 b

/-- A compound file of 2560 bytes with 512-byte sectors.  Sector 0 is the
directory: the root entry with child 1, and the stream `Workbook` (entry 1, 600
bytes, start sector 2).  Sector 1 is the FAT, with the chain 2, 3.  Sectors 2 and
3 hold the stream.  The mini-stream cutoff is 64. -/
def good_cfb : List Byte :=
  cfb_header 3 0 64 0xFFFFFFFE 0xFFFFFFFE 1 ++
    (dir_entry rootName 22 5 1 0xFFFFFFFF 0xFFFFFFFF 1 0xFFFFFFFE 0 ++
      dir_entry (workbookStr.take 8) 18 2 1 0xFFFFFFFF 0xFFFFFFFF 0xFFFFFFFF 2 600 ++
      List.replicate 256 0) ++
    fat_sector [0xFFFFFFFE, 0xFFFFFFFD, 3, 0xFFFFFFFE] ++ data_sector 0xAA ++ data_sector 0xBB

/-- The reader that `xls2img_open` makes for `good_cfb`. -/
def good_reader : XLS2IMG_READER := ⟨good_cfb, 512, 64, 0xFFFFFFFE⟩

/-- A buffer of 512 bytes whose first eight bytes differ from the magic in the
last byte only. -/
def c16_buffer : List Byte :=
  [0xD0, 0xCF, 0x11, 0xE0, 0xA1, 0xB1, 0x1A, 0xE0] ++ List.replicate 504 0

/-- A buffer of 1024 bytes: a version-3 header and one more sector. -/
def c17_buffer : List Byte :=
  cfb_header 3 0 4096 0xFFFFFFFE 0xFFFFFFFE 1 ++ List.replicate 512 0

/-- The `(type, size)` headers of the records met by the record walk of
`xls2img_extract_images` (lines 289-295 and 362-364): a header is read while at
least four bytes remain, and the walk stops when a declared size passes the end. -/
def record_headers : Nat → List Byte → List (Nat × Nat)
  | 0, _ => []
  | fuel + 1, rest =>
    match rest with
    | b0 :: b1 :: b2 :: b3 :: body =>
      let recordType := b1.val * 256 + b0.val
      let recordSize := b3.val * 256 + b2.val
      (recordType, recordSize) ::
        (if recordSize > body.length then [] else record_headers fuel (body.drop recordSize))
    | _ => []

/-- A workbook stream without drawing group: `BOF`, a `Continue` record with a
PNG signature as payload, `EOF`, and three stray bytes. -/
def c11_workbook : List Byte :=
  encode_records [bof_record, ⟨BIFF8_CONTINUE, pngSignature⟩, eof_record] ++ [0xEB, 0x00, 0x01]

/-- A compound file of 1538 bytes with 512-byte sectors: the header names sector 2
as the first FAT sector, sector 0 is the directory (root entry with child 4),
sector 1 is empty, and of sector 2 only the first two bytes are there. -/
def c20_cfb : List Byte :=
  cfb_header 3 0 4096 0xFFFFFFFE 0xFFFFFFFE 2 ++
    (dir_entry rootName 22 5 1 0xFFFFFFFF 0xFFFFFFFF 4 0xFFFFFFFE 0 ++ List.replicate 384 0) ++
    List.replicate 512 0 ++ [0xFE, 0xFF]

/-- The reader that `xls2img_open` makes for `c20_cfb`. -/
def c20_reader : XLS2IMG_READER := ⟨c20_cfb, 512, 64, 0xFFFFFFFE⟩

/-- The UTF-16 name of the entry at offset `entry`, as the specification reads
it: the first `nameLen / 2` units of the field `name`, up to the first 0. -/
def entry_name_string (buffer : List Byte) (entry : Nat) : List Nat :=
  ((entry_name buffer entry).take (entry_nameLen buffer entry / 2)).takeWhile (fun u => u ≠ 0)

/-- The name of the entry is exactly `Workbook` or exactly `WORKBOOK`. -/
def named_workbook (buffer : List Byte) (entry : Nat) : Prop :=
  entry_name_string buffer entry = workbookStr.take 8 ∨
  entry_name_string buffer entry = WORKBOOKStr.take 8

instance (buffer : List Byte) (entry : Nat) : Decidable (named_workbook buffer entry) := by
  unfold named_workbook; infer_instance

/-- The file `good_cfb` with the stream of entry 1 renamed to the one-character
name `W` (`nameLen` 2). -/
def c14_cfb : List Byte :=
  cfb_header 3 0 64 0xFFFFFFFE 0xFFFFFFFE 1 ++
    (dir_entry rootName 22 5 1 0xFFFFFFFF 0xFFFFFFFF 1 0xFFFFFFFE 0 ++
      dir_entry [0x57] 2 2 1 0xFFFFFFFF 0xFFFFFFFF 0xFFFFFFFF 2 600 ++
      List.replicate 256 0) ++
    fat_sector [0xFFFFFFFE, 0xFFFFFFFD, 3, 0xFFFFFFFE] ++ data_sector 0xAA ++ data_sector 0xBB

/-- The reader that `xls2img_open` makes for `c14_cfb`. -/
def c14_reader : XLS2IMG_READER := ⟨c14_cfb, 512, 64, 0xFFFFFFFE⟩

/-- The directory walk of `xls2img_get_workbook`, started at `childID`, leaves its
loop without having accepted an entry: `childID` is `0xFFFFFFFF`, or the entry
cannot be located, or it is not accepted and either has no sibling or the walk
from the sibling chosen by `next_childID` (left preferred, else right) misses
too. -/
inductive WalkMisses (reader : XLS2IMG_READER) : Nat → Prop
  | nil : WalkMisses reader 0xFFFFFFFF
  | unlocatable (childID : Nat) :
      childID ≠ 0xFFFFFFFF → xls2img_get_entry reader childID = .ok none →
      WalkMisses reader childID
  | leaf (childID entry : Nat) :
      childID ≠ 0xFFFFFFFF → xls2img_get_entry reader childID = .ok (some entry) →
      entry_is_workbook reader.buffer entry = .ok false →
      next_childID reader.buffer entry = none → WalkMisses reader childID
  | step (childID entry next : Nat) :
      childID ≠ 0xFFFFFFFF → xls2img_get_entry reader childID = .ok (some entry) →
      entry_is_workbook reader.buffer entry = .ok false →
      next_childID reader.buffer entry = some next → WalkMisses reader next →
      WalkMisses reader childID

/-- The directory walk of `xls2img_get_workbook`, started at `childID`, reaches
the entry at offset `found` and accepts it: the entries before it on the path
chosen by `next_childID` are located and not accepted. -/
inductive WalkFinds (reader : XLS2IMG_READER) : Nat → Nat → Prop
  | here (childID found : Nat) :
      childID ≠ 0xFFFFFFFF → xls2img_get_entry reader childID = .ok (some found) →
      entry_is_workbook reader.buffer found = .ok true → WalkFinds reader childID found
  | step (childID entry next found : Nat) :
      childID ≠ 0xFFFFFFFF → xls2img_get_entry reader childID = .ok (some entry) →
      entry_is_workbook reader.buffer entry = .ok false →
      next_childID reader.buffer entry = some next → WalkFinds reader next found →
      WalkFinds reader childID found

/-- The entries of the sibling tree under entry `entryID`, as offsets, in
pre-order (entry, left subtree, right subtree), down to depth `depth`. -/
def sibling_tree (reader : XLS2IMG_READER) : Nat → Nat → List Nat
  | 0, _ => []
  | depth + 1, entryID =>
    match xls2img_get_entry reader entryID with
    | .ok (some entry) =>
      entry :: (sibling_tree reader depth (entry_leftSiblingID reader.buffer entry) ++
        sibling_tree reader depth (entry_rightSiblingID reader.buffer entry))
    | _ => []

/-- The UTF-16 units of `Book`. -/
def bookName : List Nat := [0x42, 0x6F, 0x6F, 0x6B]

/-- A compound file of six sectors of 512 bytes with the standard mini-stream
cutoff 4096 and three streams `A`, `Book` and `Workbook`.  Sector 0 is the
directory: the root entry (child 1, mini stream of 640 bytes from sector 3), and
the three streams as a search tree in directory order (shorter names first):
`Book` (entry 1, black, empty) with left sibling `A` (entry 2, red, empty) and
right sibling `Workbook` (entry 3, red, 600 bytes from mini sector 0).  Sector 1 is
the FAT, sector 2 the mini FAT with the chain 0, 1, ..., 9, and sectors 3 and 4
hold the mini stream. -/
def right_workbook_cfb : List Byte :=
  cfb_header 3 0 4096 2 0xFFFFFFFE 1 ++
    (dir_entry rootName 22 5 1 0xFFFFFFFF 0xFFFFFFFF 1 3 640 ++
      dir_entry bookName 10 2 1 2 3 0xFFFFFFFF 0xFFFFFFFE 0 ++
      dir_entry [0x41] 4 2 0 0xFFFFFFFF 0xFFFFFFFF 0xFFFFFFFF 0xFFFFFFFE 0 ++
      dir_entry (workbookStr.take 8) 18 2 0 0xFFFFFFFF 0xFFFFFFFF 0xFFFFFFFF 0 600) ++
    fat_sector [0xFFFFFFFE, 0xFFFFFFFD, 0xFFFFFFFE, 4, 0xFFFFFFFE] ++
    fat_sector [1, 2, 3, 4, 5, 6, 7, 8, 9, 0xFFFFFFFE] ++
    data_sector 0xAA ++ data_sector 0xBB

/-- The reader that `xls2img_open` makes for `right_workbook_cfb`. -/
def right_workbook_reader : XLS2IMG_READER := ⟨right_workbook_cfb, 512, 64, 3⟩

/-- The contents of sector `s`: the `sectorSize` bytes at file offset
`sectorSize * (s + 1)`. -/
def sector_bytes (reader : XLS2IMG_READER) (s : Nat) : List Byte :=
  (reader.buffer.drop (reader.sectorSize * (s + 1))).take reader.sectorSize

/-- The list `chain` is a FAT chain of sectors lying inside the buffer: each of
its sectors is a regular sector number whose `sectorSize` bytes are in the buffer,
the FAT entry of each sector can be read, and the FAT entry of each sector but the
last is the next sector of the list. -/
def is_fat_chain (reader : XLS2IMG_READER) : List Nat → Bool
  | [] => true
  | s :: rest =>
    decide (s < 0xFFFFFFFA) &&
    decide (reader.sectorSize * (s + 2) ≤ reader.buffer.length) &&
    (match xls2img_get_next_sector reader s with
     | .ok next =>
       (match rest with
        | [] => true
        | s' :: _ => decide (next = s'))
     | .error _ => false) &&
    is_fat_chain reader rest

/-- The UTF-16 units of the name `SummaryInformation` with its leading unit 5. -/
def summaryName : List Nat :=
  [0x05, 0x53, 0x75, 0x6D, 0x6D, 0x61, 0x72, 0x79, 0x49, 0x6E, 0x66, 0x6F, 0x72, 0x6D, 0x61,
    0x74, 0x69, 0x6F, 0x6E]

/-- The UTF-16 units of the name `DocumentSummaryInformation` with its leading
unit 5. -/
def documentSummaryName : List Nat :=
  [0x05, 0x44, 0x6F, 0x63, 0x75, 0x6D, 0x65, 0x6E, 0x74] ++ summaryName.drop 1

/-- A compound file laid out like `right_workbook_cfb`, with the three streams of
a plain workbook file: `SummaryInformation` (entry 1, black, empty) with left
sibling `Workbook` (entry 2, red, 600 bytes from mini sector 0) and right sibling
`DocumentSummaryInformation` (entry 3, red, empty). -/
def left_workbook_cfb : List Byte :=
  cfb_header 3 0 4096 2 0xFFFFFFFE 1 ++
    (dir_entry rootName 22 5 1 0xFFFFFFFF 0xFFFFFFFF 1 3 640 ++
      dir_entry summaryName 40 2 1 2 3 0xFFFFFFFF 0xFFFFFFFE 0 ++
      dir_entry (workbookStr.take 8) 18 2 0 0xFFFFFFFF 0xFFFFFFFF 0xFFFFFFFF 0 600 ++
      dir_entry documentSummaryName 56 2 0 0xFFFFFFFF 0xFFFFFFFF 0xFFFFFFFF 0xFFFFFFFE 0) ++
    fat_sector [0xFFFFFFFE, 0xFFFFFFFD, 0xFFFFFFFE, 4, 0xFFFFFFFE] ++
    fat_sector [1, 2, 3, 4, 5, 6, 7, 8, 9, 0xFFFFFFFE] ++
    data_sector 0xAA ++ data_sector 0xBB

/-- The reader that `xls2img_open` makes for `left_workbook_cfb`. -/
def left_workbook_reader : XLS2IMG_READER := ⟨left_workbook_cfb, 512, 64, 3⟩

/-- A drawing group of 83 bytes: the PNG signature and an `IEND` chunk header
(length and type) whose four CRC bytes are missing, followed at offset 16 by the
small PNG. -/
def c23_blob : List Byte := pngSignature ++ [0x00, 0x00, 0x00, 0x00] ++ iendType ++ c2_png

/-- The workbook carrying `c23_blob` in one `MsoDrawingGroup` record followed by `EOF`. -/
def c23_workbook : List Byte :=
  encode_records [⟨BIFF8_MsoDrawingGroup, c23_blob⟩, eof_record]

/-- A workbook of 6 bytes: the header of an `MsoDrawingGroup` record that declares
16 payload bytes, and the only 2 bytes that follow it. -/
def c25_mso_workbook : List Byte := [0xEB, 0x00, 0x10, 0x00, 0x01, 0x02]

/-- A workbook of 10 bytes: an empty `MsoDrawingGroup` record, then the header of
a `Continue` record that declares 16 payload bytes, and the only 2 bytes that
follow it. -/
def c25_continue_workbook : List Byte :=
  [0xEB, 0x00, 0x00, 0x00, 0x3C, 0x00, 0x10, 0x00, 0x01, 0x02]

/-- A workbook of 6 bytes: the header of a `BOF` record that declares 16 payload
bytes, and the only 2 bytes that follow it. -/
def c25_other_workbook : List Byte := [0x09, 0x08, 0x10, 0x00, 0x01, 0x02]

/-- The workbook carrying the one-byte drawing group `00` in an `MsoDrawingGroup`
record followed by `EOF`. -/
def c30_workbook : List Byte :=
  encode_records [⟨BIFF8_MsoDrawingGroup, [0x00]⟩, eof_record]

/-- A compound file of six sectors of 512 bytes whose directory is the last
sector.  Sector 0 is the FAT, sector 1 the mini FAT with the chain 0, 1, ..., 9,
sectors 2 and 3 hold the mini stream, and sector 4 is the directory: the root
entry (child 1, mini stream of 640 bytes from sector 2), `SummaryInformation`
(entry 1, black, empty) with left sibling `Workbook` (entry 3, red, 600 bytes from
mini sector 0) and right sibling `DocumentSummaryInformation` (entry 2, red,
empty).  The 128 bytes of entry 3 are the last 128 bytes of the file. -/
def last_dir_cfb : List Byte :=
  cfb_header 3 4 4096 1 0xFFFFFFFE 0 ++
    fat_sector [0xFFFFFFFD, 0xFFFFFFFE, 3, 0xFFFFFFFE, 0xFFFFFFFE] ++
    fat_sector [1, 2, 3, 4, 5, 6, 7, 8, 9, 0xFFFFFFFE] ++
    data_sector 0xAA ++ data_sector 0xBB ++
    (dir_entry rootName 22 5 1 0xFFFFFFFF 0xFFFFFFFF 1 2 640 ++
      dir_entry summaryName 40 2 1 3 2 0xFFFFFFFF 0xFFFFFFFE 0 ++
      dir_entry documentSummaryName 56 2 0 0xFFFFFFFF 0xFFFFFFFF 0xFFFFFFFF 0xFFFFFFFE 0 ++
      dir_entry (workbookStr.take 8) 18 2 0 0xFFFFFFFF 0xFFFFFFFF 0xFFFFFFFF 0 600)

/-- The reader that `xls2img_open` makes for `last_dir_cfb`. -/
def last_dir_reader : XLS2IMG_READER := ⟨last_dir_cfb, 512, 64, 2⟩

/-- The little-endian 32-bit value at byte `offset` of sector `sector`, in the
words of the specification: the address `sectorSize * (sector + 1) + offset` is
defined only when `sector < 0xFFFFFFFA`, `offset < sectorSize`, and the four bytes
read there lie within the buffer. -/
def sector_u32 (reader : XLS2IMG_READER) (sector offset : Nat) : Option Nat :=
  if sector < 0xFFFFFFFA ∧ offset < reader.sectorSize ∧
      reader.sectorSize * (sector + 1) + offset + 4 ≤ reader.buffer.length then
    some (le32_at reader.buffer (reader.sectorSize * (sector + 1) + offset))
  else none

/-- The DIFAT sector reached from the DIFAT sector `d` after `q` links, each link
being the last four bytes of a DIFAT sector; `none` when an address on the way is
out of range. -/
def difat_chain_sector (reader : XLS2IMG_READER) : Nat → Nat → Option Nat
  | 0, d => some d
  | q + 1, d =>
    match sector_u32 reader d (reader.sectorSize - 4) with
    | none => none
    | some next => difat_chain_sector reader q next

/-- FAT sector resolution in the words of the specification: `headerDIFAT[N]` for
`N < 109`; else, with `E = sectorSize / 4 - 1`, entry `(N - 109) mod E` of the
DIFAT sector reached after `(N - 109) div E` links from
`firstDIFATSectorLocation`, and `0xFFFFFFFF` when an address is out of range. -/
def spec_fat_sector_location (reader : XLS2IMG_READER) (N : Nat) : Nat :=
  if N < 109 then hdr_headerDIFAT reader.buffer N
  else
    match difat_chain_sector reader ((N - 109) / (reader.sectorSize / 4 - 1))
        (hdr_firstDIFATSectorLocation reader.buffer) with
    | none => 0xFFFFFFFF
    | some d =>
      (sector_u32 reader d (4 * ((N - 109) % (reader.sectorSize / 4 - 1)))).getD 0xFFFFFFFF

/-- A compound file of 1536 bytes whose sectors 0 and 1 are DIFAT sectors: the
header names sector 0 as the first DIFAT sector, entry `i` of sector 0 is
`100 + i` and its last four bytes name sector 1, entry `i` of sector 1 is
`200 + i` and its last four bytes end the chain. -/
def difat_cfb : List Byte :=
  cfb_header 3 0 4096 0xFFFFFFFE 0 5 ++
    (((List.range 127).map (fun i => le32_bytes (100 + i))).flatten ++ le32_bytes 1) ++
    (((List.range 127).map (fun i => le32_bytes (200 + i))).flatten ++ le32_bytes 0xFFFFFFFE)

/-- A reader over `difat_cfb`. -/
def difat_reader : XLS2IMG_READER := ⟨difat_cfb, 512, 64, 0⟩

/-- The bytes of the stream stored in the sectors of `chain`, in chain order. -/
def chain_bytes (reader : XLS2IMG_READER) (chain : List Nat) : List Byte :=
  (chain.map (sector_bytes reader)).flatten

/-- The 64-byte block at offset `64 * m` of the mini stream, the mini stream being
the stream stored in the sectors of `container`. -/
def mini_sector_bytes (reader : XLS2IMG_READER) (container : List Nat) (m : Nat) : List Byte :=
  ((chain_bytes reader container).drop (64 * m)).take 64

/-- The list `minis` is a mini-FAT chain of mini sectors lying inside the mini
stream stored in the sectors of `container`: each of its mini sectors is a regular
number whose 64 bytes are in the mini stream, the mini-FAT entry of each can be
read, and the mini-FAT entry of each but the last is the next mini sector of the
list. -/
def is_mini_fat_chain (reader : XLS2IMG_READER) (container : List Nat) : List Nat → Bool
  | [] => true
  | m :: rest =>
    decide (m < 0xFFFFFFFA) &&
    decide (64 * (m + 1) ≤ container.length * reader.sectorSize) &&
    (match xls2img_get_next_mini_sector reader m with
     | .ok next =>
       (match rest with
        | [] => true
        | m' :: _ => decide (next = m'))
     | .error _ => false) &&
    is_mini_fat_chain reader container rest

/-- The workbook that consists of the single record `MsoDrawingGroup` carrying the
small PNG. -/
def c34_single_workbook : List Byte := encode_records [⟨BIFF8_MsoDrawingGroup, c2_png⟩]

/-- A workbook whose first drawing group (the small Exif JPEG) is followed by a
`BOF` record, and whose last records are a second drawing group, the small PNG
split over an `MsoDrawingGroup` and a `Continue` record, and two stray bytes. -/
def c34_workbook : List Byte :=
  encode_records
    ([⟨BIFF8_MsoDrawingGroup, c4_jpeg⟩, bof_record] ++
      (⟨BIFF8_MsoDrawingGroup, c2_png.take 40⟩ ::
        [c2_png.drop 40].map (fun p => (⟨BIFF8_CONTINUE, p⟩ : Record)))) ++ [0x0A, 0x00]

/-- A compound file of 1536 bytes whose sibling links form a cycle: the child of
the root is the empty stream `A` (entry 1), whose left sibling is entry 1 itself.
Sector 0 is the directory and sector 1 the FAT. -/
def cycle_cfb : List Byte :=
  cfb_header 3 0 4096 0xFFFFFFFE 0xFFFFFFFE 1 ++
    (dir_entry rootName 22 5 1 0xFFFFFFFF 0xFFFFFFFF 1 0xFFFFFFFE 0 ++
      dir_entry [0x41] 4 2 1 1 0xFFFFFFFF 0xFFFFFFFF 0xFFFFFFFE 0 ++
      List.replicate 256 0) ++
    fat_sector [0xFFFFFFFE, 0xFFFFFFFD]

/-- The reader that `xls2img_open` makes for `cycle_cfb`. -/
def cycle_reader : XLS2IMG_READER := ⟨cycle_cfb, 512, 64, 0xFFFFFFFE⟩

/-- A drawing group of 21 bytes: the PNG signature, a chunk whose length field is
`FF FF FF F5` and whose type is `XIEN`, and the bytes `44 00 00 00 00`; read from
offset 9, one byte into that chunk, the bytes are a length field `FF FF F5 58` and
the type `IEND`. -/
def c31_blob : List Byte :=
  pngSignature ++ [0xFF, 0xFF, 0xFF, 0xF5] ++ [0x58, 0x49, 0x45, 0x4E] ++
    [0x44, 0x00, 0x00, 0x00, 0x00]

/-- The workbook carrying `c31_blob` in one `MsoDrawingGroup` record followed by `EOF`. -/
def c31_workbook : List Byte :=
  encode_records [⟨BIFF8_MsoDrawingGroup, c31_blob⟩, eof_record]

/-- The ways in which the loop `while (len > 0)` of `xls2img_read_stream` is left:
its condition is false (`complete`), `xls2img_sector_offset_to_address` returned
`NULL` (`lookup`), the copy window `src + copylen` leaves the buffer (`window`), or
the next sector is `0xFFFFFFFE` or `0xFFFFFFFF` (`sentinel`). -/
inductive StreamStop where
  | complete
  | lookup
  | window
  | sentinel
  deriving DecidableEq, Repr

/-- A run of the loop of `xls2img_read_stream`: the bytes written to the output
buffer, the value of `len` when the loop is left, the sectors copied from, in
order, and the way the loop is left. -/
structure StreamWalk where
  written : List Byte
  remaining : Nat
  visited : List Nat
  stop : StreamStop
  deriving DecidableEq, Repr

/-- The loop `while (len > 0)` of `xls2img_read_stream`, as `read_stream_loop`,
recording the run. -/
def read_stream_walk (reader : XLS2IMG_READER) : Nat → Nat → Nat → Nat → Except Fault StreamWalk
  | 0, _, _, len =>
    if len > 0 then .error .nonTermination else .ok ⟨[], len, [], .complete⟩
  | fuel + 1, sector, offset, len =>
    if len > 0 then
      match xls2img_sector_offset_to_address reader sector offset with
      | none => .ok ⟨[], len, [], .lookup⟩
      | some src =>
        let copylen :=
          if len < reader.sectorSize - offset then len else reader.sectorSize - offset
        if reader.buffer.length < src + copylen then .ok ⟨[], len, [], .window⟩
        else
          let copied := (reader.buffer.drop src).take copylen
          match xls2img_get_next_sector reader sector with
          | .error e => .error e
          | .ok next =>
            if next = 0xFFFFFFFE ∨ next = 0xFFFFFFFF then
              .ok ⟨copied, len - copylen, [sector], .sentinel⟩
            else
              match read_stream_walk reader fuel next 0 (len - copylen) with
              | .error e => .error e
              | .ok w => .ok ⟨copied ++ w.written, w.remaining, sector :: w.visited, w.stop⟩
    else .ok ⟨[], len, [], .complete⟩

/-- A compound file of 1636 bytes with 512-byte sectors whose last sector is cut
short: sector 0 is the directory, sector 1 the FAT, and of sector 2 only the first
100 bytes are there. -/
def partial_cfb : List Byte :=
  cfb_header 3 0 4096 0xFFFFFFFE 0xFFFFFFFE 1 ++
    (dir_entry rootName 22 5 1 0xFFFFFFFF 0xFFFFFFFF 0xFFFFFFFF 0xFFFFFFFE 0 ++
      List.replicate 384 0) ++
    fat_sector [0xFFFFFFFE, 0xFFFFFFFD, 0xFFFFFFFE] ++ List.replicate 100 0xAA

/-- The reader that `xls2img_open` makes for `partial_cfb`. -/
def partial_reader : XLS2IMG_READER := ⟨partial_cfb, 512, 64, 0xFFFFFFFE⟩

/-- A drawing group of 40 bytes: the PNG signature, an `IDAT` chunk with a payload
of 12 bytes, and the length and type of an `IEND` chunk whose four CRC bytes are
missing. -/
def c5_blob : List Byte :=
  pngSignature ++ [0x00, 0x00, 0x00, 0x0C, 0x49, 0x44, 0x41, 0x54] ++ List.replicate 12 0x5A ++
    [0x01, 0x02, 0x03, 0x04] ++ [0x00, 0x00, 0x00, 0x00] ++ iendType

/-- The copy of `size` bytes from offset `start` of the collector's buffer stays
inside the allocation of the collector. -/
def copy_inside_allocation (collector : BufferCollector) (start size : Nat) : Bool :=
  decide (start + size ≤ collector.capacity)

/-- A JFIF JPEG whose body is `n` zero bytes: the ten header bytes
`FF D8 FF E0 00 10 'JFIF'`, the zeros, and `FF D9`; `n + 12` bytes. -/
def zero_body_jpeg (n : Nat) : List Byte := jpeg_file false 0x00 0x10 (List.replicate n 0)

/-- The payload of the `MsoDrawingGroup` record of `c7_workbook`: the ten header
bytes of a JFIF JPEG. -/
def c7_head : List Byte := jpeg_header false 0x00 0x10

/-- The payloads of the `Continue` records of `c7_workbook`: 65537 payloads of
65535 zero bytes (`2^32 - 1` bytes together), and the two bytes `FF D9`. -/
def c7_payloads : List (List Byte) :=
  List.replicate 65537 (List.replicate 65535 0) ++ [[0xFF, 0xD9]]

/-- A workbook whose drawing group is a JFIF JPEG of `2^32 + 11` bytes, carried in
an `MsoDrawingGroup` record and 65538 `Continue` records and followed by `EOF`. -/
def c7_workbook : List Byte :=
  encode_records ((⟨BIFF8_MsoDrawingGroup, c7_head⟩ ::
    c7_payloads.map (fun p => (⟨BIFF8_CONTINUE, p⟩ : Record))) ++ [eof_record])

/-- A blob of `2^31 + 1` bytes: a JFIF JPEG whose only `FF D9` pair is its last
two bytes. -/
def c22_blob : List Byte := zero_body_jpeg (2 ^ 31 - 11)

/-- A compound file of 2048 bytes with 512-byte sectors.  Sector 0 is the
directory: the root entry with child 1, and the stream `Workbook` (entry 1, start
sector 2) whose `size` field is `2^63 - 1`.  Sector 1 is the FAT, in which the
entry of sector 2 is 2: the chain of the stream stays in sector 2.  The
mini-stream cutoff is 64. -/
def c12_cfb : List Byte :=
  cfb_header 3 0 64 0xFFFFFFFE 0xFFFFFFFE 1 ++
    (dir_entry rootName 22 5 1 0xFFFFFFFF 0xFFFFFFFF 1 0xFFFFFFFE 0 ++
      ((dir_entry (workbookStr.take 8) 18 2 1 0xFFFFFFFF 0xFFFFFFFF 0xFFFFFFFF 2
          0xFFFFFFFF).take 124 ++ le32_bytes 0x7FFFFFFF) ++
      List.replicate 256 0) ++
    fat_sector [0xFFFFFFFE, 0xFFFFFFFD, 2] ++ data_sector 0xAA

/-- The reader that `xls2img_open` makes for `c12_cfb`. -/
def c12_reader : XLS2IMG_READER := ⟨c12_cfb, 512, 64, 0xFFFFFFFE⟩

/-- An allocator that returns null for requests of `2^47` bytes or more, the size
of the user address space of a 64-bit host. -/
def malloc_below_2_47 (n : Nat) : Bool := decide (n < 2 ^ 47)

/-- A compound file of 1538 bytes with 512-byte sectors: the header names sector 1
as the first FAT sector and sector 2 as the first DIFAT sector, sector 0 is the
directory (a root entry without child), sector 1 is the FAT, and of sector 2 only
the first two bytes are there. -/
def c26_cfb : List Byte :=
  cfb_header 3 0 4096 0xFFFFFFFE 2 1 ++
    (dir_entry rootName 22 5 1 0xFFFFFFFF 0xFFFFFFFF 0xFFFFFFFF 0xFFFFFFFE 0 ++
      List.replicate 384 0) ++
    fat_sector [0xFFFFFFFE, 0xFFFFFFFD, 0xFFFFFFFC] ++ [0x05, 0x00]

/-- The reader that `xls2img_open` makes for `c26_cfb`. -/
def c26_reader : XLS2IMG_READER := ⟨c26_cfb, 512, 64, 0xFFFFFFFE⟩

/-- The conversion `(int)` leaves the values of the range of `int` as they are. -/
theorem int_cast_of_lt (d : Int) (h0 : -(2 ^ 31) ≤ d) (h1 : d < 2 ^ 31) : int_cast d = d := by
  unfold int_cast
  rw [Int.emod_eq_of_lt (by omega) (by omega)]
  omega

/-- The conversion `(int)` leaves a size below `2^31` as it is. -/
theorem int_cast_natCast (n : Nat) (h : n < 2 ^ 31) : int_cast (n : Int) = (n : Int) :=
  int_cast_of_lt _ (by omega) (by exact_mod_cast h)

/-- The conversion `(int)` leaves `-1` as it is. -/
theorem int_cast_neg_one : int_cast (-1) = -1 := by decide

/-- The value of `(int)` lies in the range of `int`. -/
theorem int_cast_range (d : Int) : -(2 ^ 31) ≤ int_cast d ∧ int_cast d < 2 ^ 31 := by
  unfold int_cast
  have h1 := Int.emod_nonneg (d + 2 ^ 31) (by norm_num : (2 : Int) ^ 32 ≠ 0)
  have h2 := Int.emod_lt_of_pos (d + 2 ^ 31) (by norm_num : (0 : Int) < 2 ^ 32)
  constructor <;> omega

/-- The conversion `(int)` drops multiples of `2^32`. -/
theorem int_cast_add_mul (d k : Int) : int_cast (d + 2 ^ 32 * k) = int_cast d := by
  unfold int_cast
  have : d + 2 ^ 32 * k + 2 ^ 31 = d + 2 ^ 31 + 2 ^ 32 * k := by ring
  rw [this, Int.add_mul_emod_self_left]

theorem rd_eq_ok {data : List Byte} {k : Nat} (h : k < data.length) :
    rd data k = .ok data[k] := by
  simp [rd, List.getElem?_eq_getElem h]

theorem rd_ok_iff {data : List Byte} {k : Nat} {b : Byte} :
    rd data k = .ok b ↔ data[k]? = some b := by
  unfold rd
  cases h : data[k]? <;> simp

theorem pfx_drop_cons (data : List Byte) (k : Nat) (c : Byte) (cs : List Byte) :
    (c :: cs) <+: data.drop k ↔ data[k]? = some c ∧ cs <+: data.drop (k + 1) := by
  by_cases hk : k < data.length
  · rw [List.drop_eq_getElem_cons hk, List.cons_prefix_cons, List.getElem?_eq_getElem hk]
    simp [eq_comm]
  · have : data.drop k = [] := List.drop_eq_nil_of_le (by omega)
    rw [this]
    have h2 : data[k]? = none := List.getElem?_eq_none (by omega)
    simp [h2]

theorem bytes_match_ok_iff (data : List Byte) (pat : List Byte) :
    ∀ (off : Nat) (b : Bool), bytes_match data off pat = .ok b →
      (b = true ↔ pat <+: data.drop off) := by
  induction pat with
  | nil => intro off b h; simp [bytes_match] at h; simp [← h]
  | cons c cs ih =>
    intro off b h
    rw [pfx_drop_cons]
    unfold bytes_match at h
    cases hr : rd data off with
    | error e => simp [hr] at h
    | ok x =>
      simp only [hr] at h
      have hx := rd_ok_iff.mp hr
      by_cases hxc : x = c
      · simp only [hxc, if_true] at h
        rw [ih _ _ h]; simp [hx, hxc]
      · simp only [hxc, if_false] at h
        simp at h
        simp [← h, hx, hxc]

theorem bytes_match_inb (data : List Byte) (pat : List Byte) :
    ∀ (off : Nat), off + pat.length ≤ data.length →
      bytes_match data off pat = .ok (decide (pat <+: data.drop off)) := by
  induction pat with
  | nil => intro off _; simp [bytes_match]
  | cons c cs ih =>
    intro off h
    simp only [List.length_cons] at h
    have hk : off < data.length := by omega
    unfold bytes_match
    rw [rd_eq_ok hk]
    simp only
    have hp := pfx_drop_cons data off c cs
    rw [List.getElem?_eq_getElem hk] at hp
    by_cases hxc : data[off] = c
    · rw [if_pos hxc, ih (off + 1) (by omega)]
      congr 1
      simp only [decide_eq_decide]
      rw [hp]; simp [hxc]
    · rw [if_neg hxc]
      congr 1
      symm
      simp only [decide_eq_false_iff_not]
      rw [hp]; simp [hxc]

theorem pfx_length_le {pat data : List Byte} {k : Nat} (h : pat <+: data.drop k) :
    k + pat.length ≤ data.length ∨ pat = [] := by
  have := h.length_le
  simp only [List.length_drop] at this
  rcases Nat.eq_zero_or_pos pat.length with h0 | h0
  · right; exact List.length_eq_zero.mp h0
  · left; omega

theorem app_ident_here_ok_iff (data : List Byte) (i : Nat) (ident : List Byte)
    (hid : ident.length = 4) (b : Bool)
    (h : app_ident_here data data.length i ident = .ok b) :
    (b = true ↔ ident <+: data.drop (i + 6)) := by
  unfold app_ident_here at h
  simp only at h
  by_cases h1 : i + 4 + 1 < data.length
  · rw [if_pos h1, rd_eq_ok (by omega), rd_eq_ok (by omega)] at h
    simp only at h
    by_cases h2 : i + 4 + 2 + 4 ≤ data.length
    · rw [if_pos h2] at h
      exact bytes_match_ok_iff _ _ _ _ h
    · rw [if_neg h2] at h
      simp at h
      subst h
      constructor
      · intro hh; cases hh
      · intro hp
        rcases pfx_length_le hp with hl | hl
        · omega
        · simp [hl] at hid
  · rw [if_neg h1] at h
    simp at h
    subst h
    constructor
    · intro hh; cases hh
    · intro hp
      rcases pfx_length_le hp with hl | hl
      · omega
      · simp [hl] at hid

theorem app_ident_here_inb (data : List Byte) (i : Nat) (ident : List Byte)
    (hid : ident.length = 4) (hi : i + 10 ≤ data.length) :
    app_ident_here data data.length i ident = .ok (decide (ident <+: data.drop (i + 6))) := by
  unfold app_ident_here
  simp only
  rw [if_pos (by omega), rd_eq_ok (by omega), rd_eq_ok (by omega)]
  simp only
  rw [if_pos (by omega)]
  exact bytes_match_inb _ _ _ (by omega)

theorem isImageStart_iff (data : List Byte) (i : Nat) :
    isImageStart data i ↔
      (data[i]? = some 0x89 ∧ data[i + 1]? = some 0x50 ∧
        [0x4E, 0x47, 0x0D, 0x0A, 0x1A, 0x0A] <+: data.drop (i + 2)) ∨
      (data[i]? = some 0xFF ∧ data[i + 1]? = some 0xD8 ∧ data[i + 2]? = some 0xFF ∧
        ((data[i + 3]? = some 0xE0 ∧ jfifId <+: data.drop (i + 6)) ∨
         (data[i + 3]? = some 0xE1 ∧ exifId <+: data.drop (i + 6)))) := by
  unfold isImageStart isPngStart isJpegStart pngSignature
  simp only [pfx_drop_cons, List.nil_prefix, and_true]
  tauto

theorem header_here_ok_iff (data : List Byte) (i : Nat) (b : Bool)
    (h : header_here data data.length i = .ok b) :
    (b = true ↔ isImageStart data i) := by
  rw [isImageStart_iff]
  unfold header_here at h
  cases h0 : rd data i with
  | error e => simp [h0] at h
  | ok b0 =>
    cases h1 : rd data (i + 1) with
    | error e => simp [h0, h1] at h
    | ok b1 =>
      simp only [h0, h1] at h
      have g0 := rd_ok_iff.mp h0
      have g1 := rd_ok_iff.mp h1
      rw [g0, g1]
      simp only [Option.some.injEq]
      by_cases hp : b0 = 0x89 ∧ b1 = 0x50
      · rw [if_pos hp] at h
        obtain ⟨hp0, hp1⟩ := hp
        subst hp0 hp1
        cases hm : bytes_match data (i + 2) [0x4E, 0x47, 0x0D, 0x0A, 0x1A, 0x0A] with
        | error e => simp [hm] at h
        | ok m =>
          have hmi := bytes_match_ok_iff _ _ _ _ hm
          cases m with
          | true =>
            simp [hm] at h
            subst h
            simp [hmi.mp rfl]
          | false =>
            simp only [hm] at h
            have hne : ¬ ((0x89 : Byte) = 0xFF ∧ (0x50 : Byte) = 0xD8) := by decide
            rw [if_neg hne] at h
            simp at h
            subst h
            have : ¬ ([0x4E, 0x47, 0x0D, 0x0A, 0x1A, 0x0A] <+: data.drop (i + 2)) := by
              intro hc; have := hmi.mpr hc; cases this
            simp [this]
      · rw [if_neg hp] at h
        simp only at h
        have hnp : ¬ (b0 = 0x89 ∧ b1 = 0x50 ∧
            [0x4E, 0x47, 0x0D, 0x0A, 0x1A, 0x0A] <+: data.drop (i + 2)) := by tauto
        by_cases hj : b0 = 0xFF ∧ b1 = 0xD8
        · rw [if_pos hj] at h
          by_cases h3 : i + 3 < data.length
          · rw [if_pos h3, rd_eq_ok (by omega), rd_eq_ok h3] at h
            simp only at h
            rw [List.getElem?_eq_getElem (by omega : i + 2 < data.length),
              List.getElem?_eq_getElem h3]
            simp only [Option.some.injEq]
            by_cases he0 : data[i + 2] = 0xFF ∧ data[i + 3] = 0xE0
            · rw [if_pos he0] at h
              have := app_ident_here_ok_iff data i jfifId rfl b h
              rw [this]
              have hne : data[i + 3] ≠ 0xE1 := by rw [he0.2]; decide
              simp [hnp, hj, he0, hne]
            · rw [if_neg he0] at h
              by_cases he1 : data[i + 2] = 0xFF ∧ data[i + 3] = 0xE1
              · rw [if_pos he1] at h
                have := app_ident_here_ok_iff data i exifId rfl b h
                rw [this]
                have hne : data[i + 3] ≠ 0xE0 := by rw [he1.2]; decide
                simp [hnp, hj, he1, hne]
              · rw [if_neg he1] at h
                cases h
                simp only [Bool.false_eq_true, false_iff]
                tauto
          · rw [if_neg h3] at h
            simp at h
            subst h
            have : data[i + 3]? = none := List.getElem?_eq_none (by omega)
            simp [hnp, this]
        · rw [if_neg hj] at h
          cases h
          simp only [Bool.false_eq_true, false_iff]
          tauto

theorem header_here_inb (data : List Byte) (i : Nat) (hi : i + 10 ≤ data.length) :
    header_here data data.length i = .ok (decide (isImageStart data i)) := by
  have key : ∃ b, header_here data data.length i = .ok b := by
    unfold header_here
    rw [rd_eq_ok (by omega), rd_eq_ok (by omega)]
    simp only
    rw [bytes_match_inb _ _ _ (by simp; omega)]
    split
    · rename_i e he
      split at he <;> cases he
    · exact ⟨_, rfl⟩
    · split
      · rw [if_pos (by omega), rd_eq_ok (by omega), rd_eq_ok (by omega)]
        simp only
        rw [app_ident_here_inb data i jfifId rfl hi, app_ident_here_inb data i exifId rfl hi]
        split
        · exact ⟨_, rfl⟩
        · split <;> exact ⟨_, rfl⟩
      · exact ⟨_, rfl⟩
  obtain ⟨b, hb⟩ := key
  rw [hb]
  have := header_here_ok_iff data i b hb
  congr 1
  cases b <;> simp_all

theorem find_next_header_loop_sound (data : List Byte) (bound : Nat) :
    ∀ (fuel i r : Nat),
      find_next_header_loop data data.length bound fuel i = .ok (some r) →
      i ≤ r ∧ r < bound ∧ isImageStart data r ∧
        ∀ k, i ≤ k → k < r → ¬ isImageStart data k := by
  intro fuel
  induction fuel with
  | zero =>
    intro i r h
    unfold find_next_header_loop at h
    split at h <;> simp at h
  | succ n ih =>
    intro i r h
    unfold find_next_header_loop at h
    by_cases hb : i < bound
    · rw [if_pos hb] at h
      cases hh : header_here data data.length i with
      | error e => simp [hh] at h
      | ok b =>
        have hiff := header_here_ok_iff data i b hh
        cases b with
        | true =>
          simp [hh] at h
          subst h
          exact ⟨le_refl _, hb, hiff.mp rfl, fun k h1 h2 => by omega⟩
        | false =>
          simp only [hh] at h
          obtain ⟨h1, h2, h3, h4⟩ := ih (i + 1) r h
          refine ⟨by omega, h2, h3, ?_⟩
          intro k hk1 hk2
          by_cases hki : k = i
          · subst hki
            intro hc
            have := hiff.mpr hc
            cases this
          · exact h4 k (by omega) hk2
    · rw [if_neg hb] at h
      simp at h

theorem find_next_header_loop_none (data : List Byte) (bound : Nat)
    (hb : bound + 9 ≤ data.length) :
    ∀ (fuel i : Nat), bound ≤ fuel + i →
      (∀ k, i ≤ k → k < bound → ¬ isImageStart data k) →
      find_next_header_loop data data.length bound fuel i = .ok none := by
  intro fuel
  induction fuel with
  | zero =>
    intro i hf _
    unfold find_next_header_loop
    rw [if_neg (by omega)]
  | succ n ih =>
    intro i hf hno
    unfold find_next_header_loop
    by_cases hi : i < bound
    · rw [if_pos hi, header_here_inb data i (by omega)]
      have := hno i (le_refl _) hi
      simp only [this, decide_False]
      exact ih (i + 1) (by omega) (fun k h1 h2 => hno k (by omega) h2)
    · rw [if_neg hi]

theorem find_next_header_loop_some (data : List Byte) (bound : Nat)
    (hb : bound + 9 ≤ data.length) (r : Nat) (hr : r < bound) (hs : isImageStart data r) :
    ∀ (fuel i : Nat), bound ≤ fuel + i → i ≤ r →
      (∀ k, i ≤ k → k < r → ¬ isImageStart data k) →
      find_next_header_loop data data.length bound fuel i = .ok (some r) := by
  intro fuel
  induction fuel with
  | zero =>
    intro i hf hir _
    omega
  | succ n ih =>
    intro i hf hir hno
    unfold find_next_header_loop
    rw [if_pos (by omega), header_here_inb data i (by omega)]
    by_cases hi : i = r
    · subst hi
      simp [hs]
    · have := hno i (le_refl _) (by omega)
      simp only [this, decide_False]
      exact ih (i + 1) (by omega) (by omega) (fun k h1 h2 => hno k (by omega) h2)

theorem size_t_sub_of_le {a b : Nat} (h : b ≤ a) : size_t_sub a b = a - b := by
  simp [size_t_sub, h]

theorem isImageStart_drop (blob : List Byte) (pos i : Nat) :
    isImageStart (blob.drop pos) i ↔ isImageStart blob (pos + i) := by
  unfold isImageStart isPngStart isJpegStart
  simp only [List.drop_drop, Nat.add_assoc]

/-- On a block of at least nine bytes the search returns the first image start
among the positions `i` with `i + 9 < size`. -/
theorem xls2img_find_next_header_some (data : List Byte) (r : Nat)
    (hr : r + 9 < data.length) (hs : isImageStart data r)
    (hno : ∀ k, k < r → ¬ isImageStart data k) :
    xls2img_find_next_header data data.length = .ok (some r) := by
  unfold xls2img_find_next_header
  rw [size_t_sub_of_le (by omega)]
  exact find_next_header_loop_some data _ (by omega) r (by omega) hs _ 0 (by omega)
    (by omega) (fun k _ h2 => hno k h2)

theorem xls2img_find_next_header_none (data : List Byte) (hn : 9 ≤ data.length)
    (hno : ∀ k, k + 9 < data.length → ¬ isImageStart data k) :
    xls2img_find_next_header data data.length = .ok none := by
  unfold xls2img_find_next_header
  rw [size_t_sub_of_le hn]
  exact find_next_header_loop_none data _ (by omega) _ 0 (by omega)
    (fun k _ h2 => hno k (by omega))

theorem xls2img_find_next_header_sound (data : List Byte) (r : Nat)
    (h : xls2img_find_next_header data data.length = .ok (some r)) :
    isImageStart data r ∧ ∀ k, k < r → ¬ isImageStart data k := by
  unfold xls2img_find_next_header at h
  obtain ⟨_, _, h3, h4⟩ := find_next_header_loop_sound data _ _ _ _ h
  exact ⟨h3, fun k hk => h4 k (Nat.zero_le _) hk⟩

/-- Whenever `xls2img_extract_images` returns on a non-empty workbook, it returns
either no-images with an empty result, or the positive number of images, which is
also `result.count`. -/
theorem xls2img_extract_images_return_value (wb : List Byte) (res0 : XLS2IMG_RESULT)
    (ret : Int) (res : XLS2IMG_RESULT) (hne : wb ≠ [])
    (h : xls2img_extract_images wb res0 = .ok (ret, res)) :
    (ret = XLS2IMG_ERROR_NO_IMAGES ∧ res.count = 0 ∧ res.images = []) ∨
    (1 ≤ ret ∧ ret = res.count ∧ ret = (res.images.length : Int)) := by
  unfold xls2img_extract_images at h
  have hl : wb.length ≠ 0 := by
    intro hc; exact hne (List.length_eq_zero.mp hc)
  rw [if_neg hl] at h
  cases hr : record_loop wb.length wb ⟨false, buffer_collector_init, []⟩ with
  | error e => simp [hr] at h
  | ok st =>
    simp only [hr] at h
    by_cases hc : st.images.length > 0
    · rw [if_pos hc] at h
      simp only [Except.ok.injEq, Prod.mk.injEq] at h
      obtain ⟨h1, h2⟩ := h
      subst h1 h2
      right
      simp only [and_self, and_true]
      omega
    · rw [if_neg hc] at h
      simp only [Except.ok.injEq, Prod.mk.injEq] at h
      obtain ⟨h1, h2⟩ := h
      subst h1 h2
      left
      simp

/-- C1 (code defect): on the non-empty workbook `c1_workbook`, an `MsoDrawingGroup`
record carrying a PNG signature and a chunk of length field `FF FF FF F4`, followed
by an `EOF` record, `xls2img_extract_images` does not return: the chunk walk of
`xls2img_find_png_end` advances by `(12 + 0xFFFFFFF4) mod 2^32 = 0` and repeats. -/
theorem c1_extract_images_does_not_return :
    c1_workbook ≠ [] ∧
    xls2img_extract_images c1_workbook ⟨[], 0⟩ = .error .nonTermination ∧
    find_png_end_loop c1_blob 16 16 8 = .error .nonTermination ∧
    (12 + be32 0xFF 0xFF 0xFF 0xF4) % 2 ^ 32 = 0 := by
  decide

theorem u16le_decode (n : Nat) (hn : n < 65536) :
    ∃ b0 b1 : Byte, u16le n = [b0, b1] ∧ b1.val * 256 + b0.val = n := by
  refine ⟨Fin.ofNat (n % 256), Fin.ofNat (n / 256 % 256), rfl, ?_⟩
  simp only [Fin.ofNat, Nat.mod_mod]
  omega

/-- While `fuel` is at least the number of remaining bytes, the record walk does
not depend on it. -/
theorem record_loop_fuel :
    ∀ (f1 f2 : Nat) (rest : List Byte) (st : WalkState),
      rest.length ≤ f1 → rest.length ≤ f2 →
      record_loop f1 rest st = record_loop f2 rest st := by
  intro f1
  induction f1 with
  | zero =>
    intro f2 rest st h1 _
    have : rest = [] := List.length_eq_zero.mp (by omega)
    subst this
    cases f2 <;> simp [record_loop]
  | succ n ih =>
    intro f2 rest st h1 h2
    cases f2 with
    | zero =>
      have : rest = [] := List.length_eq_zero.mp (by omega)
      subst this
      simp [record_loop]
    | succ m =>
      match rest, h1, h2 with
      | [], _, _ => simp [record_loop]
      | [_], _, _ => simp [record_loop]
      | [_, _], _, _ => simp [record_loop]
      | [_, _, _], _, _ => simp [record_loop]
      | b0 :: b1 :: b2 :: b3 :: body, h1, h2 =>
        simp only [record_loop]
        simp only [List.length_cons] at h1 h2
        split
        · rfl
        · split
          · rfl
          · exact ih m _ _ (by simp only [List.length_drop]; omega)
              (by simp only [List.length_drop]; omega)

/-- One iteration of the record walk on a complete record is `record_step`. -/
theorem record_loop_encode (r : Record) (hr : r.valid) (tail : List Byte) (st : WalkState)
    (fuel : Nat) (hf : (r.encode ++ tail).length ≤ fuel) :
    record_loop fuel (r.encode ++ tail) st =
      match record_step st r with
      | .error e => .error e
      | .ok st1 => record_loop tail.length tail st1 := by
  obtain ⟨t0, t1, ht, htv⟩ := u16le_decode r.type hr.1
  obtain ⟨s0, s1, hs, hsv⟩ := u16le_decode r.payload.length hr.2
  have henc : r.encode ++ tail = t0 :: t1 :: s0 :: s1 :: (r.payload ++ tail) := by
    simp [Record.encode, ht, hs]
  rw [henc] at hf ⊢
  simp only [List.length_cons, List.length_append] at hf
  obtain ⟨n, rfl⟩ : ∃ n, fuel = n + 1 := ⟨fuel - 1, by omega⟩
  simp only [record_loop, htv, hsv, List.length_append]
  have e1 : r.payload.length ≤ r.payload.length + tail.length := by omega
  have e2 : ¬ (r.payload.length > r.payload.length + tail.length) := by omega
  have e3 : List.take r.payload.length (r.payload ++ tail) = r.payload := by simp
  have e4 : List.drop r.payload.length (r.payload ++ tail) = tail := by simp
  simp only [e1, e2, e3, e4, if_true, if_false]
  unfold record_step
  split
  · rfl
  · exact record_loop_fuel _ _ _ _ (by omega) (le_refl _)

theorem record_encode_length (r : Record) : r.encode.length = 4 + r.payload.length := by
  simp [Record.encode, u16le]; omega

theorem record_loop_nil (fuel : Nat) (st : WalkState) : record_loop fuel [] st = .ok st := by
  cases fuel <;> simp [record_loop]

/-- The record walk over the encoding of a list of valid records, followed by
`tail`, is `walk_records` followed by the walk over `tail`. -/
theorem record_loop_encode_records :
    ∀ (rs : List Record) (tail : List Byte) (st : WalkState) (fuel : Nat),
      (∀ r ∈ rs, r.valid) → (encode_records rs ++ tail).length ≤ fuel →
      record_loop fuel (encode_records rs ++ tail) st =
        match walk_records st rs with
        | .error e => .error e
        | .ok st1 => record_loop tail.length tail st1 := by
  intro rs
  induction rs with
  | nil =>
    intro tail st fuel _ hf
    simp only [encode_records, List.nil_append, walk_records] at hf ⊢
    exact record_loop_fuel _ _ _ _ hf (le_refl _)
  | cons r rs ih =>
    intro tail st fuel hv hf
    have hr : r.valid := hv r (List.mem_cons_self _ _)
    have hrs : ∀ x ∈ rs, x.valid := fun x hx => hv x (List.mem_cons_of_mem _ hx)
    simp only [encode_records, List.append_assoc] at hf ⊢
    rw [record_loop_encode r hr _ st fuel hf]
    simp only [walk_records]
    cases hstep : record_step st r with
    | error e => rfl
    | ok st1 => exact ih tail st1 _ hrs (le_refl _)

theorem walk_records_append :
    ∀ (a b : List Record) (st : WalkState),
      walk_records st (a ++ b) =
        match walk_records st a with
        | .error e => .error e
        | .ok st1 => walk_records st1 b := by
  intro a
  induction a with
  | nil => intro b st; simp [walk_records]
  | cons r rs ih =>
    intro b st
    simp only [List.cons_append, walk_records]
    cases record_step st r with
    | error e => rfl
    | ok st1 => exact ih b st1

/-- Outside a collection, records other than `MsoDrawingGroup` leave the state
of the walk unchanged. -/
theorem walk_records_idle :
    ∀ (rs : List Record) (st : WalkState), st.collecting_mso = false →
      (∀ r ∈ rs, r.type ≠ BIFF8_MsoDrawingGroup) → walk_records st rs = .ok st := by
  intro rs
  induction rs with
  | nil => intro st _ _; rfl
  | cons r rs ih =>
    intro st hc hno
    have h1 := hno r (List.mem_cons_self _ _)
    simp only [walk_records, record_step, h1, if_false, hc, Bool.false_eq_true, false_and]
    exact ih st hc (fun x hx => hno x (List.mem_cons_of_mem _ hx))

/-- The data held by the collector after appending the payloads `ps` in order. -/
theorem foldl_append_data :
    ∀ (ps : List (List Byte)) (c : BufferCollector),
      (ps.foldl buffer_collector_append c).data = c.data ++ ps.flatten := by
  intro ps
  induction ps with
  | nil => intro c; simp
  | cons p ps ih =>
    intro c
    simp only [List.foldl_cons, List.flatten_cons]
    rw [ih]
    unfold buffer_collector_append
    split <;> simp

/-- During a collection, a run of `Continue` records appends their payloads to
the collector and changes nothing else. -/
theorem walk_records_continue :
    ∀ (ps : List (List Byte)) (st : WalkState), st.collecting_mso = true →
      walk_records st (ps.map (fun p => (⟨BIFF8_CONTINUE, p⟩ : Record))) =
        .ok { st with mso_collector := ps.foldl buffer_collector_append st.mso_collector } := by
  intro ps
  induction ps with
  | nil => intro st _; rfl
  | cons p ps ih =>
    intro st hc
    have hne : BIFF8_CONTINUE ≠ BIFF8_MsoDrawingGroup := by decide
    simp only [List.map_cons, walk_records, record_step, hne, if_false, hc, true_and, if_true,
      List.foldl_cons]
    exact ih _ rfl

theorem encode_records_ne_nil (r : Record) (rs : List Record) :
    (encode_records (r :: rs)).length ≠ 0 := by
  simp [encode_records, Record.encode, u16le]

/-- The outcome of `xls2img_extract_images` on a stream of valid records. -/
theorem xls2img_extract_images_records (rs : List Record) (res0 : XLS2IMG_RESULT)
    (hv : ∀ r ∈ rs, r.valid) (hne : rs ≠ []) :
    xls2img_extract_images (encode_records rs) res0 =
      match walk_records ⟨false, buffer_collector_init, []⟩ rs with
      | .error e => .error e
      | .ok st => .ok (extract_outcome st.images) := by
  have hlen : (encode_records rs).length ≠ 0 := by
    cases rs with
    | nil => exact absurd rfl hne
    | cons r rs => exact encode_records_ne_nil r rs
  unfold xls2img_extract_images
  rw [if_neg hlen]
  have h := record_loop_encode_records rs [] ⟨false, buffer_collector_init, []⟩
    (encode_records rs).length hv (by simp)
  simp only [List.append_nil] at h
  rw [h]
  cases walk_records ⟨false, buffer_collector_init, []⟩ rs with
  | error e => rfl
  | ok st =>
    simp only [List.length_nil, record_loop_nil, extract_outcome]
    split <;> rfl

theorem flush_collector_congr (st1 st2 : WalkState)
    (hd : st1.mso_collector.data = st2.mso_collector.data) (hi : st1.images = st2.images) :
    flush_collector st1 = flush_collector st2 := by
  unfold flush_collector
  rw [hd, hi]

theorem flush_collector_state (st st1 : WalkState) (h : flush_collector st = .ok st1) :
    st1.collecting_mso = false ∧ st1.mso_collector = buffer_collector_init := by
  unfold flush_collector at h
  split at h
  · split at h
    · cases h
    · cases h; exact ⟨rfl, rfl⟩
  · cases h; exact ⟨rfl, rfl⟩

theorem buffer_collector_append_data (c : BufferCollector) (d : List Byte) :
    (buffer_collector_append c d).data = c.data ++ d := by
  unfold buffer_collector_append
  split <;> rfl

/-- The images found by the record walk do not depend on the capacity of the
reassembly buffer, only on its contents. -/
theorem record_loop_images_eq :
    ∀ (fuel : Nat) (rest : List Byte) (st1 st2 : WalkState),
      st1.collecting_mso = st2.collecting_mso →
      st1.mso_collector.data = st2.mso_collector.data →
      st1.images = st2.images →
      (record_loop fuel rest st1).map WalkState.images =
        (record_loop fuel rest st2).map WalkState.images := by
  intro fuel
  induction fuel with
  | zero =>
    intro rest st1 st2 _ _ hi
    simp [record_loop, Except.map, hi]
  | succ n ih =>
    intro rest st1 st2 hc hd hi
    match rest with
    | [] => simp [record_loop, Except.map, hi]
    | [_] => simp [record_loop, Except.map, hi]
    | [_, _] => simp [record_loop, Except.map, hi]
    | [_, _, _] => simp [record_loop, Except.map, hi]
    | b0 :: b1 :: b2 :: b3 :: body =>
      simp only [record_loop]
      by_cases hm : b1.val * 256 + b0.val = BIFF8_MsoDrawingGroup
      · simp only [hm, if_true]
        by_cases hs : b3.val * 256 + b2.val ≤ body.length
        · simp only [hs, if_true, hi]
        · simp only [hs, if_false]
      · simp only [hm, if_false]
        by_cases hcont : st1.collecting_mso = true ∧ b1.val * 256 + b0.val = BIFF8_CONTINUE
        · have hcont2 : st2.collecting_mso = true ∧ b1.val * 256 + b0.val = BIFF8_CONTINUE := by
            rw [← hc]; exact hcont
          rw [if_pos hcont, if_pos hcont2]
          by_cases hs : b3.val * 256 + b2.val ≤ body.length
          · have hs2 : ¬ (b3.val * 256 + b2.val > body.length) := by omega
            simp only [hs, if_true, hs2, if_false]
            apply ih
            · exact hc
            · simp only [buffer_collector_append_data, hd]
            · exact hi
          · simp only [hs, if_false]
        · have hcont2 : ¬ (st2.collecting_mso = true ∧ b1.val * 256 + b0.val = BIFF8_CONTINUE) := by
            rw [← hc]; exact hcont
          rw [if_neg hcont, if_neg hcont2]
          by_cases hcol : st1.collecting_mso = true
          · have hcol2 : st2.collecting_mso = true := by rw [← hc]; exact hcol
            rw [if_pos hcol, if_pos hcol2, flush_collector_congr st1 st2 hd hi]
          · have hcol2 : ¬ st2.collecting_mso = true := by rw [← hc]; exact hcol
            rw [if_neg hcol, if_neg hcol2]
            simp only
            split
            · simp [Except.map, hi]
            · exact ih _ _ _ hc hd hi

theorem xls2img_extract_images_eq (wb : List Byte) (res0 : XLS2IMG_RESULT) :
    xls2img_extract_images wb res0 =
      if wb.length = 0 then .ok (XLS2IMG_ERROR_INVALID_ARGUMENT, res0)
      else
        match (record_loop wb.length wb ⟨false, buffer_collector_init, []⟩).map
            WalkState.images with
        | .error e => .error e
        | .ok images => .ok (extract_outcome images) := by
  unfold xls2img_extract_images
  split
  · rfl
  · cases record_loop wb.length wb ⟨false, buffer_collector_init, []⟩ with
    | error e => rfl
    | ok st =>
      simp only [Except.map, extract_outcome]
      split <;> rfl

theorem length_le_flatten_length :
    ∀ (ps : List (List Byte)) (p : List Byte), p ∈ ps → p.length ≤ ps.flatten.length := by
  intro ps
  induction ps with
  | nil => intro p hp; cases hp
  | cons q qs ih =>
    intro p hp
    simp only [List.flatten_cons, List.length_append]
    rcases List.mem_cons.mp hp with h | h
    · subst h; omega
    · have := ih p h; omega

/-- The images found in a stream that starts with an `MsoDrawingGroup` record
followed by `Continue` records and then by the bytes `R`: the walk over `R` is
entered in collecting state with the concatenated payloads in the collector. -/
theorem record_loop_chain (p0 : List Byte) (ps : List (List Byte)) (R : List Byte)
    (htotal : (p0 ++ ps.flatten).length ≤ 65535) (c : Nat) :
    (record_loop
        (encode_records (⟨BIFF8_MsoDrawingGroup, p0⟩ ::
          ps.map (fun p => (⟨BIFF8_CONTINUE, p⟩ : Record))) ++ R).length
        (encode_records (⟨BIFF8_MsoDrawingGroup, p0⟩ ::
          ps.map (fun p => (⟨BIFF8_CONTINUE, p⟩ : Record))) ++ R)
        ⟨false, buffer_collector_init, []⟩).map WalkState.images =
      (record_loop R.length R ⟨true, ⟨p0 ++ ps.flatten, c⟩, []⟩).map WalkState.images := by
  simp only [List.length_append] at htotal
  have hv : ∀ r ∈ (⟨BIFF8_MsoDrawingGroup, p0⟩ ::
      ps.map (fun p => (⟨BIFF8_CONTINUE, p⟩ : Record))), r.valid := by
    intro r hr
    rcases List.mem_cons.mp hr with h | h
    · subst h
      exact ⟨by show BIFF8_MsoDrawingGroup < 65536; decide, by show p0.length < 65536; omega⟩
    · obtain ⟨p, hp, rfl⟩ := List.mem_map.mp h
      have := length_le_flatten_length ps p hp
      exact ⟨by show BIFF8_CONTINUE < 65536; decide, by show p.length < 65536; omega⟩
  rw [record_loop_encode_records _ R _ _ hv (le_refl _)]
  simp only [walk_records, record_step, if_true]
  rw [walk_records_continue ps _ rfl]
  simp only
  apply record_loop_images_eq
  · rfl
  · simp only [foldl_append_data]
  · rfl

/-- C5 (code defect): `c5_blob` is a drawing group of 40 bytes that ends with the
length and type of an `IEND` chunk, the four CRC bytes missing.  Carried in one
`MsoDrawingGroup` record it is collected in an allocation of 80 bytes; split into
an `MsoDrawingGroup` record of 20 bytes and a `Continue` record of 20 bytes it is
collected in an allocation of 40 bytes.  In both runs `xls2img_find_png_end`
returns 44 and 44 bytes are copied from offset 0 of the collector, four more than
were written to it: un-split, the copy stays inside the allocation and the image
ends with four bytes that were never written; split, the copy leaves the
allocation.  In the embedding both runs are reported as a read past the written
bytes. -/
theorem c5_split_moves_copy_out_of_allocation :
    c5_blob.length = 40 ∧
    c5_blob.take 20 ++ [c5_blob.drop 20].flatten = c5_blob ∧
    (c5_blob.take 20 ++ [c5_blob.drop 20].flatten).length ≤ 65535 ∧
    record_loop (encode_records [⟨BIFF8_MsoDrawingGroup, c5_blob⟩]).length
        (encode_records [⟨BIFF8_MsoDrawingGroup, c5_blob⟩])
        ⟨false, buffer_collector_init, []⟩ =
      .ok ⟨true, ⟨c5_blob, 80⟩, []⟩ ∧
    record_loop
        (encode_records [⟨BIFF8_MsoDrawingGroup, c5_blob.take 20⟩,
          ⟨BIFF8_CONTINUE, c5_blob.drop 20⟩]).length
        (encode_records [⟨BIFF8_MsoDrawingGroup, c5_blob.take 20⟩,
          ⟨BIFF8_CONTINUE, c5_blob.drop 20⟩])
        ⟨false, buffer_collector_init, []⟩ =
      .ok ⟨true, ⟨c5_blob, 40⟩, []⟩ ∧
    xls2img_find_next_header c5_blob c5_blob.length = .ok (some 0) ∧
    xls2img_find_png_end c5_blob c5_blob.length = .ok 44 ∧
    copy_inside_allocation ⟨c5_blob, 80⟩ 0 44 = true ∧
    copy_inside_allocation ⟨c5_blob, 40⟩ 0 44 = false ∧
    add_image_to_result c5_blob [] 0 44 XLS2IMG_PNG = .error .outOfBounds ∧
    xls2img_extract_images
        (encode_records [⟨BIFF8_MsoDrawingGroup, c5_blob⟩, eof_record]) ⟨[], 0⟩ =
      .error .outOfBounds ∧
    xls2img_extract_images
        (encode_records [⟨BIFF8_MsoDrawingGroup, c5_blob.take 20⟩,
          ⟨BIFF8_CONTINUE, c5_blob.drop 20⟩, eof_record]) ⟨[], 0⟩ =
      .error .outOfBounds := by
  refine ⟨by decide, by decide, by decide, by decide, by decide, by decide, by decide,
    by decide, by decide, by decide, by decide, by decide⟩

/-- In the embedding, where a copy that runs past the collected bytes is a fault
whatever the capacity of the collector, a drawing group split over an
`MsoDrawingGroup` record with payload `p0` and `Continue` records with payloads
`ps`, of total length at most 65535, gives the same outcome of
`xls2img_extract_images` as the single `MsoDrawingGroup` record carrying the
concatenation `p0 ++ ps.flatten`, whatever bytes `R` follow: the two walks
collect the same bytes and differ in the capacity of the collector only. -/
theorem split_chain_same_outcome (p0 : List Byte) (ps : List (List Byte)) (R : List Byte)
    (res0 : XLS2IMG_RESULT) (htotal : (p0 ++ ps.flatten).length ≤ 65535) :
    xls2img_extract_images
        (encode_records (⟨BIFF8_MsoDrawingGroup, p0⟩ ::
          ps.map (fun p => (⟨BIFF8_CONTINUE, p⟩ : Record))) ++ R) res0 =
      xls2img_extract_images
        (encode_records [⟨BIFF8_MsoDrawingGroup, p0 ++ ps.flatten⟩] ++ R) res0 := by
  rw [xls2img_extract_images_eq, xls2img_extract_images_eq]
  have h1 := record_loop_chain p0 ps R htotal 0
  have h2 := record_loop_chain (p0 ++ ps.flatten) [] R (by simpa using htotal) 0
  simp only [List.map_nil, List.flatten_nil, List.append_nil] at h2
  rw [h1, h2]
  have l1 : (encode_records (⟨BIFF8_MsoDrawingGroup, p0⟩ ::
      ps.map (fun p => (⟨BIFF8_CONTINUE, p⟩ : Record))) ++ R).length ≠ 0 := by
    simp [encode_records, Record.encode, u16le]
  have l2 : (encode_records [⟨BIFF8_MsoDrawingGroup, p0 ++ ps.flatten⟩] ++ R).length ≠ 0 := by
    simp [encode_records, Record.encode, u16le]
  rw [if_neg l1, if_neg l2]

theorem rd_append_right (pfx l : List Byte) (k : Nat) :
    rd (pfx ++ l) (pfx.length + k) = rd l k := by
  unfold rd
  rw [List.getElem?_append_right (by omega)]
  simp

theorem bytes_match_append_right (pfx l : List Byte) (pat : List Byte) :
    ∀ k, bytes_match (pfx ++ l) (pfx.length + k) pat = bytes_match l k pat := by
  induction pat with
  | nil => intro k; simp [bytes_match]
  | cons c cs ih =>
    intro k
    simp only [bytes_match, rd_append_right]
    cases rd l k with
    | error e => rfl
    | ok b =>
      simp only
      split
      · exact ih (k + 1)
      · rfl

theorem be32_be32_bytes (n : Nat) (hn : n < 2 ^ 32) :
    be32 (Fin.ofNat (n / 2 ^ 24 % 256)) (Fin.ofNat (n / 2 ^ 16 % 256))
      (Fin.ofNat (n / 2 ^ 8 % 256)) (Fin.ofNat (n % 256)) = n := by
  simp only [be32, Fin.ofNat, Nat.mod_mod]
  omega

theorem list_length_four {l : List Byte} (h : l.length = 4) :
    ∃ a b c d, l = [a, b, c, d] := by
  match l, h with
  | [a, b, c, d], _ => exact ⟨a, b, c, d, rfl⟩

theorem encode_chunk_length (c : PngChunk) (hc : c.valid) :
    c.encode.length = 12 + c.payload.length := by
  obtain ⟨h1, _, h3, _⟩ := hc
  simp [PngChunk.encode, be32_bytes, h1, h3]; omega

/-- The chunk walk over well-formed chunks followed by the `IEND` chunk stops
right after the CRC field of the `IEND` chunk. -/
theorem find_png_end_loop_chunks (crc sfx : List Byte) (size : Nat) :
    ∀ (chunks : List PngChunk) (pfx : List Byte) (fuel : Nat),
      (∀ c ∈ chunks, c.valid) →
      pfx.length + (encode_chunks chunks).length + 12 ≤ size →
      chunks.length < fuel →
      find_png_end_loop (pfx ++ (encode_chunks chunks ++ (iend_chunk crc ++ sfx))) size fuel
          pfx.length =
        .ok ((pfx.length + (encode_chunks chunks).length + 12 : Nat) : Int) := by
  intro chunks
  induction chunks with
  | nil =>
    intro pfx fuel _ hsz hf
    obtain ⟨n, rfl⟩ : ∃ n, fuel = n + 1 := ⟨fuel - 1, by omega⟩
    simp only [encode_chunks, List.length_nil, Nat.add_zero, List.nil_append] at hsz ⊢
    unfold find_png_end_loop
    rw [if_pos (by omega), if_neg (by omega)]
    have r0 := rd_append_right pfx (iend_chunk crc ++ sfx) 0
    have r1 := rd_append_right pfx (iend_chunk crc ++ sfx) 1
    have r2 := rd_append_right pfx (iend_chunk crc ++ sfx) 2
    have r3 := rd_append_right pfx (iend_chunk crc ++ sfx) 3
    have r4 := bytes_match_append_right pfx (iend_chunk crc ++ sfx) iendType 4
    simp only [Nat.add_zero] at r0
    rw [r0, r1, r2, r3, r4]
    simp [iend_chunk, iendType, rd, bytes_match]
  | cons c cs ih =>
    intro pfx fuel hv hsz hf
    obtain ⟨n, rfl⟩ : ∃ n, fuel = n + 1 := ⟨fuel - 1, by omega⟩
    have hc : c.valid := hv c (List.mem_cons_self _ _)
    have hcs : ∀ x ∈ cs, x.valid := fun x hx => hv x (List.mem_cons_of_mem _ hx)
    have hclen := encode_chunk_length c hc
    obtain ⟨ht, hne, hcrc, hlen⟩ := hc
    obtain ⟨t0, t1, t2, t3, htype⟩ := list_length_four ht
    simp only [encode_chunks, List.length_append, List.length_cons] at hsz hf
    unfold find_png_end_loop
    rw [if_pos (by omega), if_neg (by omega)]
    have hdata : pfx ++ (encode_chunks (c :: cs) ++ (iend_chunk crc ++ sfx)) =
        pfx ++ (be32_bytes c.payload.length ++ ([t0, t1, t2, t3] ++
          (c.payload ++ c.crc ++ (encode_chunks cs ++ (iend_chunk crc ++ sfx))))) := by
      simp [encode_chunks, PngChunk.encode, htype]
    have hdata2 : pfx ++ (encode_chunks (c :: cs) ++ (iend_chunk crc ++ sfx)) =
        (pfx ++ c.encode) ++ (encode_chunks cs ++ (iend_chunk crc ++ sfx)) := by
      simp [encode_chunks]
    have r0 := rd_append_right pfx (be32_bytes c.payload.length ++ ([t0, t1, t2, t3] ++
          (c.payload ++ c.crc ++ (encode_chunks cs ++ (iend_chunk crc ++ sfx))))) 0
    have r1 := rd_append_right pfx (be32_bytes c.payload.length ++ ([t0, t1, t2, t3] ++
          (c.payload ++ c.crc ++ (encode_chunks cs ++ (iend_chunk crc ++ sfx))))) 1
    have r2 := rd_append_right pfx (be32_bytes c.payload.length ++ ([t0, t1, t2, t3] ++
          (c.payload ++ c.crc ++ (encode_chunks cs ++ (iend_chunk crc ++ sfx))))) 2
    have r3 := rd_append_right pfx (be32_bytes c.payload.length ++ ([t0, t1, t2, t3] ++
          (c.payload ++ c.crc ++ (encode_chunks cs ++ (iend_chunk crc ++ sfx))))) 3
    have r4 := bytes_match_append_right pfx (be32_bytes c.payload.length ++ ([t0, t1, t2, t3] ++
          (c.payload ++ c.crc ++ (encode_chunks cs ++ (iend_chunk crc ++ sfx))))) iendType 4
    simp only [Nat.add_zero] at r0
    have hm : bytes_match (be32_bytes c.payload.length ++ ([t0, t1, t2, t3] ++
          (c.payload ++ c.crc ++ (encode_chunks cs ++ (iend_chunk crc ++ sfx))))) 4 iendType =
          .ok false := by
      rw [bytes_match_inb _ _ _ (by simp [be32_bytes, iendType])]
      congr 1
      simp only [decide_eq_false_iff_not]
      intro hp
      apply hne
      rw [htype]
      simp only [be32_bytes, List.cons_append, List.nil_append, List.drop_succ_cons,
        List.drop_zero, iendType, List.cons_prefix_cons] at hp
      simp only [iendType]
      obtain ⟨h0, h1, h2, h3, _⟩ := hp
      rw [h0, h1, h2, h3]
    have hstep : (12 + c.payload.length) % 2 ^ 32 = 12 + c.payload.length :=
      Nat.mod_eq_of_lt (by omega)
    rw [hdata, r0, r1, r2, r3, r4, hm]
    simp only [be32_bytes, List.cons_append, List.nil_append, rd, List.getElem?_cons_zero,
      List.getElem?_cons_succ]
    rw [be32_be32_bytes _ (by omega), hstep]
    rw [if_neg (by omega), if_neg (by omega)]
    have := ih (pfx ++ c.encode) n hcs (by simp only [List.length_append]; omega) (by omega)
    rw [← hdata2] at this
    simp only [hdata, be32_bytes, List.cons_append, List.nil_append, List.length_append] at this
    rw [hclen] at this
    have e1 : pfx.length + (12 + c.payload.length) + (encode_chunks cs).length + 12 =
        pfx.length + (c.encode.length + (encode_chunks cs).length) + 12 := by omega
    rw [e1] at this
    simpa only [encode_chunks, List.length_append] using this

theorem chunks_length_le :
    ∀ (chunks : List PngChunk), (∀ c ∈ chunks, c.valid) →
      12 * chunks.length ≤ (encode_chunks chunks).length := by
  intro chunks
  induction chunks with
  | nil => intro _; simp
  | cons c cs ih =>
    intro hv
    have hc := encode_chunk_length c (hv c (List.mem_cons_self _ _))
    have := ih (fun x hx => hv x (List.mem_cons_of_mem _ hx))
    simp only [encode_chunks, List.length_append, List.length_cons]
    omega

theorem png_file_length (chunks : List PngChunk) (crc : List Byte) (hcrc : crc.length = 4) :
    (png_file chunks crc).length = 8 + (encode_chunks chunks).length + 12 := by
  simp [png_file, pngSignature, iend_chunk, iendType, hcrc]; omega

/-- On a well-formed PNG shorter than `2^31` bytes followed by any bytes, with a
window that holds the whole file, `xls2img_find_png_end` returns the length of
the file. -/
theorem xls2img_find_png_end_png_file (chunks : List PngChunk) (crc sfx : List Byte)
    (size : Nat) (hv : ∀ c ∈ chunks, c.valid) (hcrc : crc.length = 4)
    (hsz : (png_file chunks crc).length ≤ size)
    (hsmall : (png_file chunks crc).length < 2 ^ 31) :
    xls2img_find_png_end (png_file chunks crc ++ sfx) size =
      .ok (((png_file chunks crc).length : Nat) : Int) := by
  rw [png_file_length chunks crc hcrc] at hsz hsmall ⊢
  have hl := chunks_length_le chunks hv
  unfold xls2img_find_png_end
  rw [if_neg (by omega)]
  have hm : bytes_match (png_file chunks crc ++ sfx) 0 [0x89, 0x50, 0x4E, 0x47] = .ok true := by
    simp [png_file, pngSignature, bytes_match, rd]
  rw [hm]
  simp only
  have h := find_png_end_loop_chunks crc sfx size chunks pngSignature size hv
    (by simp only [pngSignature, List.length_cons, List.length_nil]; omega) (by omega)
  have hd : png_file chunks crc ++ sfx =
      pngSignature ++ (encode_chunks chunks ++ (iend_chunk crc ++ sfx)) := by
    simp [png_file]
  rw [hd]
  have h2 : find_png_end_loop
      (pngSignature ++ (encode_chunks chunks ++ (iend_chunk crc ++ sfx))) size size 8 =
      .ok ((8 + (encode_chunks chunks).length + 12 : Nat) : Int) := by
    simpa [pngSignature] using h
  rw [h2]
  simp only
  rw [int_cast_natCast _ hsmall]

/-- The back-scan returns the distance from `limit` to just after the highest
position below `limit + k` that holds `FF D9`. -/
theorem find_jpg_end_loop_found (blob : List Byte) (limit q : Nat)
    (hq : [0xFF, 0xD9] <+: blob.drop q) (hlq : limit ≤ q) :
    ∀ (k : Nat), q < limit + k → limit + k + 1 ≤ blob.length →
      (∀ j, q < j → j < limit + k → ¬ [0xFF, 0xD9] <+: blob.drop j) →
      find_jpg_end_loop blob limit k = .ok ((q + 2 - limit : Nat) : Int) := by
  intro k
  induction k with
  | zero => intro h _ _; omega
  | succ n ih =>
    intro hqk hb hno
    unfold find_jpg_end_loop
    rw [bytes_match_inb _ _ _ (by simp only [List.length_cons, List.length_nil]; omega)]
    by_cases hqn : q = limit + n
    · subst hqn
      simp only [hq, decide_True]
    · have := hno (limit + n) (by omega) (by omega)
      simp only [this, decide_False]
      exact ih (by omega) (by omega) (fun j h1 h2 => hno j h1 (by omega))

/-- A value returned by the back-scan is `-1`, or the distance from `limit` to
just after the highest position below `limit + k` that holds `FF D9`. -/
theorem find_jpg_end_loop_sound (blob : List Byte) (limit : Nat) :
    ∀ (k : Nat) (v : Int), find_jpg_end_loop blob limit k = .ok v →
      v = -1 ∨ ∃ q, limit ≤ q ∧ q < limit + k ∧ [0xFF, 0xD9] <+: blob.drop q ∧
        v = ((q + 2 - limit : Nat) : Int) ∧
        ∀ j, q < j → j < limit + k → ¬ [0xFF, 0xD9] <+: blob.drop j := by
  intro k
  induction k with
  | zero =>
    intro v h
    simp only [find_jpg_end_loop, Except.ok.injEq] at h
    left; exact h.symm
  | succ n ih =>
    intro v h
    unfold find_jpg_end_loop at h
    cases hm : bytes_match blob (limit + n) [0xFF, 0xD9] with
    | error e => simp [hm] at h
    | ok b =>
      have hiff := bytes_match_ok_iff _ _ _ _ hm
      cases b with
      | true =>
        simp only [hm, Except.ok.injEq] at h
        right
        refine ⟨limit + n, by omega, by omega, hiff.mp rfl, h.symm, ?_⟩
        intro j h1 h2; omega
      | false =>
        simp only [hm] at h
        rcases ih v h with h1 | ⟨q, h1, h2, h3, h4, h5⟩
        · left; exact h1
        · right
          refine ⟨q, h1, by omega, h3, h4, ?_⟩
          intro j hj1 hj2
          by_cases hjn : j = limit + n
          · subst hjn
            intro hc
            have := hiff.mpr hc
            cases this
          · exact h5 j hj1 (by omega)

theorem identify_format_png (blob : List Byte) (j : Nat) (h : isPngStart blob j) :
    xls2img_identify_format (blob.drop j) = .ok XLS2IMG_PNG := by
  unfold xls2img_identify_format
  have hl := h.length_le
  rw [bytes_match_inb _ _ _ (by simpa using hl)]
  have : pngSignature <+: List.drop 0 (List.drop j blob) := by simpa using h
  simp only [this, decide_True]

theorem identify_format_jpg (blob : List Byte) (j : Nat) (h : isJpegStart blob j) :
    xls2img_identify_format (blob.drop j) = .ok XLS2IMG_JPG := by
  have h2 : [0xFF, 0xD8] <+: blob.drop j := by
    rcases h with ⟨h, _⟩ | ⟨h, _⟩
    · exact List.IsPrefix.trans (by decide) h
    · exact List.IsPrefix.trans (by decide) h
  obtain ⟨t, ht⟩ := h2
  unfold xls2img_identify_format
  rw [← ht]
  simp [bytes_match, rd, pngSignature]

theorem identify_format_sound (data : List Byte) (fmt : XLS2IMG_FORMAT)
    (h : xls2img_identify_format data = .ok fmt) :
    (fmt = XLS2IMG_PNG ↔ pngSignature <+: data) ∧
    (fmt = XLS2IMG_JPG → [0xFF, 0xD8] <+: data) := by
  unfold xls2img_identify_format at h
  cases h1 : bytes_match data 0 pngSignature with
  | error e => simp [h1] at h
  | ok b =>
    have hiff := bytes_match_ok_iff _ _ _ _ h1
    simp only [List.drop_zero] at hiff
    cases b with
    | true =>
      simp only [h1, Except.ok.injEq] at h
      subst h
      exact ⟨⟨fun _ => hiff.mp rfl, fun _ => rfl⟩, fun hc => by cases hc⟩
    | false =>
      simp only [h1] at h
      have hn : ¬ pngSignature <+: data := fun hc => by have := hiff.mpr hc; cases this
      cases h2 : bytes_match data 0 [0xFF, 0xD8] with
      | error e => simp [h2] at h
      | ok b2 =>
        have hiff2 := bytes_match_ok_iff _ _ _ _ h2
        simp only [List.drop_zero] at hiff2
        cases b2 with
        | true =>
          simp only [h2, Except.ok.injEq] at h
          subst h
          exact ⟨⟨fun hc => (by cases hc), fun hc => absurd hc hn⟩, fun _ => hiff2.mp rfl⟩
        | false =>
          simp only [h2, Except.ok.injEq] at h
          subst h
          exact ⟨⟨fun hc => (by cases hc), fun hc => absurd hc hn⟩, fun hc => by cases hc⟩

/-- One iteration of the scan loop that finds no further header. -/
theorem scan_loop_none (blob : List Byte) (fuel pos : Nat)
    (last : Option (Nat × XLS2IMG_FORMAT)) (images : List Emitted)
    (hpos : pos + 9 ≤ blob.length)
    (hno : ∀ k, pos ≤ k → k + 9 < blob.length → ¬ isImageStart blob k) :
    scan_loop blob (fuel + 1) pos last images = .ok (last, images) := by
  unfold scan_loop
  rw [if_pos (by omega)]
  have hlen : blob.length - pos = (blob.drop pos).length := by simp
  rw [hlen, xls2img_find_next_header_none (blob.drop pos) (by simp; omega)]
  intro k hk
  rw [isImageStart_drop]
  simp only [List.length_drop] at hk
  exact hno (pos + k) (by omega) (by omega)

/-- One iteration of the scan loop that finds the next header at offset `j`. -/
theorem scan_loop_some (blob : List Byte) (fuel pos j : Nat)
    (last : Option (Nat × XLS2IMG_FORMAT)) (images : List Emitted)
    (hpj : pos ≤ j) (hj : j + 9 < blob.length) (hs : isImageStart blob j)
    (hno : ∀ k, pos ≤ k → k < j → ¬ isImageStart blob k) :
    scan_loop blob (fuel + 1) pos last images =
      match process_last_image_if_any blob last images j with
      | .error e => .error e
      | .ok images1 =>
        match xls2img_identify_format (blob.drop j) with
        | .error e => .error e
        | .ok fmt =>
          scan_loop blob fuel (j + 1)
            (if fmt = XLS2IMG_PNG ∨ fmt = XLS2IMG_JPG then some (j, fmt) else none) images1 := by
  conv_lhs => unfold scan_loop
  rw [if_pos (by omega)]
  have hlen : blob.length - pos = (blob.drop pos).length := by simp
  have hfind : xls2img_find_next_header (blob.drop pos) (blob.drop pos).length =
      .ok (some (j - pos)) := by
    apply xls2img_find_next_header_some
    · simp only [List.length_drop]; omega
    · rw [isImageStart_drop]
      have : pos + (j - pos) = j := by omega
      rw [this]; exact hs
    · intro k hk
      rw [isImageStart_drop]
      exact hno (pos + k) (by omega) (by omega)
  rw [hlen, hfind]
  have e : pos + (j - pos) = j := by omega
  simp only [e]

theorem flush_collector_scan (st : WalkState) (found : List Emitted)
    (hne : st.mso_collector.data ≠ [])
    (hscan : scan_drawing_group st.mso_collector.data = .ok found) :
    flush_collector st =
      .ok ⟨false, buffer_collector_init, st.images ++ found.map Emitted.image⟩ := by
  unfold flush_collector
  have : st.mso_collector.data.length > 0 := List.length_pos.mpr hne
  rw [if_pos this, hscan]

/-- A workbook with a single drawing-group chain, closed by a record `x` that is
neither `Continue` nor `MsoDrawingGroup`, yields the images of the scan of the
reassembled blob. -/
theorem extract_single_chain (pre post : List Record) (x : Record) (p0 : List Byte)
    (ps : List (List Byte)) (found : List Emitted) (res0 : XLS2IMG_RESULT)
    (hpre : ∀ r ∈ pre, r.valid ∧ r.type ≠ BIFF8_MsoDrawingGroup)
    (hpost : ∀ r ∈ post, r.valid ∧ r.type ≠ BIFF8_MsoDrawingGroup)
    (hx : x.valid ∧ x.type ≠ BIFF8_CONTINUE ∧ x.type ≠ BIFF8_MsoDrawingGroup)
    (hp0 : p0.length < 65536) (hps : ∀ p ∈ ps, p.length < 65536)
    (hne : p0 ++ ps.flatten ≠ [])
    (hscan : scan_drawing_group (p0 ++ ps.flatten) = .ok found) :
    xls2img_extract_images
        (encode_records (pre ++ (⟨BIFF8_MsoDrawingGroup, p0⟩ ::
          ps.map (fun p => (⟨BIFF8_CONTINUE, p⟩ : Record))) ++ x :: post)) res0 =
      .ok (extract_outcome (found.map Emitted.image)) := by
  have hv : ∀ r ∈ (pre ++ (⟨BIFF8_MsoDrawingGroup, p0⟩ ::
      ps.map (fun p => (⟨BIFF8_CONTINUE, p⟩ : Record))) ++ x :: post), r.valid := by
    intro r hr
    simp only [List.mem_append, List.mem_cons, List.mem_map] at hr
    rcases hr with (h | h | ⟨p, hp, rfl⟩) | h | h
    · exact (hpre r h).1
    · subst h
      exact ⟨by show BIFF8_MsoDrawingGroup < 65536; decide, hp0⟩
    · exact ⟨by show BIFF8_CONTINUE < 65536; decide, hps p hp⟩
    · subst h; exact hx.1
    · exact (hpost r h).1
  rw [xls2img_extract_images_records _ res0 hv (by simp)]
  rw [walk_records_append, walk_records_append,
    walk_records_idle pre _ rfl (fun r hr => (hpre r hr).2)]
  simp only [walk_records, record_step, if_true]
  rw [walk_records_continue ps _ rfl]
  simp only [hx.2.1, hx.2.2, if_false, and_false, if_true]
  rw [flush_collector_scan _ found (by simpa only [foldl_append_data] using hne)
    (by simpa only [foldl_append_data] using hscan)]
  simp only
  rw [walk_records_idle post _ rfl (fun r hr => (hpost r hr).2)]
  simp

theorem png_file_isPngStart (junk junk' : List Byte) (chunks : List PngChunk) (crc : List Byte) :
    isPngStart (junk ++ png_file chunks crc ++ junk') junk.length := by
  unfold isPngStart
  rw [List.append_assoc, List.drop_left]
  exact ⟨encode_chunks chunks ++ iend_chunk crc ++ junk', by simp [png_file]⟩

/-- The scan of `junk ++ P ++ junk'` for a well-formed PNG `P`, shorter than `2^31`
bytes, whose start is the only image start of the blob emits exactly `P`. -/
theorem scan_single_png (junk junk' : List Byte) (chunks : List PngChunk) (crc : List Byte)
    (hv : ∀ c ∈ chunks, c.valid) (hcrc : crc.length = 4)
    (hone : ∀ i, i ≠ junk.length →
      ¬ isImageStart (junk ++ png_file chunks crc ++ junk') i)
    (hsmall : (png_file chunks crc).length < 2 ^ 31) :
    scan_drawing_group (junk ++ png_file chunks crc ++ junk') =
      .ok [⟨junk.length,
        ⟨XLS2IMG_PNG, (png_file chunks crc).length, png_file chunks crc⟩⟩] := by
  have hP := png_file_length chunks crc hcrc
  have hstart := png_file_isPngStart junk junk' chunks crc
  have hdrop : (junk ++ png_file chunks crc ++ junk').drop junk.length =
      png_file chunks crc ++ junk' := by
    rw [List.append_assoc, List.drop_left]
  have hn : (junk ++ png_file chunks crc ++ junk').length =
      junk.length + (png_file chunks crc).length + junk'.length := by
    simp only [List.length_append]
  generalize hblob : junk ++ png_file chunks crc ++ junk' = blob at *
  obtain ⟨m, hm⟩ : ∃ m, blob.length = m + 2 := ⟨blob.length - 2, by omega⟩
  unfold scan_drawing_group
  rw [hm, scan_loop_some blob (m + 1) 0 junk.length none [] (Nat.zero_le _) (by omega)
    (Or.inl hstart) (fun k _ hk => hone k (by omega))]
  rw [identify_format_png blob junk.length hstart]
  simp only [process_last_image_if_any, true_or, if_true]
  rw [scan_loop_none blob m (junk.length + 1) _ _ (by omega)
    (fun k hk _ => hone k (by omega))]
  simp only [process_last_image_if_any]
  rw [hdrop, xls2img_find_png_end_png_file chunks crc junk' _ hv hcrc (by omega) hsmall]
  have hpos : ((png_file chunks crc).length : Int) > 0 := by
    rw [hP]; omega
  simp only [hpos, if_true, Int.toNat_ofNat, add_image_to_result]
  rw [if_pos (by omega), hdrop]
  simp

theorem isImageStart_lt (blob : List Byte) (i : Nat) (h : isImageStart blob i) :
    i < blob.length := by
  rcases h with h | h | h
  · have := h.length_le
    simp only [pngSignature, List.length_cons, List.length_nil, List.length_drop] at this
    omega
  · have := h.1.length_le
    simp only [List.length_cons, List.length_nil, List.length_drop] at this
    omega
  · have := h.1.length_le
    simp only [List.length_cons, List.length_nil, List.length_drop] at this
    omega

/-- To exclude image starts at all positions but `j` it is enough to look at the
positions inside the blob. -/
theorem no_other_start_of_bounded (blob : List Byte) (j : Nat)
    (h : ∀ i, i < blob.length → i ≠ j → ¬ isImageStart blob i) :
    ∀ i, i ≠ j → ¬ isImageStart blob i := by
  intro i hij hc
  exact h i (isImageStart_lt blob i hc) hij hc

/-- A drawing-group blob `junk ++ P ++ junk'`, with `P` a well-formed PNG whose
start is the only image start of the blob, carried in one `MsoDrawingGroup` record
that is followed by a record that is neither `Continue` nor `MsoDrawingGroup`
(the workbook holding no other `MsoDrawingGroup` record), makes
`xls2img_extract_images` return 1 with the single image of format PNG, size `|P|`
and bytes `P`. -/
theorem single_png_extracted (pre post : List Record) (x : Record)
    (junk junk' : List Byte) (chunks : List PngChunk) (crc : List Byte)
    (res0 : XLS2IMG_RESULT)
    (hpre : ∀ r ∈ pre, r.valid ∧ r.type ≠ BIFF8_MsoDrawingGroup)
    (hpost : ∀ r ∈ post, r.valid ∧ r.type ≠ BIFF8_MsoDrawingGroup)
    (hx : x.valid ∧ x.type ≠ BIFF8_CONTINUE ∧ x.type ≠ BIFF8_MsoDrawingGroup)
    (hv : ∀ c ∈ chunks, c.valid) (hcrc : crc.length = 4)
    (hlen : (junk ++ png_file chunks crc ++ junk').length < 65536)
    (hone : ∀ i, i ≠ junk.length →
      ¬ isImageStart (junk ++ png_file chunks crc ++ junk') i) :
    xls2img_extract_images
        (encode_records
          (pre ++ [⟨BIFF8_MsoDrawingGroup, junk ++ png_file chunks crc ++ junk'⟩] ++
            x :: post)) res0 =
      .ok (1, ⟨[⟨XLS2IMG_PNG, (png_file chunks crc).length, png_file chunks crc⟩], 1⟩) := by
  have hscan := scan_single_png junk junk' chunks crc hv hcrc hone (by
    have := hlen
    simp only [List.length_append] at this
    omega)
  have hP := png_file_length chunks crc hcrc
  have h := extract_single_chain pre post x (junk ++ png_file chunks crc ++ junk') [] _ res0
    hpre hpost hx hlen (by simp) (by
      intro hc
      have := congrArg List.length hc
      simp only [List.flatten_nil, List.append_nil, List.length_append, List.length_nil] at this
      omega) (by simpa using hscan)
  simp only [List.map_nil] at h
  rw [h]
  rfl

/-- The scenario of the specification: 16 bytes of junk, a PNG with `IHDR`, `IDAT`
and `IEND` chunks, 32 bytes of trailing junk, between a `BOF` and an `EOF` record. -/
theorem single_png_extracted_example :
    xls2img_extract_images
        (encode_records
          ([bof_record] ++ [⟨BIFF8_MsoDrawingGroup, c2_junk ++ png_file c2_chunks c2_crc ++
            c2_trailing⟩] ++ eof_record :: [])) ⟨[], 0⟩ =
      .ok (1, ⟨[⟨XLS2IMG_PNG, (png_file c2_chunks c2_crc).length,
        png_file c2_chunks c2_crc⟩], 1⟩) :=
  single_png_extracted [bof_record] [] eof_record c2_junk c2_trailing c2_chunks c2_crc
    ⟨[], 0⟩ (by decide) (by decide) (by decide) (by decide) (by decide) (by decide)
    (no_other_start_of_bounded _ _ (by decide))

/-- C2 (code defect): the blob `c2_blob` is 16 bytes of junk, a well-formed PNG
and 32 bytes of junk, and its only image start is the start of the PNG.  It is
carried in one `MsoDrawingGroup` record that is followed by a non-`Continue`
record, here an empty `MsoDrawingGroup` record.  That record frees the collector
without handing it to the scanner, and `xls2img_extract_images` returns no-images
(-5) with an empty result instead of 1 with the PNG; followed by an `EOF` record
the same drawing group yields the PNG. -/
theorem c2_drawing_group_record_discards_png :
    c2_blob = c2_junk ++ png_file c2_chunks c2_crc ++ c2_trailing ∧
    (∀ c ∈ c2_chunks, c.valid) ∧
    (∀ i, i < c2_blob.length → i ≠ c2_junk.length → ¬ isImageStart c2_blob i) ∧
    (empty_mso_record.valid ∧ empty_mso_record.type ≠ BIFF8_CONTINUE) ∧
    xls2img_extract_images
        (encode_records [⟨BIFF8_MsoDrawingGroup, c2_blob⟩, empty_mso_record]) ⟨[], 0⟩ =
      .ok (XLS2IMG_ERROR_NO_IMAGES, ⟨[], 0⟩) ∧
    xls2img_extract_images
        (encode_records [⟨BIFF8_MsoDrawingGroup, c2_blob⟩, eof_record]) ⟨[], 0⟩ =
      .ok (1, ⟨[⟨XLS2IMG_PNG, 67, c2_png⟩], 1⟩) := by
  refine ⟨by decide, by decide, by decide, by decide, ?_, ?_⟩
  · decide
  · decide

theorem jpeg_file_length (exif : Bool) (l0 l1 : Byte) (body : List Byte) :
    (jpeg_file exif l0 l1 body).length = 12 + body.length := by
  cases exif <;> simp [jpeg_file, jpeg_header, jfifId, exifId] <;> omega

theorem jpeg_file_isJpegStart (pre sfx : List Byte) (exif : Bool) (l0 l1 : Byte)
    (body : List Byte) :
    isJpegStart (pre ++ jpeg_file exif l0 l1 body ++ sfx) pre.length := by
  unfold isJpegStart
  have e : pre.length + 6 = (pre ++ [0xFF, 0xD8, 0xFF, if exif then 0xE1 else 0xE0, l0, l1]).length := by
    simp
  cases exif
  · left
    constructor
    · rw [List.append_assoc, List.drop_left]
      exact ⟨[l0, l1] ++ jfifId ++ body ++ [0xFF, 0xD9] ++ sfx, by
        simp [jpeg_file, jpeg_header]⟩
    · rw [e]
      have : pre ++ jpeg_file false l0 l1 body ++ sfx =
          (pre ++ [0xFF, 0xD8, 0xFF, if false = true then 0xE1 else 0xE0, l0, l1]) ++
            (jfifId ++ (body ++ [0xFF, 0xD9] ++ sfx)) := by
        simp [jpeg_file, jpeg_header]
      rw [this, List.drop_left]
      exact ⟨_, rfl⟩
  · right
    constructor
    · rw [List.append_assoc, List.drop_left]
      exact ⟨[l0, l1] ++ exifId ++ body ++ [0xFF, 0xD9] ++ sfx, by
        simp [jpeg_file, jpeg_header]⟩
    · rw [e]
      have : pre ++ jpeg_file true l0 l1 body ++ sfx =
          (pre ++ [0xFF, 0xD8, 0xFF, if true = true then 0xE1 else 0xE0, l0, l1]) ++
            (exifId ++ (body ++ [0xFF, 0xD9] ++ sfx)) := by
        simp [jpeg_file, jpeg_header]
      rw [this, List.drop_left]
      exact ⟨_, rfl⟩

/-- Finalising a pending PNG whose bytes are a well-formed PNG file, shorter than
`2^31` bytes, that fits below the bound emits that file. -/
theorem process_last_png_file (blob rest : List Byte) (s B : Nat) (images : List Emitted)
    (chunks : List PngChunk) (crc : List Byte)
    (hv : ∀ c ∈ chunks, c.valid) (hcrc : crc.length = 4)
    (hdrop : blob.drop s = png_file chunks crc ++ rest)
    (hB : s + (png_file chunks crc).length ≤ B)
    (hsmall : (png_file chunks crc).length < 2 ^ 31) :
    process_last_image_if_any blob (some (s, XLS2IMG_PNG)) images B =
      .ok (images ++ [⟨s, ⟨XLS2IMG_PNG, (png_file chunks crc).length,
        png_file chunks crc⟩⟩]) := by
  have hP := png_file_length chunks crc hcrc
  have hlen : s + (png_file chunks crc).length ≤ blob.length := by
    have := congrArg List.length hdrop
    simp only [List.length_drop, List.length_append] at this
    omega
  simp only [process_last_image_if_any]
  rw [hdrop, xls2img_find_png_end_png_file chunks crc rest _ hv hcrc (by omega) hsmall]
  have hpos : ((png_file chunks crc).length : Int) > 0 := by
    rw [hP]; omega
  simp only [hpos, if_true, Int.toNat_ofNat, add_image_to_result]
  rw [if_pos hlen, hdrop]
  simp

/-- The conversion `(int)` does not raise a size. -/
theorem int_cast_le (n : Nat) : int_cast (n : Int) ≤ (n : Int) := by
  unfold int_cast
  omega

/-- On a JPEG file followed by bytes holding no `FF D9` pair, the back-scan from
the end of the blob returns the length of the file, converted by `(int)`. -/
theorem xls2img_find_jpg_end_jpeg_file (pre junk : List Byte)
    (exif : Bool) (l0 l1 : Byte) (body : List Byte)
    (hjunk : ∀ q, ¬ hasEoiAt junk q) :
    xls2img_find_jpg_end (pre ++ jpeg_file exif l0 l1 body ++ junk)
        (pre ++ jpeg_file exif l0 l1 body ++ junk).length pre.length =
      .ok (int_cast ((jpeg_file exif l0 l1 body).length : Int)) := by
  have hJ := jpeg_file_length exif l0 l1 body
  have hn : (pre ++ jpeg_file exif l0 l1 body ++ junk).length =
      pre.length + (jpeg_file exif l0 l1 body).length + junk.length := by
    simp only [List.length_append]
  have hq : [0xFF, 0xD9] <+: (pre ++ jpeg_file exif l0 l1 body ++ junk).drop
      (pre.length + 10 + body.length) := by
    have e : pre.length + 10 + body.length =
        (pre ++ (jpeg_header exif l0 l1 ++ body)).length := by
      cases exif <;> simp [jpeg_header, jfifId, exifId] <;> omega
    have : pre ++ jpeg_file exif l0 l1 body ++ junk =
        (pre ++ (jpeg_header exif l0 l1 ++ body)) ++ ([0xFF, 0xD9] ++ junk) := by
      simp [jpeg_file]
    rw [e, this, List.drop_left]
    exact ⟨junk, rfl⟩
  have hlater : ∀ j, pre.length + 10 + body.length < j →
      j < pre.length + ((pre ++ jpeg_file exif l0 l1 body ++ junk).length - 1 - pre.length) →
      ¬ [0xFF, 0xD9] <+: (pre ++ jpeg_file exif l0 l1 body ++ junk).drop j := by
    intro j hj1 _ hc
    by_cases hj : j = pre.length + 11 + body.length
    · have e : j = (pre ++ (jpeg_header exif l0 l1 ++ body ++ [0xFF])).length := by
        cases exif <;> simp [jpeg_header, jfifId, exifId] <;> omega
      have : pre ++ jpeg_file exif l0 l1 body ++ junk =
          (pre ++ (jpeg_header exif l0 l1 ++ body ++ [0xFF])) ++ ([0xD9] ++ junk) := by
        simp [jpeg_file]
      rw [e, this, List.drop_left] at hc
      simp at hc
    · have e : j = (pre ++ jpeg_file exif l0 l1 body).length + (j - (pre.length + 12 + body.length)) := by
        simp only [List.length_append, hJ]; omega
      rw [e, ← List.drop_drop, List.drop_left] at hc
      exact hjunk _ hc
  unfold xls2img_find_jpg_end
  rw [find_jpg_end_loop_found _ pre.length (pre.length + 10 + body.length) hq (by omega) _
    (by omega) (by omega) hlater]
  have e2 : pre.length + 10 + body.length + 2 - pre.length = (jpeg_file exif l0 l1 body).length := by
    omega
  rw [e2]

/-- Finalising, against the end of the blob, a pending JPEG file of `n` bytes that
is followed by bytes holding no `FF D9` pair: with `v = (int)n`, the first `v`
bytes of the file are emitted when `v` is positive, and nothing otherwise. -/
theorem process_last_jpeg_file_cast (pre junk : List Byte) (images : List Emitted)
    (exif : Bool) (l0 l1 : Byte) (body : List Byte)
    (hjunk : ∀ q, ¬ hasEoiAt junk q) :
    process_last_image_if_any (pre ++ jpeg_file exif l0 l1 body ++ junk)
        (some (pre.length, XLS2IMG_JPG)) images
        (pre ++ jpeg_file exif l0 l1 body ++ junk).length =
      if int_cast ((jpeg_file exif l0 l1 body).length : Int) > 0 then
        .ok (images ++ [⟨pre.length, ⟨XLS2IMG_JPG,
          (int_cast ((jpeg_file exif l0 l1 body).length : Int)).toNat,
          (jpeg_file exif l0 l1 body).take
            (int_cast ((jpeg_file exif l0 l1 body).length : Int)).toNat⟩⟩])
      else .ok images := by
  have hn : (pre ++ jpeg_file exif l0 l1 body ++ junk).length =
      pre.length + (jpeg_file exif l0 l1 body).length + junk.length := by
    simp only [List.length_append]
  have hdrop : (pre ++ jpeg_file exif l0 l1 body ++ junk).drop pre.length =
      jpeg_file exif l0 l1 body ++ junk := by
    rw [List.append_assoc, List.drop_left]
  have hle := int_cast_le (jpeg_file exif l0 l1 body).length
  simp only [process_last_image_if_any]
  rw [xls2img_find_jpg_end_jpeg_file pre junk exif l0 l1 body hjunk]
  simp only
  by_cases hpos : int_cast ((jpeg_file exif l0 l1 body).length : Int) > 0
  · rw [if_pos hpos, if_pos hpos]
    unfold add_image_to_result
    rw [if_pos (by omega), hdrop, List.take_append_of_le_length (by omega)]
  · rw [if_neg hpos, if_neg hpos]

/-- Finalising, against the end of the blob, a pending JPEG file, shorter than
`2^31` bytes, that is followed by bytes holding no `FF D9` pair emits that file. -/
theorem process_last_jpeg_file (pre junk : List Byte) (images : List Emitted)
    (exif : Bool) (l0 l1 : Byte) (body : List Byte)
    (hjunk : ∀ q, ¬ hasEoiAt junk q)
    (hsmall : (jpeg_file exif l0 l1 body).length < 2 ^ 31) :
    process_last_image_if_any (pre ++ jpeg_file exif l0 l1 body ++ junk)
        (some (pre.length, XLS2IMG_JPG)) images
        (pre ++ jpeg_file exif l0 l1 body ++ junk).length =
      .ok (images ++ [⟨pre.length, ⟨XLS2IMG_JPG, (jpeg_file exif l0 l1 body).length,
        jpeg_file exif l0 l1 body⟩⟩]) := by
  have hJ := jpeg_file_length exif l0 l1 body
  rw [process_last_jpeg_file_cast pre junk images exif l0 l1 body hjunk,
    int_cast_natCast _ hsmall]
  have hpos : ((jpeg_file exif l0 l1 body).length : Int) > 0 := by
    rw [hJ]; omega
  rw [if_pos hpos]
  simp

/-- The scan of `J ++ junk` for a JFIF or Exif JPEG `J` of `n` bytes at offset 0
that is the only image start of the blob, the junk holding no `FF D9` pair: with
`v = (int)n`, the first `v` bytes of `J` are emitted when `v` is positive, and
nothing otherwise. -/
theorem scan_single_jpeg_cast (junk : List Byte) (exif : Bool) (l0 l1 : Byte)
    (body : List Byte)
    (hone : ∀ i, i ≠ 0 → ¬ isImageStart (jpeg_file exif l0 l1 body ++ junk) i)
    (hjunk : ∀ q, ¬ hasEoiAt junk q) :
    scan_drawing_group (jpeg_file exif l0 l1 body ++ junk) =
      if int_cast ((jpeg_file exif l0 l1 body).length : Int) > 0 then
        .ok [⟨0, ⟨XLS2IMG_JPG, (int_cast ((jpeg_file exif l0 l1 body).length : Int)).toNat,
          (jpeg_file exif l0 l1 body).take
            (int_cast ((jpeg_file exif l0 l1 body).length : Int)).toNat⟩⟩]
      else .ok [] := by
  have hJ := jpeg_file_length exif l0 l1 body
  have hstart := jpeg_file_isJpegStart [] junk exif l0 l1 body
  have hfin := process_last_jpeg_file_cast [] junk [] exif l0 l1 body hjunk
  simp only [List.nil_append, List.length_nil] at hstart hfin
  have hn : (jpeg_file exif l0 l1 body ++ junk).length =
      (jpeg_file exif l0 l1 body).length + junk.length := by
    simp only [List.length_append]
  generalize hblob : jpeg_file exif l0 l1 body ++ junk = blob at *
  obtain ⟨m, hm⟩ : ∃ m, blob.length = m + 2 := ⟨blob.length - 2, by omega⟩
  unfold scan_drawing_group
  rw [hm, scan_loop_some blob (m + 1) 0 0 none [] (Nat.zero_le _) (by omega)
    (Or.inr hstart) (fun k _ hk => by omega)]
  rw [identify_format_jpg blob 0 hstart]
  simp only [process_last_image_if_any, or_true, if_true]
  rw [scan_loop_none blob m (0 + 1) _ _ (by omega) (fun k hk _ => hone k (by omega))]
  simp only
  rw [← hm]
  exact hfin

/-- The scan of `J ++ junk` for a JFIF or Exif JPEG `J`, shorter than `2^31` bytes,
at offset 0 that is the only image start of the blob, the junk holding no `FF D9`
pair, emits exactly `J`. -/
theorem scan_single_jpeg (junk : List Byte) (exif : Bool) (l0 l1 : Byte) (body : List Byte)
    (hone : ∀ i, i ≠ 0 → ¬ isImageStart (jpeg_file exif l0 l1 body ++ junk) i)
    (hjunk : ∀ q, ¬ hasEoiAt junk q)
    (hsmall : (jpeg_file exif l0 l1 body).length < 2 ^ 31) :
    scan_drawing_group (jpeg_file exif l0 l1 body ++ junk) =
      .ok [⟨0, ⟨XLS2IMG_JPG, (jpeg_file exif l0 l1 body).length,
        jpeg_file exif l0 l1 body⟩⟩] := by
  have hJ := jpeg_file_length exif l0 l1 body
  rw [scan_single_jpeg_cast junk exif l0 l1 body hone hjunk, int_cast_natCast _ hsmall]
  have hpos : ((jpeg_file exif l0 l1 body).length : Int) > 0 := by
    rw [hJ]; omega
  rw [if_pos hpos]
  simp

/-- C3 (amended): a drawing-group blob `J ++ junk`, where `J` starts with
`FF D8 FF E0 00 10 'JFIF' 00` and ends with `FF D9`, offset 0 is the only image
start of the blob and `junk` holds no `FF D9` pair, carried in one
`MsoDrawingGroup` record that is followed by a record that is neither `Continue`
nor `MsoDrawingGroup` (the workbook holding no other `MsoDrawingGroup` record),
makes `xls2img_extract_images` return 1 with the single image of format JPEG, size
`|J|` (the offset of the terminating `FF D9` plus 2) and bytes `J`. -/
theorem c3_single_jpeg_extracted (pre post : List Record) (x : Record)
    (body junk : List Byte) (res0 : XLS2IMG_RESULT)
    (hpre : ∀ r ∈ pre, r.valid ∧ r.type ≠ BIFF8_MsoDrawingGroup)
    (hpost : ∀ r ∈ post, r.valid ∧ r.type ≠ BIFF8_MsoDrawingGroup)
    (hx : x.valid ∧ x.type ≠ BIFF8_CONTINUE ∧ x.type ≠ BIFF8_MsoDrawingGroup)
    (hlen : (jfif_file body ++ junk).length < 65536)
    (hone : ∀ i, i ≠ 0 → ¬ isImageStart (jfif_file body ++ junk) i)
    (hjunk : ∀ q, ¬ hasEoiAt junk q) :
    xls2img_extract_images
        (encode_records
          (pre ++ [⟨BIFF8_MsoDrawingGroup, jfif_file body ++ junk⟩] ++ x :: post)) res0 =
      .ok (1, ⟨[⟨XLS2IMG_JPG, (jfif_file body).length, jfif_file body⟩], 1⟩) := by
  have hscan := scan_single_jpeg junk false 0x00 0x10 (0x00 :: body) hone hjunk (by
    have := hlen
    simp only [jfif_file, List.length_append] at this
    omega)
  have hJ := jpeg_file_length false 0x00 0x10 (0x00 :: body)
  have h := extract_single_chain pre post x (jfif_file body ++ junk) [] _ res0
    hpre hpost hx hlen (by simp) (by
      intro hc
      have := congrArg List.length hc
      simp only [List.flatten_nil, List.append_nil, List.length_append, List.length_nil,
        jfif_file] at this
      omega) (by simpa [jfif_file] using hscan)
  simp only [List.map_nil] at h
  rw [h]
  rfl

theorem no_eoi_of_bounded (junk : List Byte)
    (h : ∀ q, q < junk.length → ¬ hasEoiAt junk q) : ∀ q, ¬ hasEoiAt junk q := by
  intro q hc
  have hl := List.IsPrefix.length_le hc
  simp only [List.length_cons, List.length_nil, List.length_drop] at hl
  exact h q (by omega) hc

/-- C3 (amended) holds on a 16-byte JFIF JPEG followed by four bytes of junk,
between a `BOF` and an `EOF` record. -/
theorem c3_single_jpeg_extracted_witness :
    xls2img_extract_images
        (encode_records
          ([bof_record] ++ [⟨BIFF8_MsoDrawingGroup, jfif_file [0x01, 0x02, 0x03] ++ c3_junk⟩] ++
            eof_record :: [])) ⟨[], 0⟩ =
      .ok (1, ⟨[⟨XLS2IMG_JPG, (jfif_file [0x01, 0x02, 0x03]).length,
        jfif_file [0x01, 0x02, 0x03]⟩], 1⟩) :=
  c3_single_jpeg_extracted [bof_record] [] eof_record [0x01, 0x02, 0x03] c3_junk ⟨[], 0⟩
    (by decide) (by decide) (by decide) (by decide)
    (no_other_start_of_bounded _ _ (by decide)) (no_eoi_of_bounded _ (by decide))

/-- C3 as stated fails in two ways.  With trailing junk `33 FF D9 33`, offset 0
still being the only image start, the emitted JPEG has size `|J| + 3`, not `|J|`:
the back-scan stops at the last `FF D9` of the blob.  And when the record that
follows is an (empty) `MsoDrawingGroup` record, which is a non-`Continue` record,
`xls2img_extract_images` returns no-images. -/
theorem c3_counterexample :
    ((∀ i, i < (c3_jpeg ++ c3_junk_eoi).length → i ≠ 0 →
        ¬ isImageStart (c3_jpeg ++ c3_junk_eoi) i) ∧
      xls2img_extract_images
          (encode_records [⟨BIFF8_MsoDrawingGroup, c3_jpeg ++ c3_junk_eoi⟩, eof_record])
          ⟨[], 0⟩ =
        .ok (1, ⟨[⟨XLS2IMG_JPG, c3_jpeg.length + 3, c3_jpeg ++ [0x33, 0xFF, 0xD9]⟩], 1⟩)) ∧
    ((∀ i, i < (c3_jpeg ++ c3_junk).length → i ≠ 0 → ¬ isImageStart (c3_jpeg ++ c3_junk) i) ∧
      (empty_mso_record.valid ∧ empty_mso_record.type ≠ BIFF8_CONTINUE) ∧
      xls2img_extract_images
          (encode_records [⟨BIFF8_MsoDrawingGroup, c3_jpeg ++ c3_junk⟩, empty_mso_record])
          ⟨[], 0⟩ =
        .ok (XLS2IMG_ERROR_NO_IMAGES, ⟨[], 0⟩)) := by
  refine ⟨⟨by decide, by decide⟩, by decide, by decide, by decide⟩

/-- The scan of `P ++ J`, a well-formed PNG followed by a JFIF or Exif JPEG, each
shorter than `2^31` bytes, with no image start other than the starts of `P` and
`J`, emits `P`, then `J`. -/
theorem scan_png_then_jpeg (chunks : List PngChunk) (crc : List Byte)
    (exif : Bool) (l0 l1 : Byte) (body : List Byte)
    (hv : ∀ c ∈ chunks, c.valid) (hcrc : crc.length = 4)
    (hone : ∀ i, i ≠ 0 → i ≠ (png_file chunks crc).length →
      ¬ isImageStart (png_file chunks crc ++ jpeg_file exif l0 l1 body) i)
    (hsmallP : (png_file chunks crc).length < 2 ^ 31)
    (hsmallJ : (jpeg_file exif l0 l1 body).length < 2 ^ 31) :
    scan_drawing_group (png_file chunks crc ++ jpeg_file exif l0 l1 body) =
      .ok [⟨0, ⟨XLS2IMG_PNG, (png_file chunks crc).length, png_file chunks crc⟩⟩,
        ⟨(png_file chunks crc).length,
          ⟨XLS2IMG_JPG, (jpeg_file exif l0 l1 body).length, jpeg_file exif l0 l1 body⟩⟩] := by
  have hP := png_file_length chunks crc hcrc
  have hJ := jpeg_file_length exif l0 l1 body
  have hstartP := png_file_isPngStart [] (jpeg_file exif l0 l1 body) chunks crc
  have hstartJ := jpeg_file_isJpegStart (png_file chunks crc) [] exif l0 l1 body
  have hfinJ := process_last_jpeg_file (png_file chunks crc) []
    [⟨0, ⟨XLS2IMG_PNG, (png_file chunks crc).length, png_file chunks crc⟩⟩] exif l0 l1 body
    (no_eoi_of_bounded _ (fun q hq => by simp at hq)) hsmallJ
  have hfinP := process_last_png_file (png_file chunks crc ++ jpeg_file exif l0 l1 body)
    (jpeg_file exif l0 l1 body) 0 (png_file chunks crc).length [] chunks crc hv hcrc
    (by simp) (by omega) hsmallP
  simp only [List.nil_append, List.length_nil, List.append_nil] at hstartP hstartJ hfinJ hfinP
  have hn : (png_file chunks crc ++ jpeg_file exif l0 l1 body).length =
      (png_file chunks crc).length + (jpeg_file exif l0 l1 body).length := by
    simp only [List.length_append]
  generalize hblob : png_file chunks crc ++ jpeg_file exif l0 l1 body = blob at *
  obtain ⟨m, hm⟩ : ∃ m, blob.length = m + 3 := ⟨blob.length - 3, by omega⟩
  unfold scan_drawing_group
  rw [hm, scan_loop_some blob (m + 2) 0 0 none [] (Nat.zero_le _) (by omega)
    (Or.inl hstartP) (fun k _ hk => by omega)]
  rw [identify_format_png blob 0 hstartP]
  simp only [process_last_image_if_any, true_or, if_true]
  rw [scan_loop_some blob (m + 1) (0 + 1) (png_file chunks crc).length _ _ (by omega) (by omega)
    (Or.inr hstartJ) (fun k h1 h2 => hone k (by omega) (by omega))]
  rw [hfinP, identify_format_jpg blob _ hstartJ]
  simp only [or_true, if_true]
  rw [scan_loop_none blob m ((png_file chunks crc).length + 1) _ _ (by omega)
    (fun k hk _ => hone k (by omega) (by omega))]
  simp only
  rw [← hm]
  exact hfinJ

/-- A drawing-group blob `P ++ J`, with `P` a well-formed PNG and `J` a JFIF or Exif
JPEG ending in `FF D9`, each shorter than `2^31` bytes, with no image start other
than the starts of `P` and `J`, carried in an `MsoDrawingGroup` record and its
`Continue` records and followed by a record that is neither `Continue` nor
`MsoDrawingGroup` (the workbook holding no other `MsoDrawingGroup` record), makes
`xls2img_extract_images` return 2 with the result list `[(PNG, P), (JPEG, J)]` in
that order. -/
theorem png_then_jpeg_extracted (pre post : List Record) (x : Record)
    (p0 : List Byte) (ps : List (List Byte))
    (chunks : List PngChunk) (crc : List Byte) (exif : Bool) (l0 l1 : Byte) (body : List Byte)
    (res0 : XLS2IMG_RESULT)
    (hpre : ∀ r ∈ pre, r.valid ∧ r.type ≠ BIFF8_MsoDrawingGroup)
    (hpost : ∀ r ∈ post, r.valid ∧ r.type ≠ BIFF8_MsoDrawingGroup)
    (hx : x.valid ∧ x.type ≠ BIFF8_CONTINUE ∧ x.type ≠ BIFF8_MsoDrawingGroup)
    (hp0 : p0.length < 65536) (hps : ∀ p ∈ ps, p.length < 65536)
    (hcat : p0 ++ ps.flatten = png_file chunks crc ++ jpeg_file exif l0 l1 body)
    (hv : ∀ c ∈ chunks, c.valid) (hcrc : crc.length = 4)
    (hone : ∀ i, i ≠ 0 → i ≠ (png_file chunks crc).length →
      ¬ isImageStart (png_file chunks crc ++ jpeg_file exif l0 l1 body) i)
    (hsmallP : (png_file chunks crc).length < 2 ^ 31)
    (hsmallJ : (jpeg_file exif l0 l1 body).length < 2 ^ 31) :
    xls2img_extract_images
        (encode_records
          (pre ++ (⟨BIFF8_MsoDrawingGroup, p0⟩ ::
            ps.map (fun p => (⟨BIFF8_CONTINUE, p⟩ : Record))) ++ x :: post)) res0 =
      .ok (2, ⟨[⟨XLS2IMG_PNG, (png_file chunks crc).length, png_file chunks crc⟩,
        ⟨XLS2IMG_JPG, (jpeg_file exif l0 l1 body).length, jpeg_file exif l0 l1 body⟩], 2⟩) := by
  have hscan := scan_png_then_jpeg chunks crc exif l0 l1 body hv hcrc hone hsmallP hsmallJ
  have hP := png_file_length chunks crc hcrc
  rw [← hcat] at hscan
  have h := extract_single_chain pre post x p0 ps _ res0 hpre hpost hx hp0 hps (by
      intro hc
      have := congrArg List.length (hcat.symm.trans hc)
      simp only [List.length_append, List.length_nil] at this
      omega) hscan
  rw [h]
  rfl

theorem no_other_start_of_bounded₂ (blob : List Byte) (j k : Nat)
    (h : ∀ i, i < blob.length → i ≠ j → i ≠ k → ¬ isImageStart blob i) :
    ∀ i, i ≠ j → i ≠ k → ¬ isImageStart blob i := by
  intro i hij hik hc
  exact h i (isImageStart_lt blob i hc) hij hik hc

/-- The 67-byte PNG followed by a 14-byte Exif JPEG, split into an
`MsoDrawingGroup` record of 40 bytes and a `Continue` record of 41 bytes, between
a `BOF` and an `EOF` record. -/
theorem png_then_jpeg_extracted_example :
    xls2img_extract_images
        (encode_records
          ([bof_record] ++ (⟨BIFF8_MsoDrawingGroup, (c2_png ++ c4_jpeg).take 40⟩ ::
            [(c2_png ++ c4_jpeg).drop 40].map (fun p => (⟨BIFF8_CONTINUE, p⟩ : Record))) ++
            eof_record :: [])) ⟨[], 0⟩ =
      .ok (2, ⟨[⟨XLS2IMG_PNG, (png_file c2_chunks c2_crc).length, png_file c2_chunks c2_crc⟩,
        ⟨XLS2IMG_JPG, (jpeg_file true 0x00 0x08 [0x00, 0x00]).length,
          jpeg_file true 0x00 0x08 [0x00, 0x00]⟩], 2⟩) :=
  png_then_jpeg_extracted [bof_record] [] eof_record ((c2_png ++ c4_jpeg).take 40)
    [(c2_png ++ c4_jpeg).drop 40] c2_chunks c2_crc true 0x00 0x08 [0x00, 0x00] ⟨[], 0⟩
    (by decide) (by decide) (by decide) (by decide) (by decide) (by decide) (by decide)
    (by decide) (no_other_start_of_bounded₂ _ _ _ (by decide)) (by decide) (by decide)

/-- C4 (code defect): the blob `c2_png ++ c4_jpeg` is a well-formed PNG followed by
an Exif JPEG with no other image start.  It is carried in an `MsoDrawingGroup`
record and a `Continue` record, and the chain is followed by a non-`Continue`
record, here an empty `MsoDrawingGroup` record.  That record frees the collector
without handing it to the scanner, and `xls2img_extract_images` returns no-images
(-5) with an empty result instead of 2 with the PNG and the JPEG; followed by an
`EOF` record the same chain yields both images in order. -/
theorem c4_drawing_group_record_discards_chain :
    (c2_png = png_file c2_chunks c2_crc ∧ c4_jpeg = jpeg_file true 0x00 0x08 [0x00, 0x00]) ∧
    (∀ c ∈ c2_chunks, c.valid) ∧
    (∀ i, i < (c2_png ++ c4_jpeg).length → i ≠ 0 → i ≠ c2_png.length →
      ¬ isImageStart (c2_png ++ c4_jpeg) i) ∧
    (empty_mso_record.valid ∧ empty_mso_record.type ≠ BIFF8_CONTINUE) ∧
    xls2img_extract_images
        (encode_records [⟨BIFF8_MsoDrawingGroup, (c2_png ++ c4_jpeg).take 40⟩,
          ⟨BIFF8_CONTINUE, (c2_png ++ c4_jpeg).drop 40⟩, empty_mso_record]) ⟨[], 0⟩ =
      .ok (XLS2IMG_ERROR_NO_IMAGES, ⟨[], 0⟩) ∧
    xls2img_extract_images
        (encode_records [⟨BIFF8_MsoDrawingGroup, (c2_png ++ c4_jpeg).take 40⟩,
          ⟨BIFF8_CONTINUE, (c2_png ++ c4_jpeg).drop 40⟩, eof_record]) ⟨[], 0⟩ =
      .ok (2, ⟨[⟨XLS2IMG_PNG, 67, c2_png⟩, ⟨XLS2IMG_JPG, 14, c4_jpeg⟩], 2⟩) := by
  refine ⟨by decide, by decide, by decide, by decide, by decide, by decide⟩

/-- What `process_last_image_if_any` does to the image list: nothing, or one
image appended for the pending start. -/
theorem process_last_image_if_any_cases (blob : List Byte) (s : Nat) (fmt : XLS2IMG_FORMAT)
    (images images1 : List Emitted) (B : Nat)
    (hp : pending_ok blob (s, fmt)) (hsB : s < B) (hB : B ≤ blob.length)
    (h : process_last_image_if_any blob (some (s, fmt)) images B = .ok images1) :
    images1 = images ∨ ∃ e, images1 = images ++ [e] ∧ e.start = s ∧ emitted_from blob B e := by
  simp only [process_last_image_if_any] at h
  rcases hp with ⟨hf, hst⟩ | ⟨hf, hst⟩
  · simp only at hf hst
    subst hf
    simp only at h
    cases hv : xls2img_find_png_end (blob.drop s) (B - s) with
    | error e => simp [hv] at h
    | ok v =>
      simp only [hv] at h
      by_cases hpos : v > 0
      · rw [if_pos hpos] at h
        unfold add_image_to_result at h
        split at h
        · rename_i hle
          simp only [Except.ok.injEq] at h
          right
          refine ⟨_, h.symm, rfl, hsB, hB, ?_, hle, rfl, Or.inl ⟨rfl, hst, ?_⟩⟩
          · show 0 < v.toNat
            omega
          · show xls2img_find_png_end (blob.drop s) (B - s) = .ok ((v.toNat : Nat) : Int)
            rw [hv, Int.toNat_of_nonneg (by omega)]
        · cases h
      · rw [if_neg hpos] at h
        simp only [Except.ok.injEq] at h
        left; exact h.symm
  · simp only at hf hst
    subst hf
    simp only at h
    cases hv : xls2img_find_jpg_end blob B s with
    | error e => simp [hv] at h
    | ok v =>
      simp only [hv] at h
      by_cases hpos : v > 0
      · rw [if_pos hpos] at h
        unfold add_image_to_result at h
        split at h
        · rename_i hle
          simp only [Except.ok.injEq] at h
          right
          refine ⟨_, h.symm, rfl, hsB, hB, ?_, hle, rfl, Or.inr ⟨rfl, hst, ?_⟩⟩
          · show 0 < v.toNat
            omega
          · show xls2img_find_jpg_end blob B s = .ok ((v.toNat : Nat) : Int)
            rw [hv, Int.toNat_of_nonneg (by omega)]
        · cases h
      · rw [if_neg hpos] at h
        simp only [Except.ok.injEq] at h
        left; exact h.symm

/-- The format identified at a position returned by the header search. -/
theorem identify_format_pending (blob : List Byte) (j : Nat) (fmt : XLS2IMG_FORMAT)
    (hs : isImageStart blob j) (h : xls2img_identify_format (blob.drop j) = .ok fmt) :
    pending_ok blob (j, fmt) ∧ (fmt = XLS2IMG_PNG ∨ fmt = XLS2IMG_JPG) := by
  rcases hs with hp | hj
  · rw [identify_format_png blob j hp] at h
    cases h
    exact ⟨Or.inl ⟨rfl, hp⟩, Or.inl rfl⟩
  · rw [identify_format_jpg blob j hj] at h
    cases h
    exact ⟨Or.inr ⟨rfl, hj⟩, Or.inr rfl⟩

/-- Invariant of the scan loop: the emitted images have strictly increasing
starts, each was finalised against a bound below the current position and not
above the pending start, and the pending image sits at an image start below the
current position. -/
theorem scan_loop_invariant (blob : List Byte) :
    ∀ (fuel pos : Nat) (last : Option (Nat × XLS2IMG_FORMAT)) (images : List Emitted)
      (last' : Option (Nat × XLS2IMG_FORMAT)) (images' : List Emitted),
      scan_loop blob fuel pos last images = .ok (last', images') →
      pos ≤ blob.length →
      (∀ p ∈ last, pending_ok blob p ∧ p.1 < pos) →
      images.Pairwise (fun a b => a.start < b.start) →
      (∀ e ∈ images, ∃ B, B ≤ pos ∧ (∀ p ∈ last, B ≤ p.1) ∧ emitted_from blob B e) →
      (∀ p ∈ last', pending_ok blob p ∧ p.1 < blob.length) ∧
      images'.Pairwise (fun a b => a.start < b.start) ∧
      (∀ e ∈ images', ∃ B, B ≤ blob.length ∧ (∀ p ∈ last', B ≤ p.1) ∧
        emitted_from blob B e) := by
  intro fuel
  induction fuel with
  | zero =>
    intro pos last images last' images' h hpos hl hpw hem
    simp only [scan_loop, Except.ok.injEq, Prod.mk.injEq] at h
    obtain ⟨h1, h2⟩ := h
    subst h1 h2
    refine ⟨fun p hp => ⟨(hl p hp).1, by have := (hl p hp).2; omega⟩, hpw, ?_⟩
    intro e he
    obtain ⟨B, hB1, hB2, hB3⟩ := hem e he
    exact ⟨B, by omega, hB2, hB3⟩
  | succ n ih =>
    intro pos last images last' images' h hpos hl hpw hem
    have hexit : (last', images') = (last, images) →
        (∀ p ∈ last', pending_ok blob p ∧ p.1 < blob.length) ∧
        images'.Pairwise (fun a b => a.start < b.start) ∧
        (∀ e ∈ images', ∃ B, B ≤ blob.length ∧ (∀ p ∈ last', B ≤ p.1) ∧
          emitted_from blob B e) := by
      intro heq
      simp only [Prod.mk.injEq] at heq
      obtain ⟨h1, h2⟩ := heq
      subst h1 h2
      refine ⟨fun p hp => ⟨(hl p hp).1, by have := (hl p hp).2; omega⟩, hpw, ?_⟩
      intro e he
      obtain ⟨B, hB1, hB2, hB3⟩ := hem e he
      exact ⟨B, by omega, hB2, hB3⟩
    unfold scan_loop at h
    by_cases hlt : pos < blob.length
    · rw [if_pos hlt] at h
      have hlen : blob.length - pos = (blob.drop pos).length := by simp
      cases hf : xls2img_find_next_header (blob.drop pos) (blob.length - pos) with
      | error e => simp [hf] at h
      | ok r =>
        cases r with
        | none =>
          simp only [hf, Except.ok.injEq] at h
          exact hexit h.symm
        | some i =>
          simp only [hf] at h
          rw [hlen] at hf
          obtain ⟨hsi, _⟩ := xls2img_find_next_header_sound _ _ hf
          rw [isImageStart_drop] at hsi
          have hjlt := isImageStart_lt blob _ hsi
          cases hpl : process_last_image_if_any blob last images (pos + i) with
          | error e => simp [hpl] at h
          | ok images1 =>
            simp only [hpl] at h
            cases hid : xls2img_identify_format (blob.drop (pos + i)) with
            | error e => simp [hid] at h
            | ok fmt =>
              simp only [hid] at h
              obtain ⟨hpend, hknown⟩ := identify_format_pending blob _ fmt hsi hid
              rw [if_pos hknown] at h
              -- the image list after finalising the pending image
              have himg1 : images1.Pairwise (fun a b => a.start < b.start) ∧
                  ∀ e ∈ images1, ∃ B, B ≤ pos + i + 1 ∧ B ≤ pos + i ∧
                    emitted_from blob B e := by
                cases last with
                | none =>
                  simp only [process_last_image_if_any, Except.ok.injEq] at hpl
                  subst hpl
                  refine ⟨hpw, ?_⟩
                  intro e he
                  obtain ⟨B, hB1, _, hB3⟩ := hem e he
                  exact ⟨B, by omega, by omega, hB3⟩
                | some p =>
                  obtain ⟨s, f⟩ := p
                  have hps := hl (s, f) rfl
                  rcases process_last_image_if_any_cases blob s f images images1 (pos + i)
                    hps.1 (by have := hps.2; simp only at this; omega) (by omega) hpl with
                    h1 | ⟨e', h1, h2, h3⟩
                  · subst h1
                    refine ⟨hpw, ?_⟩
                    intro e he
                    obtain ⟨B, hB1, _, hB3⟩ := hem e he
                    exact ⟨B, by omega, by omega, hB3⟩
                  · subst h1
                    constructor
                    · rw [List.pairwise_append]
                      refine ⟨hpw, List.pairwise_singleton _ _, ?_⟩
                      intro a ha b hb
                      simp only [List.mem_singleton] at hb
                      subst hb
                      obtain ⟨B, _, hB2, hB3⟩ := hem a ha
                      have := hB2 (s, f) rfl
                      have := hB3.1
                      simp only at *
                      omega
                    · intro e he
                      rcases List.mem_append.mp he with he | he
                      · obtain ⟨B, hB1, _, hB3⟩ := hem e he
                        exact ⟨B, by omega, by omega, hB3⟩
                      · simp only [List.mem_singleton] at he
                        subst he
                        exact ⟨pos + i, by omega, le_refl _, h3⟩
              refine ih (pos + i + 1) _ images1 last' images' h (by omega) ?_ himg1.1 ?_
              · intro p hp
                simp only [Option.mem_def, Option.some.injEq] at hp
                subst hp
                exact ⟨hpend, by simp⟩
              · intro e he
                obtain ⟨B, hB1, hB2, hB3⟩ := himg1.2 e he
                refine ⟨B, hB1, ?_, hB3⟩
                intro p hp
                simp only [Option.mem_def, Option.some.injEq] at hp
                subst hp
                exact hB2
    · rw [if_neg hlt] at h
      simp only [Except.ok.injEq] at h
      exact hexit h.symm

/-- The images emitted by the scan of a drawing group have strictly increasing
starts, and each was finalised against a bound inside the blob. -/
theorem scan_drawing_group_emitted (blob : List Byte) (found : List Emitted)
    (h : scan_drawing_group blob = .ok found) :
    found.Pairwise (fun a b => a.start < b.start) ∧
    ∀ e ∈ found, ∃ B, B ≤ blob.length ∧ emitted_from blob B e := by
  unfold scan_drawing_group at h
  cases hs : scan_loop blob blob.length 0 none [] with
  | error e => simp [hs] at h
  | ok r =>
    obtain ⟨last, images⟩ := r
    simp only [hs] at h
    obtain ⟨h1, h2, h3⟩ := scan_loop_invariant blob _ _ _ _ _ _ hs (Nat.zero_le _)
      (fun p hp => by cases hp) List.Pairwise.nil (fun e he => by cases he)
    cases last with
    | none =>
      simp only [process_last_image_if_any, Except.ok.injEq] at h
      subst h
      refine ⟨h2, ?_⟩
      intro e he
      obtain ⟨B, hB1, _, hB3⟩ := h3 e he
      exact ⟨B, hB1, hB3⟩
    | some p =>
      obtain ⟨s, f⟩ := p
      have hps := h1 (s, f) rfl
      rcases process_last_image_if_any_cases blob s f images found blob.length hps.1 hps.2
        (le_refl _) h with hh | ⟨e', hh1, hh2, hh3⟩
      · subst hh
        refine ⟨h2, ?_⟩
        intro e he
        obtain ⟨B, hB1, _, hB3⟩ := h3 e he
        exact ⟨B, hB1, hB3⟩
      · subst hh1
        constructor
        · rw [List.pairwise_append]
          refine ⟨h2, List.pairwise_singleton _ _, ?_⟩
          intro a ha b hb
          simp only [List.mem_singleton] at hb
          subst hb
          obtain ⟨B, _, hB2, hB3⟩ := h3 a ha
          have := hB2 (s, f) rfl
          have := hB3.1
          simp only at *
          omega
        · intro e he
          rcases List.mem_append.mp he with he | he
          · obtain ⟨B, hB1, _, hB3⟩ := h3 e he
            exact ⟨B, hB1, hB3⟩
          · simp only [List.mem_singleton] at he
            subst he
            exact ⟨blob.length, le_refl _, hh3⟩

/-- C9: the images emitted from a drawing-group blob are appended to the result
list in strictly increasing (hence non-decreasing) order of their start offset
within the blob. -/
theorem c9_emitted_in_offset_order (blob : List Byte) (found : List Emitted)
    (h : scan_drawing_group blob = .ok found) :
    found.Pairwise (fun a b => a.start < b.start) ∧
    (∀ (st : WalkState), st.mso_collector.data = blob → blob ≠ [] →
      flush_collector st =
        .ok ⟨false, buffer_collector_init, st.images ++ found.map Emitted.image⟩) := by
  refine ⟨(scan_drawing_group_emitted blob found h).1, ?_⟩
  intro st hd hne
  exact flush_collector_scan st found (by rw [hd]; exact hne) (by rw [hd]; exact h)

/-- C9 on the blob `c8_blob`: the JPEG at offset 4 is emitted before the PNG at
offset 18. -/
theorem c9_emitted_in_offset_order_witness :
    scan_drawing_group c8_blob = .ok c8_found ∧
      c8_found.Pairwise (fun a b => a.start < b.start) :=
  ⟨by decide, (c9_emitted_in_offset_order c8_blob c8_found (by decide)).1⟩

theorem pfx_iff_take (pat l : List Byte) : pat <+: l ↔ l.take pat.length = pat := by
  rw [List.prefix_iff_eq_take]
  exact eq_comm

/-- C8: every image emitted from a drawing-group blob with format JPEG was copied
from an offset `P` of the blob at which the blob holds `FF D8`, followed either by
`FF E0` with `JFIF` at `P + 6` or by `FF E1` with `Exif` at `P + 6`; so an `FF D8`
pair without such a follow-up never starts an emitted JPEG. -/
theorem c8_no_false_positive_jpeg (blob : List Byte) (found : List Emitted)
    (h : scan_drawing_group blob = .ok found) :
    ∀ e ∈ found, e.image.format = XLS2IMG_JPG →
      e.image.data = (blob.drop e.start).take e.image.size ∧
      (blob.drop e.start).take 2 = [0xFF, 0xD8] ∧
      (((blob.drop (e.start + 2)).take 2 = [0xFF, 0xE0] ∧
          (blob.drop (e.start + 6)).take 4 = jfifId) ∨
        ((blob.drop (e.start + 2)).take 2 = [0xFF, 0xE1] ∧
          (blob.drop (e.start + 6)).take 4 = exifId)) := by
  intro e he hf
  obtain ⟨B, _, hB⟩ := (scan_drawing_group_emitted blob found h).2 e he
  obtain ⟨_, _, _, _, hdata, hfmt⟩ := hB
  rcases hfmt with ⟨hp, _, _⟩ | ⟨_, hj, _⟩
  · rw [hf] at hp; cases hp
  · refine ⟨hdata, ?_, ?_⟩
    · have h2 : [0xFF, 0xD8] <+: blob.drop e.start := by
        rcases hj with ⟨h, _⟩ | ⟨h, _⟩
        · exact List.IsPrefix.trans (by decide) h
        · exact List.IsPrefix.trans (by decide) h
      exact (pfx_iff_take _ _).mp h2
    · rcases hj with ⟨h1, h2⟩ | ⟨h1, h2⟩
      · left
        refine ⟨?_, (pfx_iff_take _ _).mp h2⟩
        simp only [pfx_drop_cons] at h1
        have hx : [0xFF, 0xE0] <+: blob.drop (e.start + 2) := by
          simp only [pfx_drop_cons, List.nil_prefix, and_true]
          exact ⟨h1.2.2.1, h1.2.2.2.1⟩
        exact (pfx_iff_take _ _).mp hx
      · right
        refine ⟨?_, (pfx_iff_take _ _).mp h2⟩
        simp only [pfx_drop_cons] at h1
        have hx : [0xFF, 0xE1] <+: blob.drop (e.start + 2) := by
          simp only [pfx_drop_cons, List.nil_prefix, and_true]
          exact ⟨h1.2.2.1, h1.2.2.2.1⟩
        exact (pfx_iff_take _ _).mp hx

/-- C8 on the blob `c8_blob`: the bare `FF D8` pair at offset 0 starts no image,
the only JPEG emitted starts at the Exif header at offset 4. -/
theorem c8_no_false_positive_jpeg_witness :
    scan_drawing_group c8_blob = .ok c8_found ∧
      ((c8_blob.drop 4).take 2 = [0xFF, 0xD8] ∧
        (((c8_blob.drop (4 + 2)).take 2 = [0xFF, 0xE0] ∧
            (c8_blob.drop (4 + 6)).take 4 = jfifId) ∨
          ((c8_blob.drop (4 + 2)).take 2 = [0xFF, 0xE1] ∧
            (c8_blob.drop (4 + 6)).take 4 = exifId))) :=
  ⟨by decide,
    (c8_no_false_positive_jpeg c8_blob c8_found (by decide) ⟨4, ⟨XLS2IMG_JPG, 14, c4_jpeg⟩⟩
      (by decide) rfl).2⟩

/-- A property of images that holds for every image emitted by a scan of a blob
of at most `L` bytes is kept by the record walk, as long as the bytes collected
and the bytes still to walk are at most `L` together. -/
theorem record_loop_images_all (Q : XLS2IMG_IMAGE → Prop) (L : Nat)
    (hscan : ∀ blob found, blob.length ≤ L → scan_drawing_group blob = .ok found →
      ∀ e ∈ found, Q e.image) :
    ∀ (fuel : Nat) (rest : List Byte) (st st' : WalkState),
      record_loop fuel rest st = .ok st' →
      st.mso_collector.data.length + rest.length ≤ L →
      (∀ i ∈ st.images, Q i) → ∀ i ∈ st'.images, Q i := by
  intro fuel
  induction fuel with
  | zero =>
    intro rest st st' h _ hq
    simp only [record_loop, Except.ok.injEq] at h
    subst h; exact hq
  | succ n ih =>
    intro rest st st' h hL hq
    match rest with
    | [] => simp only [record_loop, Except.ok.injEq] at h; subst h; exact hq
    | [_] => simp only [record_loop, Except.ok.injEq] at h; subst h; exact hq
    | [_, _] => simp only [record_loop, Except.ok.injEq] at h; subst h; exact hq
    | [_, _, _] => simp only [record_loop, Except.ok.injEq] at h; subst h; exact hq
    | b0 :: b1 :: b2 :: b3 :: body =>
      simp only [List.length_cons] at hL
      simp only [record_loop] at h
      split at h
      · cases h
      · rename_i st1 hst1
        have hq1 : (∀ i ∈ st1.images, Q i) ∧
            (b3.val * 256 + b2.val ≤ body.length →
              st1.mso_collector.data.length + (body.drop (b3.val * 256 + b2.val)).length ≤
                L) := by
          split at hst1
          · split at hst1
            · cases hst1
              refine ⟨hq, fun hle => ?_⟩
              simp only [List.length_take, List.length_drop]
              omega
            · cases hst1
          · split at hst1
            · split at hst1
              · cases hst1
                refine ⟨hq, fun hle => ?_⟩
                simp only [buffer_collector_append_data, List.length_append, List.length_take,
                  List.length_drop]
                omega
              · cases hst1
            · split at hst1
              · unfold flush_collector at hst1
                split at hst1
                · split at hst1
                  · cases hst1
                  · rename_i found hfound
                    cases hst1
                    refine ⟨?_, fun hle => ?_⟩
                    · intro i hi
                      rcases List.mem_append.mp hi with hi | hi
                      · exact hq i hi
                      · obtain ⟨e, he, rfl⟩ := List.mem_map.mp hi
                        exact hscan _ found (by omega) hfound e he
                    · simp only [buffer_collector_init, List.length_nil, List.length_drop]
                      omega
                · cases hst1
                  refine ⟨hq, fun hle => ?_⟩
                  simp only [buffer_collector_init, List.length_nil, List.length_drop]
                  omega
              · cases hst1
                refine ⟨hq, fun hle => ?_⟩
                simp only [List.length_drop]
                omega
        split at h
        · cases h; exact hq1.1
        · exact ih _ _ _ h (hq1.2 (by omega)) hq1.1

/-- A property of images that holds for every image emitted by a scan of a blob
no longer than the workbook holds for every image of the result of
`xls2img_extract_images` on a non-empty workbook. -/
theorem xls2img_extract_images_all (Q : XLS2IMG_IMAGE → Prop)
    (wb : List Byte)
    (hscan : ∀ blob found, blob.length ≤ wb.length → scan_drawing_group blob = .ok found →
      ∀ e ∈ found, Q e.image)
    (res0 : XLS2IMG_RESULT) (ret : Int) (res : XLS2IMG_RESULT)
    (hne : wb ≠ []) (h : xls2img_extract_images wb res0 = .ok (ret, res)) :
    ∀ img ∈ res.images, Q img := by
  unfold xls2img_extract_images at h
  have hl : wb.length ≠ 0 := fun hc => hne (List.length_eq_zero.mp hc)
  rw [if_neg hl] at h
  cases hr : record_loop wb.length wb ⟨false, buffer_collector_init, []⟩ with
  | error e => simp [hr] at h
  | ok st =>
    simp only [hr] at h
    have hall := record_loop_images_all Q wb.length hscan _ _ _ _ hr
      (by simp [buffer_collector_init]) (fun i hi => by cases hi)
    split at h
    · cases h; exact hall
    · cases h; intro img himg; cases himg

/-- A JPEG emitted from a blob shorter than `2^31` bytes has at least four bytes,
starts with `FF D8` and ends with `FF D9`. -/
theorem emitted_jpeg_bytes (blob : List Byte) (B : Nat) (e : Emitted)
    (h : emitted_from blob B e) (hf : e.image.format = XLS2IMG_JPG)
    (hsmall : blob.length < 2 ^ 31) :
    4 ≤ e.image.size ∧ e.image.data.length = e.image.size ∧
    e.image.data.take 2 = [0xFF, 0xD8] ∧
    e.image.data.drop (e.image.size - 2) = [0xFF, 0xD9] := by
  obtain ⟨hsB, hB, hpos, hle, hdata, hfmt⟩ := h
  rcases hfmt with ⟨hp, _, _⟩ | ⟨_, hj, hend⟩
  · rw [hf] at hp; cases hp
  · have hsoi : blob[e.start]? = some 0xFF ∧ blob[e.start + 1]? = some 0xD8 := by
      rcases hj with ⟨h, _⟩ | ⟨h, _⟩
      · simp only [pfx_drop_cons] at h; exact ⟨h.1, h.2.1⟩
      · simp only [pfx_drop_cons] at h; exact ⟨h.1, h.2.1⟩
    unfold xls2img_find_jpg_end at hend
    cases hl : find_jpg_end_loop blob e.start (B - 1 - e.start) with
    | error er => rw [hl] at hend; cases hend
    | ok d =>
      rw [hl] at hend
      simp only [Except.ok.injEq] at hend
      rcases find_jpg_end_loop_sound blob e.start _ _ hl with hneg | ⟨q, hq1, hq2, hq3, hq4, _⟩
      · subst hneg
        rw [int_cast_neg_one] at hend
        omega
      · rw [hq4, int_cast_natCast _ (by omega)] at hend
        have heoi : blob[q]? = some 0xFF ∧ blob[q + 1]? = some 0xD9 := by
          simp only [pfx_drop_cons] at hq3; exact ⟨hq3.1, hq3.2.1⟩
        have hq5 : e.image.size = q + 2 - e.start := by omega
        have hne0 : q ≠ e.start := by
          intro hc; subst hc
          have := hsoi.2.symm.trans heoi.2
          simp at this
        have hne1 : q ≠ e.start + 1 := by
          intro hc; subst hc
          have := hsoi.2.symm.trans heoi.1
          simp at this
        have hlen : e.image.data.length = e.image.size := by
          rw [hdata, List.length_take, List.length_drop]; omega
        refine ⟨by omega, hlen, ?_, ?_⟩
        · rw [hdata, List.take_take, Nat.min_eq_left (by omega)]
          have hx : [0xFF, 0xD8] <+: blob.drop e.start := by
            simp only [pfx_drop_cons, List.nil_prefix, and_true]
            exact hsoi
          exact (pfx_iff_take _ _).mp hx
        · rw [hdata, List.drop_take, List.drop_drop]
          have e1 : e.image.size - (e.image.size - 2) = 2 := by omega
          have e2 : e.start + (e.image.size - 2) = q := by omega
          rw [e1, e2]
          exact (pfx_iff_take _ _).mp hq3

/-- On a non-empty workbook shorter than `2^31` bytes, every image with format
JPEG in the result of `xls2img_extract_images` has size at least 4 (`data` holding
exactly `size` bytes), its first two bytes are `FF D8` and its last two bytes are
`FF D9`. -/
theorem emitted_jpeg_delimited (wb : List Byte) (res0 : XLS2IMG_RESULT) (ret : Int)
    (res : XLS2IMG_RESULT) (hne : wb ≠ []) (hsmall : wb.length < 2 ^ 31)
    (h : xls2img_extract_images wb res0 = .ok (ret, res)) :
    ∀ img ∈ res.images, img.format = XLS2IMG_JPG →
      4 ≤ img.size ∧ img.data.length = img.size ∧
      img.data.take 2 = [0xFF, 0xD8] ∧ img.data.drop (img.size - 2) = [0xFF, 0xD9] := by
  apply xls2img_extract_images_all
    (fun img => img.format = XLS2IMG_JPG →
      4 ≤ img.size ∧ img.data.length = img.size ∧
      img.data.take 2 = [0xFF, 0xD8] ∧ img.data.drop (img.size - 2) = [0xFF, 0xD9])
    wb ?_ res0 ret res hne h
  intro blob found hlen hfound e he hf
  obtain ⟨B, _, hB⟩ := (scan_drawing_group_emitted blob found hfound).2 e he
  exact emitted_jpeg_bytes blob B e hB hf (by omega)

/-- The workbook `c8_workbook`: the JPEG of its result has 14 bytes, from `FF D8`
to `FF D9`. -/
theorem emitted_jpeg_delimited_example :
    c8_workbook ≠ [] ∧
    xls2img_extract_images c8_workbook ⟨[], 0⟩ =
      .ok (2, ⟨c8_found.map Emitted.image, 2⟩) ∧
    (4 ≤ 14 ∧ c4_jpeg.length = 14 ∧ c4_jpeg.take 2 = [0xFF, 0xD8] ∧
      c4_jpeg.drop (14 - 2) = [0xFF, 0xD9]) :=
  ⟨by decide, by decide,
    emitted_jpeg_delimited c8_workbook ⟨[], 0⟩ 2 ⟨c8_found.map Emitted.image, 2⟩
      (by decide) (by decide) (by decide) ⟨XLS2IMG_JPG, 14, c4_jpeg⟩ (by decide) rfl⟩

/-- An image start holds `89 50` or `FF D8` in its first two bytes. -/
theorem isImageStart_heads (blob : List Byte) (i : Nat) (h : isImageStart blob i) :
    (blob[i]? = some 0x89 ∧ blob[i + 1]? = some 0x50) ∨
    (blob[i]? = some 0xFF ∧ blob[i + 1]? = some 0xD8) := by
  rcases h with h | h | h
  · left
    unfold isPngStart at h
    simp only [pngSignature, pfx_drop_cons] at h
    exact ⟨h.1, h.2.1⟩
  · right
    have h1 := h.1
    simp only [pfx_drop_cons] at h1
    exact ⟨h1.1, h1.2.1⟩
  · right
    have h1 := h.1
    simp only [pfx_drop_cons] at h1
    exact ⟨h1.1, h1.2.1⟩

/-- The bytes of `n` zeros followed by `FF D9`. -/
theorem zero_tail_getElem? (n k : Nat) (b : Byte)
    (h : (List.replicate n (0 : Byte) ++ [0xFF, 0xD9])[k]? = some b) :
    (k < n ∧ b = 0) ∨ (k = n ∧ b = 0xFF) ∨ (k = n + 1 ∧ b = 0xD9) := by
  by_cases hk : k < n
  · rw [List.getElem?_append_left (by simpa using hk), List.getElem?_replicate] at h
    simp only [hk, if_true, Option.some.injEq] at h
    exact Or.inl ⟨hk, h.symm⟩
  · rw [List.getElem?_append_right (by simpa using hk)] at h
    simp only [List.length_replicate] at h
    obtain ⟨j, rfl⟩ : ∃ j, k = n + j := ⟨k - n, by omega⟩
    simp only [Nat.add_sub_cancel_left] at h
    match j, h with
    | 0, h =>
      simp only [List.getElem?_cons_zero, Option.some.injEq] at h
      exact Or.inr (Or.inl ⟨rfl, h.symm⟩)
    | 1, h =>
      simp only [List.getElem?_cons_succ, List.getElem?_cons_zero, Option.some.injEq] at h
      exact Or.inr (Or.inr ⟨rfl, h.symm⟩)
    | j + 2, h => simp at h

/-- The bytes of `zero_body_jpeg n`: ten header bytes, `n` zeros, `FF D9`. -/
theorem zero_body_jpeg_eq (n : Nat) :
    zero_body_jpeg n =
      [0xFF, 0xD8, 0xFF, 0xE0, 0x00, 0x10, 0x4A, 0x46, 0x49, 0x46] ++
        (List.replicate n 0 ++ [0xFF, 0xD9]) := by
  simp [zero_body_jpeg, jpeg_file, jpeg_header, jfifId]

theorem zero_body_jpeg_getElem? (n j : Nat) :
    (zero_body_jpeg n)[10 + j]? = (List.replicate n (0 : Byte) ++ [0xFF, 0xD9])[j]? := by
  rw [zero_body_jpeg_eq, List.getElem?_append_right (by simp)]
  simp

theorem zero_body_jpeg_length (n : Nat) : (zero_body_jpeg n).length = n + 12 := by
  unfold zero_body_jpeg
  rw [jpeg_file_length, List.length_replicate]
  omega

/-- Offset 0 is the only image start of `zero_body_jpeg n`. -/
theorem zero_body_jpeg_one_start (n : Nat) :
    ∀ i, i ≠ 0 → ¬ isImageStart (zero_body_jpeg n) i := by
  intro i hi hs
  have hh := isImageStart_heads _ _ hs
  by_cases h10 : i < 10
  · rw [zero_body_jpeg_eq] at hh
    interval_cases i
    · exact hi rfl
    all_goals simp at hh
  · obtain ⟨k, rfl⟩ : ∃ k, i = 10 + k := ⟨i - 10, by omega⟩
    rw [zero_body_jpeg_getElem?, show 10 + k + 1 = 10 + (k + 1) by omega,
      zero_body_jpeg_getElem?] at hh
    rcases hh with ⟨a, _⟩ | ⟨a, b⟩
    · rcases zero_tail_getElem? n k _ a with ⟨_, h⟩ | ⟨_, h⟩ | ⟨_, h⟩ <;>
        exact absurd h (by decide)
    · rcases zero_tail_getElem? n k _ a with ⟨_, h⟩ | ⟨hk, _⟩ | ⟨_, h⟩
      · exact absurd h (by decide)
      · rcases zero_tail_getElem? n (k + 1) _ b with ⟨hlt, _⟩ | ⟨hk2, _⟩ | ⟨_, h⟩
        · omega
        · omega
        · exact absurd h (by decide)
      · exact absurd h (by decide)

/-- The pair `FF D9` ends `zero_body_jpeg n`. -/
theorem zero_body_jpeg_eoi (n : Nat) : hasEoiAt (zero_body_jpeg n) (n + 10) := by
  unfold hasEoiAt
  rw [pfx_drop_cons, pfx_drop_cons, show n + 10 = 10 + n by omega,
    show 10 + n + 1 = 10 + (n + 1) by omega, zero_body_jpeg_getElem?, zero_body_jpeg_getElem?]
  refine ⟨?_, ?_, List.nil_prefix⟩
  · rw [List.getElem?_append_right (by simp)]
    simp
  · rw [List.getElem?_append_right (by simp)]
    simp

/-- No pair `FF D9` of `zero_body_jpeg n` lies after its last two bytes. -/
theorem zero_body_jpeg_last_eoi (n : Nat) :
    ∀ j, n + 10 < j → ¬ hasEoiAt (zero_body_jpeg n) j := by
  intro j hj hc
  unfold hasEoiAt at hc
  rw [pfx_drop_cons] at hc
  obtain ⟨k, rfl⟩ : ∃ k, j = 10 + k := ⟨j - 10, by omega⟩
  rw [zero_body_jpeg_getElem?] at hc
  rcases zero_tail_getElem? n k _ hc.1 with ⟨h, _⟩ | ⟨h, _⟩ | ⟨_, h⟩
  · omega
  · omega
  · exact absurd h (by decide)

/-- The scan of `zero_body_jpeg n`: with `v = (int)(n + 12)`, the first `v` bytes
are emitted as a JPEG when `v` is positive, and nothing otherwise. -/
theorem scan_zero_body_jpeg (n : Nat) :
    scan_drawing_group (zero_body_jpeg n) =
      if int_cast ((n + 12 : Nat) : Int) > 0 then
        .ok [⟨0, ⟨XLS2IMG_JPG, (int_cast ((n + 12 : Nat) : Int)).toNat,
          (zero_body_jpeg n).take (int_cast ((n + 12 : Nat) : Int)).toNat⟩⟩]
      else .ok [] := by
  have h := scan_single_jpeg_cast [] false 0x00 0x10 (List.replicate n 0)
    (by rw [List.append_nil]; exact zero_body_jpeg_one_start n)
    (no_eoi_of_bounded _ (fun q hq => by simp at hq))
  rw [List.append_nil, jpeg_file_length, List.length_replicate,
    show 12 + n = n + 12 by omega] at h
  exact h

theorem zero_body_jpeg_take (n : Nat) :
    (zero_body_jpeg (n + 1)).take 11 = jpeg_header false 0x00 0x10 ++ [0x00] := by
  rw [zero_body_jpeg_eq, List.replicate_succ]
  rfl

theorem flatten_replicate_replicate (a : Byte) (m : Nat) :
    ∀ n, (List.replicate n (List.replicate m a)).flatten = List.replicate (n * m) a := by
  intro n
  induction n with
  | zero => simp
  | succ k ih =>
    rw [List.replicate_succ, List.flatten_cons, ih, List.append_replicate_replicate]
    congr 1
    rw [Nat.succ_mul]
    omega

/-- C7 (code defect): the drawing group of `c7_workbook` is a JFIF JPEG of
`2^32 + 11` bytes whose only `FF D9` pair is its last two bytes, carried in an
`MsoDrawingGroup` record and 65538 `Continue` records.  The back-scan finds the
pair and computes the length `2^32 + 11`, which the conversion to `int` turns
into 11; `xls2img_extract_images` returns 1 with an image of format JPEG and size
11, the ten header bytes and one zero byte, whose last two bytes are `46 00` and
not `FF D9`. -/
theorem c7_wide_jpeg_is_emitted_cut :
    c7_head ++ c7_payloads.flatten = zero_body_jpeg (2 ^ 32 - 1) ∧
    (zero_body_jpeg (2 ^ 32 - 1)).length = 2 ^ 32 + 11 ∧
    isJpegStart (zero_body_jpeg (2 ^ 32 - 1)) 0 ∧
    hasEoiAt (zero_body_jpeg (2 ^ 32 - 1)) (2 ^ 32 + 9) ∧
    xls2img_find_jpg_end (zero_body_jpeg (2 ^ 32 - 1)) (2 ^ 32 + 11) 0 = .ok 11 ∧
    xls2img_extract_images c7_workbook ⟨[], 0⟩ =
      .ok (1, ⟨[⟨XLS2IMG_JPG, 11, jpeg_header false 0x00 0x10 ++ [0x00]⟩], 1⟩) ∧
    (jpeg_header false 0x00 0x10 ++ [0x00]).drop (11 - 2) = [0x46, 0x00] := by
  have e1 : (65537 * 65535 : Nat) = 2 ^ 32 - 1 := by norm_num
  have e2 : (2 ^ 32 - 1 : Nat) = (2 ^ 32 - 2) + 1 := by norm_num
  have hlen : (zero_body_jpeg (2 ^ 32 - 1)).length = 2 ^ 32 + 11 := by
    rw [zero_body_jpeg_length]
    norm_num
  have hcat : c7_head ++ c7_payloads.flatten = zero_body_jpeg (2 ^ 32 - 1) := by
    unfold c7_head c7_payloads zero_body_jpeg jpeg_file
    rw [List.flatten_append, flatten_replicate_replicate, e1]
    simp only [List.flatten_cons, List.flatten_nil, List.append_nil, List.append_assoc]
  have hc : int_cast ((2 ^ 32 - 1 + 12 : Nat) : Int) = 11 := by decide
  have hscan : scan_drawing_group (c7_head ++ c7_payloads.flatten) =
      .ok [⟨0, ⟨XLS2IMG_JPG, 11, jpeg_header false 0x00 0x10 ++ [0x00]⟩⟩] := by
    rw [hcat, scan_zero_body_jpeg, hc, if_pos (by decide)]
    have ht : (11 : Int).toNat = 11 := rfl
    rw [ht, e2, zero_body_jpeg_take]
  have hend : xls2img_find_jpg_end (zero_body_jpeg (2 ^ 32 - 1)) (2 ^ 32 + 11) 0 = .ok 11 := by
    have h := xls2img_find_jpg_end_jpeg_file [] [] false 0x00 0x10
      (List.replicate (2 ^ 32 - 1) 0) (no_eoi_of_bounded _ (fun q hq => by simp at hq))
    simp only [List.nil_append, List.append_nil, List.length_nil] at h
    rw [jpeg_file_length, List.length_replicate] at h
    have hc2 : int_cast ((12 + (2 ^ 32 - 1) : Nat) : Int) = 11 := by decide
    rw [hc2] at h
    exact h
  refine ⟨hcat, hlen, ?_, ?_, hend, ?_, by decide⟩
  · have h := jpeg_file_isJpegStart [] [] false 0x00 0x10 (List.replicate (2 ^ 32 - 1) 0)
    simp only [List.nil_append, List.append_nil, List.length_nil] at h
    exact h
  · exact zero_body_jpeg_eoi (2 ^ 32 - 1)
  · have h := extract_single_chain [] [] eof_record c7_head c7_payloads _ ⟨[], 0⟩
      (fun r hr => by cases hr) (fun r hr => by cases hr) (by decide) (by decide)
      (by
        intro p hp
        unfold c7_payloads at hp
        rcases List.mem_append.mp hp with h | h
        · rw [List.eq_of_mem_replicate h, List.length_replicate]
          decide
        · rw [List.mem_singleton.mp h]
          decide)
      (by
        intro hc0
        have := congrArg List.length hc0
        rw [hcat, hlen] at this
        exact absurd this (by decide))
      hscan
    simp only [List.nil_append] at h
    unfold c7_workbook
    rw [h]
    rfl

theorem getElem?_take_of_lt (l : List Byte) (V k : Nat) (h : k < V) :
    (l.take V)[k]? = l[k]? := by
  rw [List.getElem?_take]
  simp [h]

theorem iend_pfx_take (l : List Byte) (V p : Nat) (hV : p + 12 ≤ V) :
    iendType <+: (l.take V).drop (p + 4) ↔ iendType <+: l.drop (p + 4) := by
  rw [List.drop_take, List.prefix_take_iff]
  constructor
  · intro h; exact h.1
  · intro h
    refine ⟨h, ?_⟩
    simp only [iendType, List.length_cons, List.length_nil]
    omega

/-- A positive value returned by the chunk walk of `xls2img_find_png_end` is where
the walk over the chunk framing of the first `V` bytes ends at an `IEND` chunk,
unless that walk meets a chunk with an oversize length field. -/
theorem find_png_end_loop_walk (data : List Byte) (size : Nat) :
    ∀ (fuel p V : Nat), find_png_end_loop data size fuel p = .ok ((V : Nat) : Int) →
      p + 12 ≤ V ∧ ∀ wfuel, V < wfuel + p →
        (png_framing_walk (data.take V) wfuel p = .iend V ∨
          png_framing_walk (data.take V) wfuel p = .oversize) := by
  intro fuel
  induction fuel with
  | zero =>
    intro p V h
    simp [find_png_end_loop] at h
  | succ n ih =>
    intro p V h
    unfold find_png_end_loop at h
    by_cases hps : p < size
    · rw [if_pos hps] at h
      by_cases h8 : size - p < 8
      · rw [if_pos h8] at h
        simp only [Except.ok.injEq] at h
        omega
      · rw [if_neg h8] at h
        cases h0 : rd data p with
        | error e => simp [h0] at h
        | ok b0 =>
          cases h1 : rd data (p + 1) with
          | error e => simp [h0, h1] at h
          | ok b1 =>
            cases h2 : rd data (p + 2) with
            | error e => simp [h0, h1, h2] at h
            | ok b2 =>
              cases h3 : rd data (p + 3) with
              | error e => simp [h0, h1, h2, h3] at h
              | ok b3 =>
                simp only [h0, h1, h2, h3] at h
                have g0 := rd_ok_iff.mp h0
                have g1 := rd_ok_iff.mp h1
                have g2 := rd_ok_iff.mp h2
                have g3 := rd_ok_iff.mp h3
                cases hm : bytes_match data (p + 4) iendType with
                | error e => simp [hm] at h
                | ok b =>
                  have hiff := bytes_match_ok_iff _ _ _ _ hm
                  cases b with
                  | true =>
                    simp only [hm, Except.ok.injEq] at h
                    have hV : V = p + 12 := by omega
                    subst hV
                    refine ⟨le_refl _, ?_⟩
                    intro wfuel hw
                    obtain ⟨w, rfl⟩ : ∃ w, wfuel = w + 1 := ⟨wfuel - 1, by omega⟩
                    left
                    unfold png_framing_walk
                    rw [getElem?_take_of_lt _ _ _ (by omega), getElem?_take_of_lt _ _ _ (by omega),
                      getElem?_take_of_lt _ _ _ (by omega), getElem?_take_of_lt _ _ _ (by omega),
                      g0, g1, g2, g3]
                    simp only
                    rw [if_pos ((iend_pfx_take data _ p (le_refl _)).mpr (hiff.mp rfl))]
                  | false =>
                    simp only [hm] at h
                    have hni : ¬ iendType <+: data.drop (p + 4) := by
                      intro hc; have := hiff.mpr hc; cases this
                    by_cases hz : (12 + be32 b0 b1 b2 b3) % 2 ^ 32 = 0
                    · rw [if_pos hz] at h; cases h
                    · rw [if_neg hz] at h
                      by_cases hover : p + (12 + be32 b0 b1 b2 b3) % 2 ^ 32 > size
                      · rw [if_pos hover] at h
                        simp only [Except.ok.injEq] at h
                        omega
                      · rw [if_neg hover] at h
                        obtain ⟨hle, hwalk⟩ := ih _ V h
                        refine ⟨by omega, ?_⟩
                        intro wfuel hw
                        obtain ⟨w, rfl⟩ : ∃ w, wfuel = w + 1 := ⟨wfuel - 1, by omega⟩
                        unfold png_framing_walk
                        rw [getElem?_take_of_lt _ _ _ (by omega),
                          getElem?_take_of_lt _ _ _ (by omega),
                          getElem?_take_of_lt _ _ _ (by omega),
                          getElem?_take_of_lt _ _ _ (by omega), g0, g1, g2, g3]
                        simp only
                        rw [if_neg (fun hc => hni ((iend_pfx_take data V p (by omega)).mp hc))]
                        by_cases hbig : 2 ^ 32 ≤ 12 + be32 b0 b1 b2 b3
                        · rw [if_pos hbig]; right; rfl
                        · rw [if_neg hbig]
                          have hstep : (12 + be32 b0 b1 b2 b3) % 2 ^ 32 = 12 + be32 b0 b1 b2 b3 :=
                            Nat.mod_eq_of_lt (by omega)
                          rw [hstep, ← Nat.add_assoc] at hwalk
                          exact hwalk w (by omega)
    · rw [if_neg hps] at h
      simp only [Except.ok.injEq] at h
      omega

/-- A value returned by the chunk walk of `xls2img_find_png_end` is `-1`, or lies
between 0 and `size + 4`. -/
theorem find_png_end_loop_bound (data : List Byte) (size : Nat) :
    ∀ (fuel p : Nat) (d : Int), find_png_end_loop data size fuel p = .ok d →
      d = -1 ∨ (0 ≤ d ∧ d ≤ (size : Int) + 4) := by
  intro fuel
  induction fuel with
  | zero =>
    intro p d h
    simp [find_png_end_loop] at h
  | succ n ih =>
    intro p d h
    unfold find_png_end_loop at h
    by_cases hps : p < size
    · rw [if_pos hps] at h
      by_cases h8 : size - p < 8
      · rw [if_pos h8] at h
        simp only [Except.ok.injEq] at h
        left; exact h.symm
      · rw [if_neg h8] at h
        cases h0 : rd data p with
        | error e => simp [h0] at h
        | ok b0 =>
          cases h1 : rd data (p + 1) with
          | error e => simp [h0, h1] at h
          | ok b1 =>
            cases h2 : rd data (p + 2) with
            | error e => simp [h0, h1, h2] at h
            | ok b2 =>
              cases h3 : rd data (p + 3) with
              | error e => simp [h0, h1, h2, h3] at h
              | ok b3 =>
                simp only [h0, h1, h2, h3] at h
                cases hm : bytes_match data (p + 4) iendType with
                | error e => simp [hm] at h
                | ok b =>
                  cases b with
                  | true =>
                    simp only [hm, Except.ok.injEq] at h
                    right; omega
                  | false =>
                    simp only [hm] at h
                    by_cases hz : (12 + be32 b0 b1 b2 b3) % 2 ^ 32 = 0
                    · rw [if_pos hz] at h; cases h
                    · rw [if_neg hz] at h
                      by_cases hover : p + (12 + be32 b0 b1 b2 b3) % 2 ^ 32 > size
                      · rw [if_pos hover] at h
                        simp only [Except.ok.injEq] at h
                        left; exact h.symm
                      · rw [if_neg hover] at h
                        exact ih _ d h
    · rw [if_neg hps] at h
      simp only [Except.ok.injEq] at h
      left; exact h.symm

/-- A PNG emitted from a blob shorter than `2^31` bytes holds `size` bytes, starts
with the PNG signature, and ends 12 bytes after the start of the `IEND` chunk
reached by the walk over its chunk framing, unless that walk meets a chunk with an
oversize length field. -/
theorem emitted_png_bytes (blob : List Byte) (B : Nat) (e : Emitted)
    (h : emitted_from blob B e) (hf : e.image.format = XLS2IMG_PNG)
    (hsmall : blob.length < 2 ^ 31) :
    e.image.data.length = e.image.size ∧ e.image.data.take 8 = pngSignature ∧
    (png_framing_walk e.image.data e.image.size 8 = .iend e.image.size ∨
      png_framing_walk e.image.data e.image.size 8 = .oversize) := by
  obtain ⟨hsB, hB, hpos, hle, hdata, hfmt⟩ := h
  rcases hfmt with ⟨_, hp, hend⟩ | ⟨hj, _, _⟩
  · have hlen : e.image.data.length = e.image.size := by
      rw [hdata, List.length_take, List.length_drop]; omega
    unfold xls2img_find_png_end at hend
    by_cases h8 : B - e.start < 8
    · rw [if_pos h8] at hend
      simp only [Except.ok.injEq] at hend; omega
    · rw [if_neg h8] at hend
      cases hm : bytes_match (blob.drop e.start) 0 [0x89, 0x50, 0x4E, 0x47] with
      | error er => rw [hm] at hend; cases hend
      | ok b =>
        rw [hm] at hend
        cases b with
        | false => simp only [Except.ok.injEq] at hend; omega
        | true =>
          simp only at hend
          cases hl : find_png_end_loop (blob.drop e.start) (B - e.start) (B - e.start) 8 with
          | error er => rw [hl] at hend; cases hend
          | ok d =>
            rw [hl] at hend
            simp only [Except.ok.injEq] at hend
            have hd : d = (e.image.size : Int) := by
              rcases find_png_end_loop_bound _ _ _ _ _ hl with h1 | ⟨h0, h1⟩
              · subst h1
                rw [int_cast_neg_one] at hend
                omega
              · unfold int_cast at hend
                omega
            rw [hd] at hl
            obtain ⟨h12, hwalk⟩ := find_png_end_loop_walk _ _ _ _ _ hl
            refine ⟨hlen, ?_, ?_⟩
            · rw [hdata, List.take_take, Nat.min_eq_left (by omega)]
              exact (pfx_iff_take _ _).mp hp
            · rw [hdata]
              exact hwalk _ (by omega)
  · rw [hf] at hj; cases hj

/-- C6 (amended): on a non-empty workbook shorter than `2^31` bytes, every image
with format PNG in the result of `xls2img_extract_images` holds `size` bytes,
begins with the 8-byte PNG signature and, unless the walk over its chunk framing
from offset 8 meets a chunk whose length field is `2^32 - 12` or more, ends 12
bytes after the start of the first chunk of type `IEND` reached by that walk, that
is, immediately after the CRC of that `IEND` chunk when its length field is 0. -/
theorem c6_emitted_png_framing (wb : List Byte) (res0 : XLS2IMG_RESULT) (ret : Int)
    (res : XLS2IMG_RESULT) (hne : wb ≠ []) (hsmall : wb.length < 2 ^ 31)
    (h : xls2img_extract_images wb res0 = .ok (ret, res)) :
    ∀ img ∈ res.images, img.format = XLS2IMG_PNG →
      img.data.length = img.size ∧ img.data.take 8 = pngSignature ∧
      (png_framing_walk img.data img.size 8 = .iend img.size ∨
        png_framing_walk img.data img.size 8 = .oversize) := by
  apply xls2img_extract_images_all
    (fun img => img.format = XLS2IMG_PNG →
      img.data.length = img.size ∧ img.data.take 8 = pngSignature ∧
      (png_framing_walk img.data img.size 8 = .iend img.size ∨
        png_framing_walk img.data img.size 8 = .oversize))
    wb ?_ res0 ret res hne h
  intro blob found hlen hfound e he hf
  obtain ⟨B, _, hB⟩ := (scan_drawing_group_emitted blob found hfound).2 e he
  exact emitted_png_bytes blob B e hB hf (by omega)

/-- C6 (amended) on the workbook carrying the small PNG: the emitted image is the
67-byte PNG, whose framing walk ends at its `IEND` chunk. -/
theorem c6_emitted_png_framing_witness :
    c6_good_workbook ≠ [] ∧
    xls2img_extract_images c6_good_workbook ⟨[], 0⟩ =
      .ok (1, ⟨[⟨XLS2IMG_PNG, 67, c2_png⟩], 1⟩) ∧
    (c2_png.length = 67 ∧ c2_png.take 8 = pngSignature ∧
      (png_framing_walk c2_png 67 8 = .iend 67 ∨ png_framing_walk c2_png 67 8 = .oversize)) :=
  ⟨by decide, by decide,
    c6_emitted_png_framing c6_good_workbook ⟨[], 0⟩ 1 ⟨[⟨XLS2IMG_PNG, 67, c2_png⟩], 1⟩
      (by decide) (by decide) (by decide) ⟨XLS2IMG_PNG, 67, c2_png⟩ (by decide) rfl⟩

/-- C6 as stated fails: on `c6_workbook`, whose drawing group is the PNG signature
followed by an `IEND` chunk with length field 5, the emitted PNG has 20 bytes and
stops 12 bytes after the start of the `IEND` chunk, inside its payload; walking
the chunk framing as the specification words it, the CRC of the `IEND` chunk ends
at offset 25 of the blob, and inside the 20 emitted bytes the chunk is not complete. -/
theorem c6_counterexample :
    xls2img_extract_images c6_workbook ⟨[], 0⟩ = .ok (1, ⟨[c6_image], 1⟩) ∧
    c6_image.format = XLS2IMG_PNG ∧
    spec_png_end c6_blob c6_blob.length 8 = some 25 ∧
    spec_png_end c6_image.data c6_image.data.length 8 = none ∧
    c6_image.data.length = 20 := by
  refine ⟨by decide, by decide, by decide, by decide, by decide⟩

/-- The small PNG split 40 + 20 + 7 over an `MsoDrawingGroup` record and two
`Continue` records, followed by an `EOF` record. -/
theorem split_chain_same_outcome_example :
    (c2_png.take 40 ++ c5_payloads.flatten).length ≤ 65535 ∧
    xls2img_extract_images
        (encode_records (⟨BIFF8_MsoDrawingGroup, c2_png.take 40⟩ ::
          c5_payloads.map (fun p => (⟨BIFF8_CONTINUE, p⟩ : Record))) ++ eof_record.encode)
        ⟨[], 0⟩ =
      xls2img_extract_images
        (encode_records [⟨BIFF8_MsoDrawingGroup, c2_png.take 40 ++ c5_payloads.flatten⟩] ++
          eof_record.encode) ⟨[], 0⟩ :=
  ⟨by decide,
    split_chain_same_outcome (c2_png.take 40) c5_payloads eof_record.encode ⟨[], 0⟩
      (by decide)⟩

/-- C10 (code defect): in `c10_blob` the last image start is the PNG signature at
offset 14, whose `IEND` chunk has its length and type inside the blob (offsets 22
to 29) and its CRC past the end of the 30-byte blob.  `xls2img_find_png_end`
returns 20 for the 16 bytes available, and the copy of 20 bytes from offset 14
reads four bytes past the end of the blob: the PNG is emitted with a size larger
than what the blob holds, instead of being dropped.  On the blob cut before the
PNG the scan emits the JPEG alone. -/
theorem c10_truncated_iend_crc_is_emitted :
    c10_blob.length = 30 ∧ isPngStart c10_blob 14 ∧
    (∀ i, i < c10_blob.length → 14 < i → ¬ isImageStart c10_blob i) ∧
    iendType <+: c10_blob.drop (14 + 8 + 4) ∧
    scan_drawing_group (c10_blob.take 14) = .ok [⟨0, ⟨XLS2IMG_JPG, 14, c4_jpeg⟩⟩] ∧
    xls2img_find_png_end (c10_blob.drop 14) (c10_blob.length - 14) = .ok 20 ∧
    add_image_to_result c10_blob [⟨0, ⟨XLS2IMG_JPG, 14, c4_jpeg⟩⟩] 14 20 XLS2IMG_PNG =
      .error .outOfBounds ∧
    scan_drawing_group c10_blob = .error .outOfBounds ∧
    xls2img_extract_images c10_workbook ⟨[], 0⟩ = .error .outOfBounds := by
  refine ⟨by decide, by decide, by decide, by decide, by decide, by decide, by decide,
    by decide, by decide⟩

/-- While `fuel` exceeds the distance from the cursor to the end of the window,
the chunk walk does not depend on it: the fuel of `xls2img_find_png_end` is never
used up. -/
theorem find_png_end_loop_fuel (data : List Byte) (size : Nat) :
    ∀ (f1 f2 p : Nat), p ≤ size → size < f1 + p → size < f2 + p →
      find_png_end_loop data size f1 p = find_png_end_loop data size f2 p := by
  intro f1
  induction f1 with
  | zero => intro f2 p h1 h2 _; omega
  | succ n ih =>
    intro f2 p hp h1 h2
    cases f2 with
    | zero => omega
    | succ m =>
      unfold find_png_end_loop
      split
      · split
        · rfl
        · split
          · split
            · rfl
            · rfl
            · simp only
              split
              · rfl
              · split
                · rfl
                · rename_i hstep hle
                  exact ih m _ (by omega) (by omega) (by omega)
          · rfl
      · rfl

/-- While `fuel` is at least the distance from `block_ptr` to the end of the blob,
the scan loop does not depend on it: the fuel of `scan_drawing_group` is never
used up before the loop exits. -/
theorem scan_loop_fuel (blob : List Byte) :
    ∀ (f1 f2 pos : Nat) (last : Option (Nat × XLS2IMG_FORMAT)) (images : List Emitted),
      blob.length ≤ f1 + pos → blob.length ≤ f2 + pos →
      scan_loop blob f1 pos last images = scan_loop blob f2 pos last images := by
  intro f1
  induction f1 with
  | zero =>
    intro f2 pos last images h1 _
    cases f2 with
    | zero => rfl
    | succ m =>
      simp only [scan_loop]
      rw [if_neg (by omega)]
  | succ n ih =>
    intro f2 pos last images h1 h2
    cases f2 with
    | zero =>
      simp only [scan_loop]
      rw [if_neg (by omega)]
    | succ m =>
      simp only [scan_loop]
      split
      · split
        · rfl
        · rfl
        · split
          · rfl
          · split
            · rfl
            · exact ih m _ _ _ (by omega) (by omega)
      · rfl

/-- Past the end of the block the header search faults whatever fuel is left: the
base case of `find_next_header_loop` is the out-of-bounds read of the next
iteration. -/
theorem find_next_header_loop_fuel (data : List Byte) (size bound : Nat) :
    ∀ (f1 f2 i : Nat), data.length ≤ f1 + i → data.length ≤ f2 + i →
      find_next_header_loop data size bound f1 i =
        find_next_header_loop data size bound f2 i := by
  have hoob : ∀ i, data.length ≤ i → header_here data size i = .error .outOfBounds := by
    intro i hi
    unfold header_here
    have : rd data i = .error .outOfBounds := by
      unfold rd
      rw [List.getElem?_eq_none hi]
    rw [this]
  intro f1
  induction f1 with
  | zero =>
    intro f2 i h1 _
    cases f2 with
    | zero => rfl
    | succ m =>
      simp only [find_next_header_loop]
      split
      · rw [hoob i (by omega)]
      · rfl
  | succ n ih =>
    intro f2 i h1 h2
    cases f2 with
    | zero =>
      simp only [find_next_header_loop]
      split
      · rw [hoob i (by omega)]
      · rfl
    | succ m =>
      simp only [find_next_header_loop]
      split
      · split
        · rfl
        · rfl
        · exact ih m _ (by omega) (by omega)
      · rfl


/-! ## The compound-file reader: lemmas -/

/-- The sector size taken from a header is positive. -/
theorem header_sector_size_pos (buffer : List Byte) : 0 < header_sector_size buffer := by
  unfold header_sector_size; split <;> omega

/-- The lookup of entry 0 needs no FAT lookup: the entry sits at the start of the
first directory sector. -/
theorem xls2img_get_entry_zero (reader : XLS2IMG_READER) (hss : 0 < reader.sectorSize) :
    xls2img_get_entry reader 0 =
      if reader.buffer.length ≤
          reader.sectorSize +
            reader.sectorSize * hdr_firstDirectorySectorLocation reader.buffer + 0 +
            sizeof_COMPOUND_FILE_ENTRY then .ok none
      else .ok (some (reader.sectorSize +
        reader.sectorSize * hdr_firstDirectorySectorLocation reader.buffer + 0)) := by
  have h0 : reader.sectorSize ≠ 0 := by omega
  simp [xls2img_get_entry, xls2img_locate_final_sector, locate_final_sector_loop, h0]

/-- The function `xls2img_open` with the lookup of the root entry spelled out. -/
theorem xls2img_open_eq (buffer : List Byte) :
    xls2img_open buffer =
      if buffer.length = 0 then .ok (XLS2IMG_ERROR_INVALID_ARGUMENT, none)
      else if buffer.length < sizeof_COMPOUND_FILE_HDR ∨ buffer.take 8 ≠ cfb_magic then
        .ok (XLS2IMG_ERROR_WRONG_FORMAT, none)
      else if buffer.length < header_sector_size buffer * 3 then
        .ok (XLS2IMG_ERROR_FILE_CORRUPTED, none)
      else if buffer.length ≤
          header_sector_size buffer +
            header_sector_size buffer * hdr_firstDirectorySectorLocation buffer + 0 +
            sizeof_COMPOUND_FILE_ENTRY then .ok (XLS2IMG_ERROR_FILE_CORRUPTED, none)
      else
        .ok (XLS2IMG_SUCCESS,
          some ⟨buffer, header_sector_size buffer, 64,
            entry_startSectorLocation buffer
              (header_sector_size buffer +
                header_sector_size buffer * hdr_firstDirectorySectorLocation buffer + 0)⟩) := by
  unfold xls2img_open
  by_cases h0 : buffer.length = 0
  · rw [if_pos h0, if_pos h0]
  · rw [if_neg h0, if_neg h0]
    by_cases h1 : buffer.length < sizeof_COMPOUND_FILE_HDR ∨ buffer.take 8 ≠ cfb_magic
    · rw [if_pos h1, if_pos h1]
    · rw [if_neg h1, if_neg h1]
      simp only
      by_cases h2 : buffer.length < header_sector_size buffer * 3
      · rw [if_pos h2, if_pos h2]
      · rw [if_neg h2, if_neg h2, xls2img_get_entry_zero _ (header_sector_size_pos buffer)]
        simp only
        by_cases h3 : buffer.length ≤
            header_sector_size buffer +
              header_sector_size buffer * hdr_firstDirectorySectorLocation buffer + 0 +
              sizeof_COMPOUND_FILE_ENTRY
        · rw [if_pos h3, if_pos h3]
        · rw [if_neg h3, if_neg h3]

/-- What a successful `xls2img_open` has checked and stored. -/
theorem xls2img_open_success (buffer : List Byte) (ret : Int) (r : XLS2IMG_READER)
    (h : xls2img_open buffer = .ok (ret, some r)) :
    ret = XLS2IMG_SUCCESS ∧ r.buffer = buffer ∧
    sizeof_COMPOUND_FILE_HDR ≤ buffer.length ∧ buffer.take 8 = cfb_magic ∧
    r.sectorSize = header_sector_size buffer ∧
    r.minisectorSize = 64 ∧ r.sectorSize * 3 ≤ buffer.length ∧
    ∃ root, xls2img_get_entry r 0 = .ok (some root) ∧
      r.miniStreamStartSector = entry_startSectorLocation buffer root := by
  rw [xls2img_open_eq] at h
  split at h
  · cases h
  · split at h
    · cases h
    · rename_i hfmt
      split at h
      · cases h
      · rename_i hlen
        split at h
        · cases h
        · rename_i hroot
          simp only [Except.ok.injEq, Prod.mk.injEq, Option.some.injEq] at h
          obtain ⟨h1, h2⟩ := h
          subst h1 h2
          have hfmt' : ¬ buffer.length < sizeof_COMPOUND_FILE_HDR ∧ buffer.take 8 = cfb_magic := by
            constructor
            · intro hc; exact hfmt (Or.inl hc)
            · by_contra hc; exact hfmt (Or.inr hc)
          refine ⟨rfl, rfl, by omega, hfmt'.2, rfl, rfl, by simpa using hlen, ?_⟩
          refine ⟨header_sector_size buffer +
            header_sector_size buffer * hdr_firstDirectorySectorLocation buffer + 0, ?_, rfl⟩
          rw [xls2img_get_entry_zero _ (header_sector_size_pos buffer)]
          simp only
          rw [if_neg hroot]

/-- The function `xls2img_open` always returns, and when it returns success it
has produced a reader. -/
theorem xls2img_open_returns (buffer : List Byte) :
    ∃ out, xls2img_open buffer = .ok out ∧ (out.1 = XLS2IMG_SUCCESS → out.2 ≠ none) := by
  rw [xls2img_open_eq]
  split
  · exact ⟨_, rfl, by decide⟩
  · split
    · exact ⟨_, rfl, by decide⟩
    · split
      · exact ⟨_, rfl, by decide⟩
      · split
        · exact ⟨_, rfl, by decide⟩
        · exact ⟨_, rfl, fun _ => by simp⟩

/-- Outside a collection, a walk that meets no `MsoDrawingGroup` header leaves
the state unchanged. -/
theorem record_loop_no_mso :
    ∀ (fuel : Nat) (rest : List Byte) (st : WalkState), st.collecting_mso = false →
      (∀ h ∈ record_headers fuel rest, h.1 ≠ BIFF8_MsoDrawingGroup) →
      record_loop fuel rest st = .ok st := by
  intro fuel
  induction fuel with
  | zero => intro rest st _ _; rfl
  | succ n ih =>
    intro rest st hc hno
    match rest with
    | [] => rfl
    | [_] => rfl
    | [_, _] => rfl
    | [_, _, _] => rfl
    | b0 :: b1 :: b2 :: b3 :: body =>
      simp only [record_headers, List.mem_cons] at hno
      have hty : b1.val * 256 + b0.val ≠ BIFF8_MsoDrawingGroup := hno _ (Or.inl rfl)
      simp only [record_loop, hty, if_false, hc, Bool.false_eq_true, false_and]
      split
      · rfl
      · rename_i hsz
        apply ih _ _ hc
        intro h hh
        apply hno h
        right
        rw [if_neg hsz]
        exact hh

/-- An address returned by `xls2img_sector_offset_to_address` is
`sectorSize * (sector + 1) + offset`, for a sector below `0xFFFFFFFA` and an offset
below the sector size, and it is the offset of a byte of the buffer. -/
theorem xls2img_sector_offset_to_address_some (reader : XLS2IMG_READER)
    (sector offset pos : Nat)
    (h : xls2img_sector_offset_to_address reader sector offset = some pos) :
    pos = reader.sectorSize * (sector + 1) + offset ∧ sector < 0xFFFFFFFA ∧
    offset < reader.sectorSize ∧ pos < reader.buffer.length := by
  unfold xls2img_sector_offset_to_address at h
  split at h
  · cases h
  · rename_i h1
    simp only at h
    split at h
    · cases h
    · rename_i h2
      simp only [Option.some.injEq] at h
      subst h
      refine ⟨?_, by omega, by omega, by omega⟩
      rw [Nat.mul_add, Nat.mul_one]
      omega

/-- A walk that misses returns `none` once it has fuel for its path. -/
theorem workbook_walk_misses (reader : XLS2IMG_READER) (childID : Nat)
    (h : WalkMisses reader childID) :
    ∃ N, ∀ fuel, N ≤ fuel → workbook_walk reader fuel childID = .ok none := by
  induction h with
  | nil =>
    refine ⟨1, fun fuel hf => ?_⟩
    obtain ⟨f, rfl⟩ : ∃ f, fuel = f + 1 := ⟨fuel - 1, by omega⟩
    simp [workbook_walk]
  | unlocatable c hc hget =>
    refine ⟨1, fun fuel hf => ?_⟩
    obtain ⟨f, rfl⟩ : ∃ f, fuel = f + 1 := ⟨fuel - 1, by omega⟩
    simp [workbook_walk, hc, hget]
  | leaf c entry hc hget hno hnext =>
    refine ⟨1, fun fuel hf => ?_⟩
    obtain ⟨f, rfl⟩ : ∃ f, fuel = f + 1 := ⟨fuel - 1, by omega⟩
    simp [workbook_walk, hc, hget, hno, hnext]
  | step c entry next hc hget hno hnext _ ih =>
    obtain ⟨N, hN⟩ := ih
    refine ⟨N + 1, fun fuel hf => ?_⟩
    obtain ⟨f, rfl⟩ : ∃ f, fuel = f + 1 := ⟨fuel - 1, by omega⟩
    simp [workbook_walk, hc, hget, hno, hnext, hN f (by omega)]

/-- A walk that finds an entry returns it once it has fuel for its path. -/
theorem workbook_walk_finds (reader : XLS2IMG_READER) (childID found : Nat)
    (h : WalkFinds reader childID found) :
    ∃ N, ∀ fuel, N ≤ fuel → workbook_walk reader fuel childID = .ok (some found) := by
  induction h with
  | here c found hc hget hyes =>
    refine ⟨1, fun fuel hf => ?_⟩
    obtain ⟨f, rfl⟩ : ∃ f, fuel = f + 1 := ⟨fuel - 1, by omega⟩
    simp [workbook_walk, hc, hget, hyes]
  | step c entry next found hc hget hno hnext _ ih =>
    obtain ⟨N, hN⟩ := ih
    refine ⟨N + 1, fun fuel hf => ?_⟩
    obtain ⟨f, rfl⟩ : ∃ f, fuel = f + 1 := ⟨fuel - 1, by omega⟩
    simp [workbook_walk, hc, hget, hno, hnext, hN f (by omega)]

/-- What `is_fat_chain` says about the first sector of a chain. -/
theorem is_fat_chain_cons (reader : XLS2IMG_READER) (s : Nat) (rest : List Nat)
    (h : is_fat_chain reader (s :: rest) = true) :
    s < 0xFFFFFFFA ∧ reader.sectorSize * (s + 2) ≤ reader.buffer.length ∧
    (∃ next, xls2img_get_next_sector reader s = .ok next ∧
      ∀ s' rest', rest = s' :: rest' → next = s') ∧
    is_fat_chain reader rest = true := by
  unfold is_fat_chain at h
  simp only [Bool.and_eq_true, decide_eq_true_eq] at h
  obtain ⟨⟨⟨h1, h2⟩, h3⟩, h4⟩ := h
  refine ⟨h1, h2, ?_, h4⟩
  cases hn : xls2img_get_next_sector reader s with
  | error e => rw [hn] at h3; simp at h3
  | ok next =>
    refine ⟨next, rfl, ?_⟩
    intro s' rest' hr
    rw [hn, hr] at h3
    simpa using h3

/-- The bytes of a sector inside the buffer are `sectorSize` many. -/
theorem sector_bytes_length (reader : XLS2IMG_READER) (s : Nat)
    (h : reader.sectorSize * (s + 2) ≤ reader.buffer.length) :
    (sector_bytes reader s).length = reader.sectorSize := by
  unfold sector_bytes
  rw [List.length_take, List.length_drop]
  have : reader.sectorSize * (s + 2) = reader.sectorSize * (s + 1) + reader.sectorSize := by
    rw [show s + 2 = (s + 1) + 1 from rfl, Nat.mul_add, Nat.mul_one]
  omega

/-- One iteration of the loop of `xls2img_read_stream` at the start of a sector
that lies inside the buffer and whose FAT entry can be read. -/
theorem read_stream_loop_step (reader : XLS2IMG_READER) (hss : 0 < reader.sectorSize)
    (s fuel len next : Nat) (hs : s < 0xFFFFFFFA)
    (hin : reader.sectorSize * (s + 2) ≤ reader.buffer.length)
    (hnext : xls2img_get_next_sector reader s = .ok next) (hl : 0 < len) :
    read_stream_loop reader (fuel + 1) s 0 len =
      if next = 0xFFFFFFFE ∨ next = 0xFFFFFFFF then .ok ((sector_bytes reader s).take len)
      else
        match read_stream_loop reader fuel next 0 (len - reader.sectorSize) with
        | .error e => .error e
        | .ok more => .ok ((sector_bytes reader s).take len ++ more) := by
  have hmul : reader.sectorSize * (s + 2) =
      reader.sectorSize + reader.sectorSize * s + reader.sectorSize := by
    rw [Nat.mul_add]; omega
  have hmul1 : reader.sectorSize * (s + 1) = reader.sectorSize + reader.sectorSize * s := by
    rw [Nat.mul_add]; omega
  have haddr : xls2img_sector_offset_to_address reader s 0 =
      some (reader.sectorSize * (s + 1)) := by
    unfold xls2img_sector_offset_to_address
    rw [if_neg (by omega)]
    simp only
    rw [if_neg (by omega), hmul1]
    rfl
  have hz : ∀ f n, read_stream_loop reader f n 0 0 = .ok [] := by
    intro f n; cases f <;> simp [read_stream_loop]
  conv_lhs => unfold read_stream_loop
  rw [if_pos hl, haddr]
  simp only [Nat.sub_zero, hnext]
  by_cases hlt : len < reader.sectorSize
  · have hb : ¬ reader.buffer.length < reader.sectorSize * (s + 1) + len := by omega
    have htake : List.take len (sector_bytes reader s) =
        List.take len (List.drop (reader.sectorSize * (s + 1)) reader.buffer) := by
      simp only [sector_bytes, List.take_take]
      rw [Nat.min_eq_left (by omega)]
    have hsub : len - reader.sectorSize = 0 := by omega
    simp only [hlt, if_true, hb, if_false, Nat.sub_self, hz, hsub, htake]
  · have hb : ¬ reader.buffer.length < reader.sectorSize * (s + 1) + reader.sectorSize := by
      omega
    have htake : List.take len (sector_bytes reader s) =
        List.take reader.sectorSize
          (List.drop (reader.sectorSize * (s + 1)) reader.buffer) := by
      simp only [sector_bytes, List.take_take]
      rw [Nat.min_eq_right (by omega)]
    simp only [hlt, if_false, hb, htake]

/-- The loop of `xls2img_read_stream`, run from the first sector of a FAT chain
that is long enough, copies the first `len` bytes of the concatenated sectors. -/
theorem read_stream_loop_chain (reader : XLS2IMG_READER) (hss : 0 < reader.sectorSize) :
    ∀ (rest : List Nat) (s fuel len : Nat),
      is_fat_chain reader (s :: rest) = true →
      len ≤ (rest.length + 1) * reader.sectorSize → len ≤ fuel →
      read_stream_loop reader fuel s 0 len =
        .ok ((((s :: rest).map (sector_bytes reader)).flatten).take len) := by
  have hz : ∀ f n, read_stream_loop reader f n 0 0 = .ok [] := by
    intro f n; cases f <;> simp [read_stream_loop]
  intro rest
  induction rest with
  | nil =>
    intro s fuel len hch hlen hfuel
    obtain ⟨hs, hin, ⟨next, hnext, _⟩, _⟩ := is_fat_chain_cons reader s [] hch
    by_cases hl : 0 < len
    · obtain ⟨f, rfl⟩ : ∃ f, fuel = f + 1 := ⟨fuel - 1, by omega⟩
      rw [read_stream_loop_step reader hss s f len next hs hin hnext hl]
      have hsub : len - reader.sectorSize = 0 := by
        simp only [List.length_nil, Nat.zero_add, Nat.one_mul] at hlen; omega
      simp only [hsub, hz, List.append_nil, List.map_cons, List.map_nil, List.flatten_cons,
        List.flatten_nil, ite_self]
    · have : len = 0 := by omega
      subst this
      simp [hz]
  | cons s' rest ih =>
    intro s fuel len hch hlen hfuel
    obtain ⟨hs, hin, ⟨next, hnext, hlink⟩, hrest⟩ := is_fat_chain_cons reader s (s' :: rest) hch
    have hnx : next = s' := hlink s' rest rfl
    subst hnx
    obtain ⟨hs', _, _, _⟩ := is_fat_chain_cons reader next rest hrest
    have hsl := sector_bytes_length reader s hin
    by_cases hl : 0 < len
    · obtain ⟨f, rfl⟩ : ∃ f, fuel = f + 1 := ⟨fuel - 1, by omega⟩
      rw [read_stream_loop_step reader hss s f len next hs hin hnext hl, if_neg (by omega)]
      have hlen' : len - reader.sectorSize ≤ (rest.length + 1) * reader.sectorSize := by
        simp only [List.length_cons] at hlen
        rw [Nat.add_mul] at hlen
        omega
      rw [ih next f (len - reader.sectorSize) hrest hlen' (by omega)]
      simp only [List.map_cons, List.flatten_cons]
      have h1 : ∀ X : List Byte, List.take len (sector_bytes reader s ++ X) =
          List.take len (sector_bytes reader s) ++ List.take (len - reader.sectorSize) X := by
        intro X
        rw [List.take_append_eq_append_take, hsl]
      rw [h1]
    · have : len = 0 := by omega
      subst this
      simp [hz]

/-- A 4-byte read at an address that `xls2img_sector_offset_to_address` yields for
an offset that is a multiple of 4 stays inside a buffer whose length is a multiple
of 4, the sector size being one too. -/
theorem address_read_returns (reader : XLS2IMG_READER) (hss : 4 ∣ reader.sectorSize)
    (hlen : 4 ∣ reader.buffer.length) (sector offset : Nat) (hoff : 4 ∣ offset) :
    ∃ v, (match xls2img_sector_offset_to_address reader sector offset with
      | none => (.ok 0xFFFFFFFF : Except Fault Nat)
      | some addr => parse_uint32 reader.buffer addr) = .ok v := by
  cases h : xls2img_sector_offset_to_address reader sector offset with
  | none => exact ⟨_, rfl⟩
  | some pos =>
    obtain ⟨hpos, _, _, hlt⟩ := xls2img_sector_offset_to_address_some reader sector offset pos h
    have hd : 4 ∣ reader.sectorSize * (sector + 1) := Dvd.dvd.mul_right hss _
    refine ⟨le32_at reader.buffer pos, ?_⟩
    simp only [parse_uint32]
    rw [if_pos (by omega)]

/-- The loop of `xls2img_get_fat_sector_location` returns, with an index below
`entriesPerSector`. -/
theorem difat_loop_returns (reader : XLS2IMG_READER) (hss : 4 ∣ reader.sectorSize)
    (hlen : 4 ∣ reader.buffer.length) (entriesPerSector : Nat) (heps : 0 < entriesPerSector) :
    ∀ (fuel n d : Nat), n < fuel →
      ∃ r, difat_loop reader entriesPerSector fuel n d = .ok r ∧
        ∀ n' d', r = some (n', d') → n' < entriesPerSector := by
  intro fuel
  induction fuel with
  | zero => intro n d h; omega
  | succ f ih =>
    intro n d h
    unfold difat_loop
    by_cases hge : n ≥ entriesPerSector
    · rw [if_pos hge]
      have hoff : 4 ∣ reader.sectorSize - 4 := Nat.dvd_sub' hss (Nat.dvd_refl 4)
      obtain ⟨v, hv⟩ := address_read_returns reader hss hlen d (reader.sectorSize - 4) hoff
      cases ha : xls2img_sector_offset_to_address reader d (reader.sectorSize - 4) with
      | none => exact ⟨none, rfl, fun _ _ hc => by cases hc⟩
      | some addr =>
        rw [ha] at hv
        simp only at hv
        simp only [hv]
        exact ih (n - entriesPerSector) v (by omega)
    · rw [if_neg hge]
      refine ⟨some (n, d), rfl, fun n' d' hc => ?_⟩
      simp only [Option.some.injEq, Prod.mk.injEq] at hc
      omega

/-- The function `xls2img_get_fat_sector_location` returns. -/
theorem xls2img_get_fat_sector_location_returns (reader : XLS2IMG_READER)
    (hss : 4 ∣ reader.sectorSize) (h8 : 8 ≤ reader.sectorSize)
    (hlen : 4 ∣ reader.buffer.length) (n : Nat) :
    ∃ v, xls2img_get_fat_sector_location reader n = .ok v := by
  unfold xls2img_get_fat_sector_location
  by_cases h : n < 109
  · rw [if_pos h]; exact ⟨_, rfl⟩
  · rw [if_neg h]
    simp only
    have heps : 0 < reader.sectorSize / 4 - 1 := by omega
    obtain ⟨r, hr, hb⟩ := difat_loop_returns reader hss hlen _ heps (n - 109 + 1) (n - 109)
      (hdr_firstDIFATSectorLocation reader.buffer) (by omega)
    rw [hr]
    cases r with
    | none => exact ⟨_, rfl⟩
    | some p =>
      obtain ⟨n', d'⟩ := p
      simp only
      exact address_read_returns reader hss hlen d' (n' * 4) (Dvd.intro_left _ rfl)

/-- The function `xls2img_get_next_sector` returns. -/
theorem xls2img_get_next_sector_returns (reader : XLS2IMG_READER)
    (hss : 4 ∣ reader.sectorSize) (h8 : 8 ≤ reader.sectorSize)
    (hlen : 4 ∣ reader.buffer.length) (sector : Nat) :
    ∃ v, xls2img_get_next_sector reader sector = .ok v := by
  unfold xls2img_get_next_sector
  simp only
  obtain ⟨loc, hloc⟩ := xls2img_get_fat_sector_location_returns reader hss h8 hlen
    (sector / (reader.sectorSize / 4))
  rw [hloc]
  simp only
  exact address_read_returns reader hss hlen loc _ (Dvd.intro_left _ rfl)

/-- The loop of `xls2img_locate_final_sector` returns, and keeps the offset a
multiple of 4. -/
theorem locate_final_sector_loop_returns (reader : XLS2IMG_READER)
    (hss : 4 ∣ reader.sectorSize) (h8 : 8 ≤ reader.sectorSize)
    (hlen : 4 ∣ reader.buffer.length) :
    ∀ (fuel sector offset : Nat), offset ≤ fuel →
      ∃ s o, locate_final_sector_loop reader fuel sector offset = .ok (s, o) ∧
        (4 ∣ offset → 4 ∣ o) := by
  intro fuel
  induction fuel with
  | zero =>
    intro sector offset h
    unfold locate_final_sector_loop
    rw [if_neg (by omega)]
    exact ⟨_, _, rfl, fun hd => hd⟩
  | succ f ih =>
    intro sector offset h
    unfold locate_final_sector_loop
    by_cases hge : offset ≥ reader.sectorSize
    · rw [if_pos hge]
      obtain ⟨next, hnext⟩ := xls2img_get_next_sector_returns reader hss h8 hlen sector
      rw [hnext]
      simp only
      by_cases hs : next = 0xFFFFFFFE ∨ next = 0xFFFFFFFF
      · rw [if_pos hs]
        exact ⟨_, _, rfl, fun hd => Nat.dvd_sub' hd hss⟩
      · rw [if_neg hs]
        obtain ⟨s, o, hso, hd⟩ := ih next (offset - reader.sectorSize) (by omega)
        exact ⟨s, o, hso, fun hd' => hd (Nat.dvd_sub' hd' hss)⟩
    · rw [if_neg hge]
      exact ⟨_, _, rfl, fun hd => hd⟩

/-- The function `xls2img_get_next_mini_sector` returns. -/
theorem xls2img_get_next_mini_sector_returns (reader : XLS2IMG_READER)
    (hss : 4 ∣ reader.sectorSize) (h8 : 8 ≤ reader.sectorSize)
    (hlen : 4 ∣ reader.buffer.length) (miniSector : Nat) :
    ∃ v, xls2img_get_next_mini_sector reader miniSector = .ok v := by
  unfold xls2img_get_next_mini_sector xls2img_locate_final_sector
  obtain ⟨s, o, hso, hd⟩ := locate_final_sector_loop_returns reader hss h8 hlen
    (miniSector * 4) (hdr_firstMiniFATSectorLocation reader.buffer) (miniSector * 4)
    (Nat.le_refl _)
  rw [hso]
  simp only
  exact address_read_returns reader hss hlen s o (hd (Dvd.intro_left _ rfl))

/-- The function `xls2img_mini_sector_offset_to_address` returns. -/
theorem xls2img_mini_sector_offset_to_address_returns (reader : XLS2IMG_READER)
    (hss : 4 ∣ reader.sectorSize) (h8 : 8 ≤ reader.sectorSize)
    (hlen : 4 ∣ reader.buffer.length) (sector offset : Nat) :
    ∃ a, xls2img_mini_sector_offset_to_address reader sector offset = .ok a := by
  unfold xls2img_mini_sector_offset_to_address xls2img_locate_final_sector
  obtain ⟨s, o, hso, _⟩ := locate_final_sector_loop_returns reader hss h8 hlen
    (sector * reader.minisectorSize + offset) reader.miniStreamStartSector
    (sector * reader.minisectorSize + offset) (Nat.le_refl _)
  rw [hso]
  exact ⟨_, rfl⟩

/-- The loop of `xls2img_read_stream` returns. -/
theorem read_stream_loop_returns (reader : XLS2IMG_READER)
    (hss : 4 ∣ reader.sectorSize) (h8 : 8 ≤ reader.sectorSize)
    (hlen : 4 ∣ reader.buffer.length) :
    ∀ (fuel sector offset len : Nat), len ≤ fuel →
      ∃ d, read_stream_loop reader fuel sector offset len = .ok d := by
  intro fuel
  induction fuel with
  | zero =>
    intro sector offset len h
    unfold read_stream_loop
    rw [if_neg (by omega)]
    exact ⟨_, rfl⟩
  | succ f ih =>
    intro sector offset len h
    unfold read_stream_loop
    by_cases hl : len > 0
    · rw [if_pos hl]
      cases ha : xls2img_sector_offset_to_address reader sector offset with
      | none => exact ⟨_, rfl⟩
      | some src =>
        obtain ⟨_, _, hoff, _⟩ :=
          xls2img_sector_offset_to_address_some reader sector offset src ha
        simp only
        have hcl : 1 ≤ (if len < reader.sectorSize - offset then len
            else reader.sectorSize - offset) := by
          split <;> omega
        generalize (if len < reader.sectorSize - offset then len
            else reader.sectorSize - offset) = copylen at hcl ⊢
        by_cases hb : reader.buffer.length < src + copylen
        · rw [if_pos hb]
          exact ⟨_, rfl⟩
        · rw [if_neg hb]
          obtain ⟨next, hnext⟩ := xls2img_get_next_sector_returns reader hss h8 hlen sector
          rw [hnext]
          simp only
          by_cases hs : next = 0xFFFFFFFE ∨ next = 0xFFFFFFFF
          · rw [if_pos hs]
            exact ⟨_, rfl⟩
          · rw [if_neg hs]
            obtain ⟨d, hd⟩ := ih next 0 (len - copylen) (by omega)
            rw [hd]
            exact ⟨_, rfl⟩
    · rw [if_neg hl]
      exact ⟨_, rfl⟩

/-- The loop of `xls2img_read_mini_stream` returns when it starts at the beginning
of a mini sector. -/
theorem read_mini_stream_loop_returns (reader : XLS2IMG_READER)
    (hss : 4 ∣ reader.sectorSize) (h8 : 8 ≤ reader.sectorSize)
    (hlen : 4 ∣ reader.buffer.length) (hmini : reader.minisectorSize = 64) :
    ∀ (fuel sector len : Nat), len ≤ fuel →
      ∃ d, read_mini_stream_loop reader fuel sector 0 len = .ok d := by
  intro fuel
  induction fuel with
  | zero =>
    intro sector len h
    unfold read_mini_stream_loop
    rw [if_neg (by omega)]
    exact ⟨_, rfl⟩
  | succ f ih =>
    intro sector len h
    unfold read_mini_stream_loop
    by_cases hl : len > 0
    · rw [if_pos hl]
      obtain ⟨a, ha⟩ := xls2img_mini_sector_offset_to_address_returns reader hss h8 hlen sector 0
      rw [ha]
      cases a with
      | none => exact ⟨_, rfl⟩
      | some src =>
        simp only
        have hroom : (reader.minisectorSize + 2 ^ 64 - 0) % 2 ^ 64 = 64 := by
          rw [hmini]; rfl
        rw [hroom]
        have hcl : 1 ≤ (if len < 64 then len else 64) := by
          split <;> omega
        generalize (if len < 64 then len else 64) = copylen at hcl ⊢
        by_cases hb : reader.buffer.length < src + copylen
        · rw [if_pos hb]
          exact ⟨_, rfl⟩
        · rw [if_neg hb]
          obtain ⟨next, hnext⟩ :=
            xls2img_get_next_mini_sector_returns reader hss h8 hlen sector
          rw [hnext]
          simp only
          by_cases hs : next = 0xFFFFFFFE ∨ next = 0xFFFFFFFF
          · rw [if_pos hs]
            exact ⟨_, rfl⟩
          · rw [if_neg hs]
            obtain ⟨d, hd⟩ := ih next (len - copylen) (by omega)
            rw [hd]
            exact ⟨_, rfl⟩
    · rw [if_neg hl]
      exact ⟨_, rfl⟩

/-- The function `xls2img_read_file` returns for every entry, in a reader whose
sector size and buffer length are multiples of 4. -/
theorem xls2img_read_file_returns (reader : XLS2IMG_READER)
    (hss : 4 ∣ reader.sectorSize) (h8 : 8 ≤ reader.sectorSize)
    (hlen : 4 ∣ reader.buffer.length) (hmini : reader.minisectorSize = 64) (entry : Nat) :
    ∃ d, xls2img_read_file reader entry = .ok d := by
  unfold xls2img_read_file
  split
  · exact ⟨_, rfl⟩
  · split
    · unfold xls2img_read_mini_stream xls2img_locate_final_mini_sector
        locate_final_mini_sector_loop
      rw [if_neg (by omega)]
      simp only
      exact read_mini_stream_loop_returns reader hss h8 hlen hmini _ _ _ (by omega)
    · unfold xls2img_read_stream xls2img_locate_final_sector locate_final_sector_loop
      rw [if_neg (by omega)]
      simp only
      exact read_stream_loop_returns reader hss h8 hlen _ _ _ _ (Nat.le_refl _)

/-! ## Claims C11 to C20 -/

/-- C11: on every non-empty workbook buffer whose record walk meets no record
header of type `MsoDrawingGroup` (0x00EB), whatever other records it holds,
`xls2img_extract_images` returns no-images (-5) with an empty result. -/
theorem c11_no_drawing_group_no_images (wb : List Byte) (res0 : XLS2IMG_RESULT)
    (hne : wb ≠ [])
    (hno : ∀ h ∈ record_headers wb.length wb, h.1 ≠ BIFF8_MsoDrawingGroup) :
    xls2img_extract_images wb res0 = .ok (XLS2IMG_ERROR_NO_IMAGES, ⟨[], 0⟩) := by
  unfold xls2img_extract_images
  have hl : wb.length ≠ 0 := fun hc => hne (List.length_eq_zero.mp hc)
  rw [if_neg hl, record_loop_no_mso _ _ _ rfl hno]
  rfl

/-- C11 on `c11_workbook`, which holds a `Continue` record carrying a PNG
signature and ends with three stray bytes, but no `MsoDrawingGroup` record. -/
theorem c11_no_drawing_group_no_images_witness :
    record_headers c11_workbook.length c11_workbook = [(0x0809, 4), (0x003C, 8), (0x000A, 0)] ∧
    xls2img_extract_images c11_workbook ⟨[], 0⟩ = .ok (XLS2IMG_ERROR_NO_IMAGES, ⟨[], 0⟩) :=
  ⟨by decide, c11_no_drawing_group_no_images c11_workbook ⟨[], 0⟩ (by decide) (by decide)⟩

/-- Counterexample to C12.  In `c12_cfb`, which `xls2img_open` accepts, the walk
finds the stream `Workbook` with `size = 2^63 - 1`, above the mini-stream cutoff,
and every prefix of the chain 2, 2, 2, ... from its `startSectorLocation` is a FAT
chain of sectors inside the buffer, so the chain has the `2^54` sectors that
`size` asks for; the allocation of `2^63 - 1` bytes fails and
`xls2img_get_workbook` returns invalid-argument (-3) without writing its outputs.
The same happens on `good_cfb`, whose chain 2, 3 holds the 600 bytes of the
stream, whenever the allocation of 600 bytes fails. -/
theorem c12_counterexample :
    xls2img_open c12_cfb = .ok (XLS2IMG_SUCCESS, some c12_reader) ∧
    c12_cfb.length = 2048 ∧
    xls2img_get_entry c12_reader 0 = .ok (some 512) ∧
    WalkFinds c12_reader (entry_childID c12_reader.buffer 512) 640 ∧
    entry_size c12_reader.buffer 640 = 2 ^ 63 - 1 ∧
    hdr_miniStreamCutoffSize c12_reader.buffer ≤ entry_size c12_reader.buffer 640 ∧
    entry_startSectorLocation c12_reader.buffer 640 = 2 ∧
    xls2img_get_next_sector c12_reader 2 = .ok 2 ∧
    (∀ n, is_fat_chain c12_reader (List.replicate n 2) = true) ∧
    entry_size c12_reader.buffer 640 ≤
      (List.replicate (2 ^ 54) 2).length * c12_reader.sectorSize ∧
    (∀ fuel, 1 ≤ fuel →
      xls2img_get_workbook_malloc malloc_below_2_47 fuel c12_reader =
        .ok (XLS2IMG_ERROR_INVALID_ARGUMENT, none)) ∧
    (∀ fuel, 1 ≤ fuel →
      xls2img_get_workbook_malloc (fun _ => false) fuel good_reader =
        .ok (XLS2IMG_ERROR_INVALID_ARGUMENT, none)) := by
  have hroot : xls2img_get_entry c12_reader 0 = .ok (some 512) := by decide!
  have hchild : entry_childID c12_reader.buffer 512 = 1 := by decide!
  have h1 : xls2img_get_entry c12_reader 1 = .ok (some 640) := by decide!
  have h1w : entry_is_workbook c12_reader.buffer 640 = .ok true := by decide!
  have hsz : entry_size c12_reader.buffer 640 = 2 ^ 63 - 1 := by decide!
  have hnext : xls2img_get_next_sector c12_reader 2 = .ok 2 := by decide!
  have hlen : c12_reader.buffer.length = 2048 := by decide!
  refine ⟨by decide!, by decide!, hroot, ?_, hsz, by decide!, by decide!, hnext, ?_, ?_, ?_, ?_⟩
  · rw [hchild]
    exact WalkFinds.here 1 640 (by decide) h1 h1w
  · intro n
    induction n with
    | zero => rfl
    | succ k ih =>
      rw [List.replicate_succ]
      unfold is_fat_chain
      rw [hnext, ih, hlen]
      cases k with
      | zero => rfl
      | succ j => rfl
  · rw [hsz, List.length_replicate]
    decide
  · intro fuel hf
    obtain ⟨f, rfl⟩ : ∃ f, fuel = f + 1 := ⟨fuel - 1, by omega⟩
    have hm : malloc_below_2_47 (2 ^ 63 - 1) = false := by decide
    unfold xls2img_get_workbook_malloc
    rw [hroot]
    simp only
    rw [hchild]
    unfold workbook_walk
    rw [if_pos (by decide), h1]
    simp only
    rw [h1w]
    simp only
    rw [hsz, hm]
    rfl
  · intro fuel hf
    obtain ⟨f, rfl⟩ : ∃ f, fuel = f + 1 := ⟨fuel - 1, by omega⟩
    have groot : xls2img_get_entry good_reader 0 = .ok (some 512) := by decide!
    have gchild : entry_childID good_reader.buffer 512 = 1 := by decide!
    have g1 : xls2img_get_entry good_reader 1 = .ok (some 640) := by decide!
    have g1w : entry_is_workbook good_reader.buffer 640 = .ok true := by decide!
    unfold xls2img_get_workbook_malloc
    rw [groot]
    simp only
    rw [gchild]
    unfold workbook_walk
    rw [if_pos (by decide), g1]
    simp only
    rw [g1w]
    rfl

/-- C12 (amended): for every reader made by `xls2img_open` whose directory walk
finds an entry accepted as the workbook, with `size` at least the mini-stream
cutoff, and every FAT chain of sectors inside the buffer that starts at the
entry's `startSectorLocation` and has at least `size / sectorSize` (rounded up)
sectors: when the allocation of `size` bytes succeeds, `xls2img_get_workbook`
returns success, `*size` is the entry's `size` field, and the bytes written to
`*data` are the first `size` bytes of the concatenation of the sectors of the
chain, in chain order, sector `s` being the `sectorSize` bytes at file offset
`sectorSize * (s + 1)`; when the allocation fails, it returns invalid-argument
(-3) and writes neither output.  The result is there for every iteration budget
of the walk from some `N` on. -/
theorem c12_workbook_stream_bytes (malloc : Nat → Bool) (buffer : List Byte)
    (reader : XLS2IMG_READER) (root entry : Nat) (chain : List Nat)
    (hopen : xls2img_open buffer = .ok (XLS2IMG_SUCCESS, some reader))
    (hroot : xls2img_get_entry reader 0 = .ok (some root))
    (hfind : WalkFinds reader (entry_childID reader.buffer root) entry)
    (hsize : hdr_miniStreamCutoffSize reader.buffer ≤ entry_size reader.buffer entry)
    (hstart : 0 < entry_size reader.buffer entry →
      chain.head? = some (entry_startSectorLocation reader.buffer entry))
    (hchain : is_fat_chain reader chain = true)
    (hlen : entry_size reader.buffer entry ≤ chain.length * reader.sectorSize) :
    ∃ N, ∀ fuel, N ≤ fuel →
      xls2img_get_workbook_malloc malloc fuel reader =
        if malloc (entry_size reader.buffer entry) = true then
          .ok (XLS2IMG_SUCCESS,
            some (((chain.map (sector_bytes reader)).flatten).take
              (entry_size reader.buffer entry), entry_size reader.buffer entry))
        else .ok (XLS2IMG_ERROR_INVALID_ARGUMENT, none) := by
  obtain ⟨_, _, _, _, hss, _, _, _⟩ := xls2img_open_success buffer _ reader hopen
  have hpos : 0 < reader.sectorSize := by
    rw [hss]; exact header_sector_size_pos buffer
  obtain ⟨N, hN⟩ := workbook_walk_finds reader _ entry hfind
  refine ⟨N, fun fuel hf => ?_⟩
  have hread : xls2img_read_file reader entry =
      .ok (((chain.map (sector_bytes reader)).flatten).take (entry_size reader.buffer entry)) := by
    unfold xls2img_read_file
    by_cases h0 : entry_size reader.buffer entry = 0
    · rw [if_pos h0, h0]
      simp
    · rw [if_neg h0, if_neg (by omega)]
      cases chain with
      | nil => simp at hlen; omega
      | cons s rest =>
        have hs : s = entry_startSectorLocation reader.buffer entry := by
          have := hstart (by omega)
          simpa using this
        subst hs
        have hloc : xls2img_locate_final_sector reader
            (entry_startSectorLocation reader.buffer entry) 0 =
            .ok (entry_startSectorLocation reader.buffer entry, 0) := by
          unfold xls2img_locate_final_sector locate_final_sector_loop
          rw [if_neg (by omega)]
        unfold xls2img_read_stream
        rw [hloc]
        simp only
        exact read_stream_loop_chain reader hpos rest _ _ _ hchain
          (by simpa using hlen) (Nat.le_refl _)
  unfold xls2img_get_workbook_malloc
  rw [hroot]
  simp only
  rw [hN fuel hf]
  simp only
  rw [hread]

/-- Witness of C12 (amended) on `good_cfb`: the stream `Workbook` of 600 bytes
starts at sector 2, its FAT chain is 2, 3, and the mini-stream cutoff is 64; with
an allocator that grants 600 bytes the result is success with the 512 bytes of
sector 2 and the first 88 bytes of sector 3. -/
theorem c12_workbook_stream_bytes_witness :
    (([2, 3].map (sector_bytes good_reader)).flatten).take (entry_size good_reader.buffer 640) =
      List.replicate 512 0xAA ++ List.replicate 88 0xBB ∧
    entry_size good_reader.buffer 640 = 600 ∧
    malloc_below_2_47 (entry_size good_reader.buffer 640) = true ∧
    ∃ N, ∀ fuel, N ≤ fuel →
      xls2img_get_workbook_malloc malloc_below_2_47 fuel good_reader =
        if malloc_below_2_47 (entry_size good_reader.buffer 640) = true then
          .ok (XLS2IMG_SUCCESS,
            some ((([2, 3].map (sector_bytes good_reader)).flatten).take
              (entry_size good_reader.buffer 640), entry_size good_reader.buffer 640))
        else .ok (XLS2IMG_ERROR_INVALID_ARGUMENT, none) :=
  ⟨by decide!, by decide!, by decide!,
    c12_workbook_stream_bytes malloc_below_2_47 good_cfb good_reader 512 640 [2, 3]
      (by decide!) (by decide!)
      (by
        have hchild : entry_childID good_reader.buffer 512 = 1 := by decide!
        rw [hchild]
        exact WalkFinds.here 1 640 (by decide) (by decide!) (by decide!))
      (by decide!) (fun _ => by decide!) (by decide!) (by decide!)⟩

/-- Counterexample to C13: `right_workbook_cfb` is a compound file of six whole
sectors, with the standard header fields and its three streams `A`, `Book` and
`Workbook` stored as a search tree in directory order, that `xls2img_open`
accepts.  The sibling tree under `root.childID` has the three entries at offsets
640 (`Book`), 768 (`A`) and 896 (`Workbook`), of which exactly one, the right
sibling of the first, is a stream named `Workbook`, and the name test accepts it.
The walk goes from `Book` to its left sibling `A`, which has no sibling, and
`xls2img_get_workbook` returns `XLS2IMG_ERROR_NO_WORKBOOK`. -/
theorem c13_counterexample :
    xls2img_open right_workbook_cfb = .ok (XLS2IMG_SUCCESS, some right_workbook_reader) ∧
    right_workbook_cfb.length = 6 * 512 ∧
    xls2img_get_entry right_workbook_reader 0 = .ok (some 512) ∧
    entry_childID right_workbook_cfb 512 = 1 ∧
    sibling_tree right_workbook_reader 3 1 = [640, 768, 896] ∧
    sibling_tree right_workbook_reader 4 1 = [640, 768, 896] ∧
    [640, 768, 896].filter
      (fun e => decide (entry_type right_workbook_cfb e = 2 ∧
        named_workbook right_workbook_cfb e)) = [896] ∧
    entry_is_workbook right_workbook_cfb 896 = .ok true ∧
    ∀ fuel, 2 ≤ fuel →
      xls2img_get_workbook fuel right_workbook_reader =
        .ok (XLS2IMG_ERROR_NO_WORKBOOK, none) := by
  refine ⟨by decide!, by decide!, by decide!, by decide!, by decide!, by decide!, by decide!,
    by decide!, ?_⟩
  intro fuel hf
  obtain ⟨f, rfl⟩ : ∃ f, fuel = f + 2 := ⟨fuel - 2, by omega⟩
  have hroot : xls2img_get_entry right_workbook_reader 0 = .ok (some 512) := by decide!
  have hchild : entry_childID right_workbook_reader.buffer 512 = 1 := by decide!
  have h1 : xls2img_get_entry right_workbook_reader 1 = .ok (some 640) := by decide!
  have h1w : entry_is_workbook right_workbook_reader.buffer 640 = .ok false := by decide!
  have h1n : next_childID right_workbook_reader.buffer 640 = some 2 := by decide!
  have h2 : xls2img_get_entry right_workbook_reader 2 = .ok (some 768) := by decide!
  have h2w : entry_is_workbook right_workbook_reader.buffer 768 = .ok false := by decide!
  have h2n : next_childID right_workbook_reader.buffer 768 = none := by decide!
  simp [xls2img_get_workbook, xls2img_get_workbook_malloc, workbook_walk, hroot, hchild, h1, h1w, h1n, h2, h2w, h2n]

/-- C13 (amended): for every buffer that `xls2img_open` accepts and whose length is
a multiple of 4, the outcome follows the path of the directory walk from
`root.childID` (at each entry that is not accepted: the left sibling when there is
one, else the right one).  If the path reaches an entry that the name test
accepts, `xls2img_get_workbook` returns success with that entry's `size` when the
allocation of `size` bytes succeeds, and invalid-argument (-3) when it fails.  If
the path ends without an accepted entry, whatever entries lie off the path,
`xls2img_get_workbook` returns no-workbook (-4).  Each result is there for every
iteration budget of the walk from some `N` on. -/
theorem c13_workbook_on_walk_path_found (malloc : Nat → Bool) (buffer : List Byte)
    (reader : XLS2IMG_READER) (root : Nat)
    (hopen : xls2img_open buffer = .ok (XLS2IMG_SUCCESS, some reader))
    (halign : 4 ∣ buffer.length)
    (hroot : xls2img_get_entry reader 0 = .ok (some root)) :
    (∀ entry, WalkFinds reader (entry_childID reader.buffer root) entry →
      ∃ N data, ∀ fuel, N ≤ fuel →
        xls2img_get_workbook_malloc malloc fuel reader =
          if malloc (entry_size reader.buffer entry) = true then
            .ok (XLS2IMG_SUCCESS, some (data, entry_size reader.buffer entry))
          else .ok (XLS2IMG_ERROR_INVALID_ARGUMENT, none)) ∧
    (WalkMisses reader (entry_childID reader.buffer root) →
      ∃ N, ∀ fuel, N ≤ fuel →
        xls2img_get_workbook_malloc malloc fuel reader =
          .ok (XLS2IMG_ERROR_NO_WORKBOOK, none)) := by
  obtain ⟨_, hbuf, _, _, hss, hmini, _, _⟩ := xls2img_open_success buffer _ reader hopen
  have hss4 : 4 ∣ reader.sectorSize ∧ 8 ≤ reader.sectorSize := by
    rw [hss]
    unfold header_sector_size
    split
    · exact ⟨⟨128, rfl⟩, by omega⟩
    · exact ⟨⟨1024, rfl⟩, by omega⟩
  constructor
  · intro entry hfind
    obtain ⟨N, hN⟩ := workbook_walk_finds reader _ entry hfind
    obtain ⟨data, hdata⟩ := xls2img_read_file_returns reader hss4.1 hss4.2
      (by rw [hbuf]; exact halign) hmini entry
    refine ⟨N, data, fun fuel hf => ?_⟩
    unfold xls2img_get_workbook_malloc
    rw [hroot]
    simp only
    rw [hN fuel hf]
    simp only
    rw [hdata]
  · intro hmiss
    obtain ⟨N, hN⟩ := workbook_walk_misses reader _ hmiss
    refine ⟨N, fun fuel hf => ?_⟩
    unfold xls2img_get_workbook_malloc
    rw [hroot]
    simp only
    rw [hN fuel hf]

/-- Witness of C13 (amended).  On `left_workbook_cfb` the walk visits the stream
`SummaryInformation`, which is not accepted, and goes on to its left sibling, the
stream `Workbook`, whose 600 bytes are read from the mini stream; the allocator
grants them.  On `right_workbook_cfb` the walk path `Book`, `A` ends without an
accepted entry, the stream `Workbook` lying off the path. -/
theorem c13_workbook_on_walk_path_found_witness :
    xls2img_get_workbook_malloc malloc_below_2_47 2 left_workbook_reader =
      .ok (XLS2IMG_SUCCESS, some (List.replicate 512 0xAA ++ List.replicate 88 0xBB, 600)) ∧
    malloc_below_2_47 (entry_size left_workbook_reader.buffer 768) = true ∧
    (∃ N data, ∀ fuel, N ≤ fuel →
      xls2img_get_workbook_malloc malloc_below_2_47 fuel left_workbook_reader =
        if malloc_below_2_47 (entry_size left_workbook_reader.buffer 768) = true then
          .ok (XLS2IMG_SUCCESS, some (data, entry_size left_workbook_reader.buffer 768))
        else .ok (XLS2IMG_ERROR_INVALID_ARGUMENT, none)) ∧
    (∃ N, ∀ fuel, N ≤ fuel →
      xls2img_get_workbook_malloc malloc_below_2_47 fuel right_workbook_reader =
        .ok (XLS2IMG_ERROR_NO_WORKBOOK, none)) :=
  ⟨by decide!, by decide!,
    (c13_workbook_on_walk_path_found malloc_below_2_47 left_workbook_cfb left_workbook_reader
      512 (by decide!) (by decide!) (by decide!)).1 768
      (by
        have hchild : entry_childID left_workbook_reader.buffer 512 = 1 := by decide!
        rw [hchild]
        exact WalkFinds.step 1 640 2 768 (by decide) (by decide!) (by decide!) (by decide!)
          (WalkFinds.here 2 768 (by decide) (by decide!) (by decide!))),
    (c13_workbook_on_walk_path_found malloc_below_2_47 right_workbook_cfb
      right_workbook_reader 512 (by decide!) (by decide!) (by decide!)).2
      (by
        have hchild : entry_childID right_workbook_reader.buffer 512 = 1 := by decide!
        rw [hchild]
        exact WalkMisses.step 1 640 2 (by decide) (by decide!) (by decide!) (by decide!)
          (WalkMisses.leaf 2 768 (by decide) (by decide!) (by decide!) (by decide!)))⟩

/-- C14 (code defect): in `c14_cfb` the entry visited first by the directory walk
(entry 1, at offset 640) is a stream whose name is the single character `W`, with
`nameLen` 2, so its name is neither `Workbook` nor `WORKBOOK`; the comparison runs
over `nameLen / 2 = 1` unit only, the entry is accepted as the workbook, and
`xls2img_get_workbook` returns success with the 600 bytes of that stream. -/
theorem c14_one_letter_name_is_accepted :
    xls2img_open c14_cfb = .ok (XLS2IMG_SUCCESS, some c14_reader) ∧
    xls2img_get_entry c14_reader 1 = .ok (some 640) ∧
    entry_type c14_cfb 640 = 2 ∧ entry_nameLen c14_cfb 640 = 2 ∧
    entry_name_string c14_cfb 640 = [0x57] ∧ ¬ named_workbook c14_cfb 640 ∧
    xls2img_string_compare (entry_name c14_cfb 640) workbookStr 1 = .ok true ∧
    entry_is_workbook c14_cfb 640 = .ok true ∧
    xls2img_get_workbook 10 c14_reader =
      .ok (XLS2IMG_SUCCESS, some (List.replicate 512 0xAA ++ List.replicate 88 0xBB, 600)) := by
  refine ⟨by decide!, by decide!, by decide!, by decide!, by decide!, by decide!, by decide!,
    by decide!, by decide!⟩

/-- C16: `xls2img_open` returns invalid-argument (-3) on the empty buffer, and
wrong-format (-1) on every non-empty buffer whose first 8 bytes are not
`D0 CF 11 E0 A1 B1 1A E1`, in both cases without producing a reader. -/
theorem c16_open_rejects_empty_and_unsigned :
    xls2img_open [] = .ok (XLS2IMG_ERROR_INVALID_ARGUMENT, none) ∧
    ∀ (buffer : List Byte), buffer ≠ [] → buffer.take 8 ≠ cfb_magic →
      xls2img_open buffer = .ok (XLS2IMG_ERROR_WRONG_FORMAT, none) := by
  refine ⟨rfl, ?_⟩
  intro buffer hne hsig
  unfold xls2img_open
  have hl : buffer.length ≠ 0 := fun hc => hne (List.length_eq_zero.mp hc)
  rw [if_neg hl, if_pos (Or.inr hsig)]

/-- C16 on a 512-byte buffer whose eighth byte is `E0` instead of `E1`. -/
theorem c16_open_rejects_empty_and_unsigned_witness :
    c16_buffer ≠ [] ∧ c16_buffer.take 8 ≠ cfb_magic ∧
    xls2img_open c16_buffer = .ok (XLS2IMG_ERROR_WRONG_FORMAT, none) :=
  ⟨by decide, by decide,
    c16_open_rejects_empty_and_unsigned.2 c16_buffer (by decide) (by decide)⟩

/-- C17 as stated fails: the 8-byte buffer that is exactly the CFB magic is
non-empty, begins with the magic and is shorter than three sectors, and
`xls2img_open` returns wrong-format (-1), not file-corrupted (-2); so does the
first half of a version-3 header, 256 bytes long. -/
theorem c17_counterexample :
    cfb_magic ≠ [] ∧ cfb_magic.take 8 = cfb_magic ∧ cfb_magic.length < 3 * 512 ∧
    xls2img_open cfb_magic = .ok (XLS2IMG_ERROR_WRONG_FORMAT, none) ∧
    (c17_buffer.take 256).take 8 = cfb_magic ∧ hdr_majorVersion (c17_buffer.take 256) = 3 ∧
    xls2img_open (c17_buffer.take 256) = .ok (XLS2IMG_ERROR_WRONG_FORMAT, none) ∧
    XLS2IMG_ERROR_WRONG_FORMAT ≠ XLS2IMG_ERROR_FILE_CORRUPTED := by
  refine ⟨by decide, by decide, by decide, by decide, by decide, by decide, by decide!,
    by decide⟩

/-- C17 (amended): on every buffer that holds a whole 512-byte header beginning
with the CFB magic and whose length is smaller than three sector sizes (sector
size 512 when the major-version field is 3, else 4096), `xls2img_open` returns
file-corrupted (-2); on a non-empty buffer shorter than the 512-byte header it
returns wrong-format (-1). -/
theorem c17_open_short_buffer (buffer : List Byte) (hne : buffer ≠ []) :
    (sizeof_COMPOUND_FILE_HDR ≤ buffer.length → buffer.take 8 = cfb_magic →
      buffer.length < 3 * (if hdr_majorVersion buffer = 3 then 512 else 4096) →
      xls2img_open buffer = .ok (XLS2IMG_ERROR_FILE_CORRUPTED, none)) ∧
    (buffer.length < sizeof_COMPOUND_FILE_HDR →
      xls2img_open buffer = .ok (XLS2IMG_ERROR_WRONG_FORMAT, none)) := by
  have hl : buffer.length ≠ 0 := fun hc => hne (List.length_eq_zero.mp hc)
  constructor
  · intro h512 hsig hshort
    unfold xls2img_open
    rw [if_neg hl, if_neg (by
      intro hc
      rcases hc with hc | hc
      · omega
      · exact hc hsig)]
    simp only
    rw [if_pos (by unfold header_sector_size; omega)]
  · intro hshort
    unfold xls2img_open
    rw [if_neg hl, if_pos (Or.inl hshort)]

/-- C17 (amended) on a version-3 file of 1024 bytes, and on the bare magic. -/
theorem c17_open_short_buffer_witness :
    xls2img_open c17_buffer = .ok (XLS2IMG_ERROR_FILE_CORRUPTED, none) ∧
    xls2img_open cfb_magic = .ok (XLS2IMG_ERROR_WRONG_FORMAT, none) :=
  ⟨(c17_open_short_buffer c17_buffer (by decide)).1 (by decide!) (by decide) (by decide!),
    (c17_open_short_buffer cfb_magic (by decide)).2 (by decide)⟩

/-- C18: when `xls2img_open` returns success it has produced a reader over the
buffer whose `sectorSize` is 512 if the major version of the header is 3 and 4096
otherwise, whose `minisectorSize` is 64, with `len >= 3 * sectorSize`, and the root
directory entry (id 0) is found by `xls2img_get_entry`, `miniStreamStartSector`
being its `startSectorLocation`. -/
theorem c18_open_success_invariants (buffer : List Byte) (out : Option XLS2IMG_READER)
    (h : xls2img_open buffer = .ok (XLS2IMG_SUCCESS, out)) :
    ∃ r, out = some r ∧ r.buffer = buffer ∧
      r.sectorSize = (if hdr_majorVersion buffer = 3 then 512 else 4096) ∧
      r.minisectorSize = 64 ∧ 3 * r.sectorSize ≤ buffer.length ∧
      ∃ root, xls2img_get_entry r 0 = .ok (some root) ∧
        r.miniStreamStartSector = entry_startSectorLocation buffer root := by
  cases out with
  | none =>
    exfalso
    obtain ⟨o, ho, hs⟩ := xls2img_open_returns buffer
    rw [h] at ho
    cases ho
    exact hs rfl rfl
  | some r =>
    obtain ⟨_, h2, _, _, h5, h6, h7, h8⟩ := xls2img_open_success buffer _ r h
    exact ⟨r, rfl, h2, h5, h6, by omega, h8⟩

/-- C18 on the file `good_cfb` (version 3, 2560 bytes): sector size 512, root entry
at offset 512. -/
theorem c18_open_success_invariants_witness :
    xls2img_open good_cfb = .ok (XLS2IMG_SUCCESS, some good_reader) ∧
    ∃ r, some good_reader = some r ∧ r.buffer = good_cfb ∧
      r.sectorSize = (if hdr_majorVersion good_cfb = 3 then 512 else 4096) ∧
      r.minisectorSize = 64 ∧ 3 * r.sectorSize ≤ good_cfb.length ∧
      ∃ root, xls2img_get_entry r 0 = .ok (some root) ∧
        r.miniStreamStartSector = entry_startSectorLocation good_cfb root :=
  ⟨by decide!, c18_open_success_invariants good_cfb (some good_reader) (by decide!)⟩

/-- C19 as stated fails: for the code -6 of the public table `xls2img_strerror`
returns `Unknown error`, the fallback string it returns for a code outside the
table such as 42. -/
theorem c19_counterexample :
    XLS2IMG_ERROR_OUT_OF_MEMORY = -6 ∧
    xls2img_strerror XLS2IMG_ERROR_OUT_OF_MEMORY = "Unknown error" ∧
    xls2img_strerror 42 = "Unknown error" := by
  decide

/-- C19 (amended): for each of the six codes 0 to -5 `xls2img_strerror` returns a
message specific to that code, the six messages being pairwise different and
different from the fallback string; for -6 (out-of-memory) it returns the fallback
string `Unknown error` of the codes outside the table. -/
theorem c19_strerror_messages :
    ([0, -1, -2, -3, -4, -5].map xls2img_strerror).Nodup ∧
    (∀ c ∈ [0, -1, -2, -3, -4, -5], xls2img_strerror c ≠ xls2img_strerror 1) ∧
    xls2img_strerror XLS2IMG_ERROR_OUT_OF_MEMORY = xls2img_strerror 1 ∧
    (∀ c : Int, c < -5 ∨ 0 < c → xls2img_strerror c = "Unknown error") := by
  refine ⟨by decide, by decide, by decide, ?_⟩
  intro c hc
  unfold xls2img_strerror XLS2IMG_SUCCESS XLS2IMG_ERROR_WRONG_FORMAT
    XLS2IMG_ERROR_FILE_CORRUPTED XLS2IMG_ERROR_INVALID_ARGUMENT XLS2IMG_ERROR_NO_WORKBOOK
    XLS2IMG_ERROR_NO_IMAGES
  rw [if_neg (by omega), if_neg (by omega), if_neg (by omega), if_neg (by omega),
    if_neg (by omega), if_neg (by omega)]

/-- C20 (code defect): `xls2img_open` accepts the 1538-byte file `c20_cfb`.  For
sector 0 `xls2img_get_next_sector` takes the FAT sector 2 from `headerDIFAT[0]`,
`xls2img_sector_offset_to_address` yields the address 1536 = 512 * (2 + 1) + 0,
which only satisfies `pos < bufferLen`, and `parse_uint32` reads the four bytes
1536 to 1539, two of them past the end of the buffer.  The same read happens in
`xls2img_get_workbook`, which looks up entry 4. -/
theorem c20_fat_read_crosses_buffer_end :
    xls2img_open c20_cfb = .ok (XLS2IMG_SUCCESS, some c20_reader) ∧
    c20_cfb.length = 1538 ∧
    xls2img_get_fat_sector_location c20_reader 0 = .ok 2 ∧
    xls2img_sector_offset_to_address c20_reader 2 0 = some 1536 ∧
    ¬ (1536 + 4 ≤ c20_cfb.length) ∧
    xls2img_get_next_sector c20_reader 0 = .error .outOfBounds ∧
    xls2img_get_workbook 10 c20_reader = .error .outOfBounds := by
  refine ⟨by decide!, by decide!, by decide!, by decide!, by decide!, by decide!, by decide!⟩


/-! ## Image scanner and compound-file reader: further lemmas -/

/-- The loop of `xls2img_find_jpg_end` returns -1 when none of its candidate
positions holds the pair `FF D9`. -/
theorem find_jpg_end_loop_none (blob : List Byte) (limit : Nat) :
    ∀ (k : Nat), limit + k + 1 ≤ blob.length ∨ k = 0 →
      (∀ j, limit ≤ j → j < limit + k → ¬ hasEoiAt blob j) →
      find_jpg_end_loop blob limit k = .ok (-1) := by
  intro k
  induction k with
  | zero => intro _ _; rfl
  | succ k ih =>
    intro hb hno
    have hb' : limit + (k + 1) + 1 ≤ blob.length := by omega
    unfold find_jpg_end_loop
    have hlen : limit + k + ([0xFF, 0xD9] : List Byte).length ≤ blob.length := by
      simp only [List.length_cons, List.length_nil]
      omega
    rw [bytes_match_inb blob [0xFF, 0xD9] (limit + k) hlen]
    have hn : ¬ [0xFF, 0xD9] <+: blob.drop (limit + k) := hno (limit + k) (by omega) (by omega)
    simp only [hn, decide_False]
    exact ih (Or.inl (by omega)) (fun j h1 h2 => hno j h1 (by omega))

/-- The 4-byte read of the reader at byte `offset` of sector `sector`, for an
offset and a sector size that are multiples of 4: it agrees with `sector_u32`,
unless the address is inside the buffer and the four bytes are not, which needs a
buffer length that is no multiple of 4. -/
theorem address_read_spec (reader : XLS2IMG_READER) (hss : 4 ∣ reader.sectorSize)
    (sector offset : Nat) (hoff : 4 ∣ offset) :
    (xls2img_sector_offset_to_address reader sector offset = none ∧
      sector_u32 reader sector offset = none) ∨
    (∃ pos v, xls2img_sector_offset_to_address reader sector offset = some pos ∧
      parse_uint32 reader.buffer pos = .ok v ∧ sector_u32 reader sector offset = some v) ∨
    (∃ pos, xls2img_sector_offset_to_address reader sector offset = some pos ∧
      parse_uint32 reader.buffer pos = .error .outOfBounds ∧ ¬ 4 ∣ reader.buffer.length) := by
  have hmul : reader.sectorSize * (sector + 1) =
      reader.sectorSize + reader.sectorSize * sector := by
    rw [Nat.mul_add]; omega
  have hd : 4 ∣ reader.sectorSize * (sector + 1) := Dvd.dvd.mul_right hss _
  cases h : xls2img_sector_offset_to_address reader sector offset with
  | none =>
    left
    refine ⟨rfl, ?_⟩
    unfold xls2img_sector_offset_to_address at h
    unfold sector_u32
    split at h
    · rw [if_neg (by omega)]
    · simp only at h
      split at h
      · rw [if_neg (by omega)]
      · cases h
  | some pos =>
    right
    obtain ⟨hpos, hs, ho, hlt⟩ := xls2img_sector_offset_to_address_some reader sector offset pos h
    by_cases hw : pos + 4 ≤ reader.buffer.length
    · left
      refine ⟨pos, le32_at reader.buffer pos, rfl, ?_, ?_⟩
      · simp only [parse_uint32]
        rw [if_pos hw]
      · unfold sector_u32
        rw [if_pos ⟨hs, ho, by omega⟩, hpos]
    · right
      refine ⟨pos, rfl, ?_, ?_⟩
      · simp only [parse_uint32]
        rw [if_neg hw]
      · intro hc
        omega

/-- The loop of `xls2img_get_fat_sector_location` follows the DIFAT chain:
started with `n` and the DIFAT sector `d`, it ends with `n mod E` and the DIFAT
sector reached after `n div E` links, unless a read crosses the end of the
buffer. -/
theorem difat_loop_spec (reader : XLS2IMG_READER) (hss : 4 ∣ reader.sectorSize)
    (E : Nat) (hE : 0 < E) :
    ∀ (fuel n d : Nat), n < fuel →
      difat_loop reader E fuel n d =
          .ok ((difat_chain_sector reader (n / E) d).map (fun d' => (n % E, d'))) ∨
      (difat_loop reader E fuel n d = .error .outOfBounds ∧ ¬ 4 ∣ reader.buffer.length) := by
  intro fuel
  induction fuel with
  | zero => intro n d h; omega
  | succ f ih =>
    intro n d h
    unfold difat_loop
    by_cases hge : n ≥ E
    · rw [if_pos hge]
      have hdiv : n / E = (n - E) / E + 1 := by
        rw [Nat.div_eq_sub_div hE hge]
      have hmod : n % E = (n - E) % E := Nat.mod_eq_sub_mod hge
      rw [hdiv, hmod]
      have hoff : 4 ∣ reader.sectorSize - 4 := Nat.dvd_sub' hss (Nat.dvd_refl 4)
      rcases address_read_spec reader hss d (reader.sectorSize - 4) hoff with
        ⟨ha, hs⟩ | ⟨pos, v, ha, hp, hs⟩ | ⟨pos, ha, hp, hn⟩
      · left
        simp only [ha, difat_chain_sector, hs, Option.map_none']
      · simp only [ha, hp, difat_chain_sector, hs]
        exact ih (n - E) v (by omega)
      · right
        simp only [ha, hp]
        exact ⟨trivial, hn⟩
    · rw [if_neg hge]
      left
      have hdiv : n / E = 0 := Nat.div_eq_of_lt (by omega)
      have hmod : n % E = n := Nat.mod_eq_of_lt (by omega)
      rw [hdiv, hmod]
      rfl

/-- Every sector of a FAT chain is a regular sector inside the buffer. -/
theorem is_fat_chain_getD (reader : XLS2IMG_READER) :
    ∀ (chain : List Nat) (i : Nat), is_fat_chain reader chain = true → i < chain.length →
      chain.getD i 0 < 0xFFFFFFFA ∧
      reader.sectorSize * (chain.getD i 0 + 2) ≤ reader.buffer.length := by
  intro chain
  induction chain with
  | nil => intro i _ h; simp at h
  | cons s rest ih =>
    intro i hch hi
    obtain ⟨hs, hin, _, hrest⟩ := is_fat_chain_cons reader s rest hch
    cases i with
    | zero => exact ⟨hs, hin⟩
    | succ j =>
      simp only [List.getD_cons_succ]
      exact ih j hrest (by simpa using hi)

/-- The loop of `xls2img_locate_final_sector`, run along a FAT chain that is long
enough, ends in the sector of the chain that holds the offset. -/
theorem locate_final_sector_loop_chain (reader : XLS2IMG_READER)
    (hss : 0 < reader.sectorSize) :
    ∀ (rest : List Nat) (s fuel offset : Nat), is_fat_chain reader (s :: rest) = true →
      offset / reader.sectorSize ≤ rest.length → offset ≤ fuel →
      locate_final_sector_loop reader fuel s offset =
        .ok ((s :: rest).getD (offset / reader.sectorSize) 0, offset % reader.sectorSize) := by
  intro rest
  induction rest with
  | nil =>
    intro s fuel offset hch hq hf
    have hlt : offset < reader.sectorSize := by
      by_contra hc
      have : 0 < offset / reader.sectorSize := Nat.div_pos (by omega) hss
      simp at hq
      omega
    rw [Nat.div_eq_of_lt hlt, Nat.mod_eq_of_lt hlt]
    cases fuel <;> simp [locate_final_sector_loop, hlt]
  | cons s' rest ih =>
    intro s fuel offset hch hq hf
    by_cases hlt : offset < reader.sectorSize
    · rw [Nat.div_eq_of_lt hlt, Nat.mod_eq_of_lt hlt]
      cases fuel <;> simp [locate_final_sector_loop, hlt]
    · obtain ⟨_, _, ⟨next, hnext, hlink⟩, hrest⟩ := is_fat_chain_cons reader s (s' :: rest) hch
      have hnx : next = s' := hlink s' rest rfl
      subst hnx
      obtain ⟨hs', _, _, _⟩ := is_fat_chain_cons reader next rest hrest
      obtain ⟨f, rfl⟩ : ∃ f, fuel = f + 1 := ⟨fuel - 1, by omega⟩
      have hge : offset ≥ reader.sectorSize := by omega
      have hdiv : offset / reader.sectorSize = (offset - reader.sectorSize) / reader.sectorSize + 1 :=
        Nat.div_eq_sub_div hss hge
      have hmod : offset % reader.sectorSize = (offset - reader.sectorSize) % reader.sectorSize :=
        Nat.mod_eq_sub_mod hge
      unfold locate_final_sector_loop
      rw [if_pos hge, hnext]
      simp only
      rw [if_neg (by omega), ih next f (offset - reader.sectorSize) hrest
        (by simp only [List.length_cons] at hq; omega) (by omega), hdiv, hmod]
      simp only [List.getD_cons_succ]

/-- A block of the stream stored in a FAT chain that does not cross a sector
boundary is a block of the buffer, inside the sector of the chain that holds it. -/
theorem chain_bytes_block (reader : XLS2IMG_READER) (hss : 0 < reader.sectorSize) :
    ∀ (chain : List Nat) (o c : Nat), is_fat_chain reader chain = true →
      o / reader.sectorSize < chain.length → o % reader.sectorSize + c ≤ reader.sectorSize →
      ((chain_bytes reader chain).drop o).take c =
        (reader.buffer.drop
          (reader.sectorSize * (chain.getD (o / reader.sectorSize) 0 + 1) +
            o % reader.sectorSize)).take c := by
  intro chain
  induction chain with
  | nil => intro o c _ h; simp at h
  | cons s rest ih =>
    intro o c hch hq hc
    obtain ⟨_, hin, _, hrest⟩ := is_fat_chain_cons reader s rest hch
    have hsl := sector_bytes_length reader s hin
    have hcb : chain_bytes reader (s :: rest) = sector_bytes reader s ++ chain_bytes reader rest := by
      simp [chain_bytes]
    rw [hcb]
    by_cases hlt : o < reader.sectorSize
    · rw [Nat.div_eq_of_lt hlt, Nat.mod_eq_of_lt hlt] at *
      rw [List.drop_append_of_le_length (by omega),
        List.take_append_of_le_length (by rw [List.length_drop]; omega)]
      simp only [List.getD_cons_zero, sector_bytes, List.drop_take, List.take_take,
        List.drop_drop]
      rw [Nat.min_eq_left (by omega)]
    · have hge : o ≥ reader.sectorSize := by omega
      have hdiv : o / reader.sectorSize = (o - reader.sectorSize) / reader.sectorSize + 1 :=
        Nat.div_eq_sub_div hss hge
      have hmod : o % reader.sectorSize = (o - reader.sectorSize) % reader.sectorSize :=
        Nat.mod_eq_sub_mod hge
      have hdrop : List.drop o (sector_bytes reader s ++ chain_bytes reader rest) =
          List.drop (o - reader.sectorSize) (chain_bytes reader rest) := by
        rw [List.drop_append_eq_append_drop, hsl, List.drop_of_length_le (by omega)]
        rfl
      rw [hdrop, ih (o - reader.sectorSize) c hrest
        (by simp only [List.length_cons] at hq; omega) (by omega), hdiv, hmod]
      simp only [List.getD_cons_succ]

/-- What `is_mini_fat_chain` says about the first mini sector of a chain. -/
theorem is_mini_fat_chain_cons (reader : XLS2IMG_READER) (container : List Nat) (m : Nat)
    (rest : List Nat) (h : is_mini_fat_chain reader container (m :: rest) = true) :
    m < 0xFFFFFFFA ∧ 64 * (m + 1) ≤ container.length * reader.sectorSize ∧
    (∃ next, xls2img_get_next_mini_sector reader m = .ok next ∧
      ∀ m' rest', rest = m' :: rest' → next = m') ∧
    is_mini_fat_chain reader container rest = true := by
  unfold is_mini_fat_chain at h
  simp only [Bool.and_eq_true, decide_eq_true_eq] at h
  obtain ⟨⟨⟨h1, h2⟩, h3⟩, h4⟩ := h
  refine ⟨h1, h2, ?_, h4⟩
  cases hn : xls2img_get_next_mini_sector reader m with
  | error e => rw [hn] at h3; simp at h3
  | ok next =>
    refine ⟨next, rfl, ?_⟩
    intro m' rest' hr
    rw [hn, hr] at h3
    simpa using h3

/-- A block of 64 bytes at a multiple of 64 does not cross a boundary of sectors
of 512 or 4096 bytes. -/
theorem mini_block_in_sector (ss m : Nat) (hss : ss = 512 ∨ ss = 4096) :
    (64 * m) % ss + 64 ≤ ss := by
  rcases hss with h | h <;> subst h <;> omega

/-- The address of a mini sector that lies inside the mini stream, and its 64
bytes. -/
theorem mini_sector_address (reader : XLS2IMG_READER)
    (hss : reader.sectorSize = 512 ∨ reader.sectorSize = 4096)
    (hmini : reader.minisectorSize = 64) (container : List Nat) (m : Nat)
    (hcont : is_fat_chain reader container = true)
    (hhead : container.head? = some reader.miniStreamStartSector)
    (hm : 64 * (m + 1) ≤ container.length * reader.sectorSize) :
    ∃ src, xls2img_mini_sector_offset_to_address reader m 0 = .ok (some src) ∧
      src + 64 ≤ reader.buffer.length ∧
      mini_sector_bytes reader container m = (reader.buffer.drop src).take 64 := by
  have hpos : 0 < reader.sectorSize := by rcases hss with h | h <;> omega
  have hq : (64 * m) / reader.sectorSize < container.length :=
    (Nat.div_lt_iff_lt_mul hpos).mpr (by omega)
  have hr := mini_block_in_sector reader.sectorSize m hss
  obtain ⟨hs, hin⟩ := is_fat_chain_getD reader container _ hcont hq
  cases container with
  | nil => simp at hq
  | cons s rest =>
    have hs0 : s = reader.miniStreamStartSector := by simpa using hhead
    have hloc := locate_final_sector_loop_chain reader hpos rest s (64 * m) (64 * m) hcont
      (by simp only [List.length_cons] at hq; omega) (Nat.le_refl _)
    have hmul : reader.sectorSize * ((s :: rest).getD (64 * m / reader.sectorSize) 0 + 2) =
        reader.sectorSize + reader.sectorSize * (s :: rest).getD (64 * m / reader.sectorSize) 0 +
          reader.sectorSize := by
      rw [Nat.mul_add]; omega
    have hmul1 : reader.sectorSize * ((s :: rest).getD (64 * m / reader.sectorSize) 0 + 1) =
        reader.sectorSize + reader.sectorSize * (s :: rest).getD (64 * m / reader.sectorSize) 0 := by
      rw [Nat.mul_add]; omega
    refine ⟨reader.sectorSize * ((s :: rest).getD (64 * m / reader.sectorSize) 0 + 1) +
      (64 * m) % reader.sectorSize, ?_, by omega, ?_⟩
    · unfold xls2img_mini_sector_offset_to_address xls2img_locate_final_sector
      rw [hmini, ← hs0, Nat.add_zero, Nat.mul_comm m 64, hloc]
      simp only
      unfold xls2img_sector_offset_to_address
      rw [if_neg (by omega)]
      simp only
      rw [if_neg (by omega), hmul1]
    · unfold mini_sector_bytes
      exact chain_bytes_block reader hpos (s :: rest) (64 * m) 64 hcont hq hr

/-- One iteration of the loop of `xls2img_read_mini_stream` at the start of a mini
sector that lies inside the mini stream and whose mini-FAT entry can be read. -/
theorem read_mini_stream_loop_step (reader : XLS2IMG_READER)
    (hss : reader.sectorSize = 512 ∨ reader.sectorSize = 4096)
    (hmini : reader.minisectorSize = 64) (container : List Nat)
    (hcont : is_fat_chain reader container = true)
    (hhead : container.head? = some reader.miniStreamStartSector)
    (m fuel len next : Nat) (hm : 64 * (m + 1) ≤ container.length * reader.sectorSize)
    (hnext : xls2img_get_next_mini_sector reader m = .ok next) (hl : 0 < len) :
    read_mini_stream_loop reader (fuel + 1) m 0 len =
      if next = 0xFFFFFFFE ∨ next = 0xFFFFFFFF then
        .ok ((mini_sector_bytes reader container m).take len)
      else
        match read_mini_stream_loop reader fuel next 0 (len - 64) with
        | .error e => .error e
        | .ok more => .ok ((mini_sector_bytes reader container m).take len ++ more) := by
  obtain ⟨src, haddr, hsrc, hbytes⟩ :=
    mini_sector_address reader hss hmini container m hcont hhead hm
  have hz : ∀ f n, read_mini_stream_loop reader f n 0 0 = .ok [] := by
    intro f n; cases f <;> simp [read_mini_stream_loop]
  have hroom : (reader.minisectorSize + 2 ^ 64 - 0) % 2 ^ 64 = 64 := by
    rw [hmini]; rfl
  conv_lhs => unfold read_mini_stream_loop
  rw [if_pos hl, haddr]
  simp only [hroom, hnext]
  by_cases hlt : len < 64
  · have hb : ¬ reader.buffer.length < src + len := by omega
    have htake : List.take len (mini_sector_bytes reader container m) =
        List.take len (List.drop src reader.buffer) := by
      rw [hbytes, List.take_take, Nat.min_eq_left (by omega)]
    have hsub : len - 64 = 0 := by omega
    simp only [hlt, if_true, hb, if_false, Nat.sub_self, hz, hsub, htake]
  · have hb : ¬ reader.buffer.length < src + 64 := by omega
    have htake : List.take len (mini_sector_bytes reader container m) =
        List.take 64 (List.drop src reader.buffer) := by
      rw [hbytes, List.take_take, Nat.min_eq_right (by omega)]
    simp only [hlt, if_false, hb, htake]

/-- The loop of `xls2img_read_mini_stream`, run from the first mini sector of a
mini-FAT chain that is long enough, copies the first `len` bytes of the
concatenated 64-byte blocks. -/
theorem read_mini_stream_loop_chain (reader : XLS2IMG_READER)
    (hss : reader.sectorSize = 512 ∨ reader.sectorSize = 4096)
    (hmini : reader.minisectorSize = 64) (container : List Nat)
    (hcont : is_fat_chain reader container = true)
    (hhead : container.head? = some reader.miniStreamStartSector) :
    ∀ (rest : List Nat) (m fuel len : Nat),
      is_mini_fat_chain reader container (m :: rest) = true →
      len ≤ (rest.length + 1) * 64 → len ≤ fuel →
      read_mini_stream_loop reader fuel m 0 len =
        .ok ((((m :: rest).map (mini_sector_bytes reader container)).flatten).take len) := by
  have hz : ∀ f n, read_mini_stream_loop reader f n 0 0 = .ok [] := by
    intro f n; cases f <;> simp [read_mini_stream_loop]
  intro rest
  induction rest with
  | nil =>
    intro m fuel len hch hlen hfuel
    obtain ⟨_, hm, ⟨next, hnext, _⟩, _⟩ := is_mini_fat_chain_cons reader container m [] hch
    by_cases hl : 0 < len
    · obtain ⟨f, rfl⟩ : ∃ f, fuel = f + 1 := ⟨fuel - 1, by omega⟩
      rw [read_mini_stream_loop_step reader hss hmini container hcont hhead m f len next hm
        hnext hl]
      have hsub : len - 64 = 0 := by
        simp only [List.length_nil, Nat.zero_add, Nat.one_mul] at hlen; omega
      simp only [hsub, hz, List.append_nil, List.map_cons, List.map_nil, List.flatten_cons,
        List.flatten_nil, ite_self]
    · have : len = 0 := by omega
      subst this
      simp [hz]
  | cons m' rest ih =>
    intro m fuel len hch hlen hfuel
    obtain ⟨_, hm, ⟨next, hnext, hlink⟩, hrest⟩ :=
      is_mini_fat_chain_cons reader container m (m' :: rest) hch
    have hnx : next = m' := hlink m' rest rfl
    subst hnx
    obtain ⟨hs', _, _, _⟩ := is_mini_fat_chain_cons reader container next rest hrest
    obtain ⟨src, _, hsrc, hbytes⟩ :=
      mini_sector_address reader hss hmini container m hcont hhead hm
    have hsl : (mini_sector_bytes reader container m).length = 64 := by
      rw [hbytes, List.length_take, List.length_drop]; omega
    by_cases hl : 0 < len
    · obtain ⟨f, rfl⟩ : ∃ f, fuel = f + 1 := ⟨fuel - 1, by omega⟩
      rw [read_mini_stream_loop_step reader hss hmini container hcont hhead m f len next hm
        hnext hl, if_neg (by omega)]
      have hlen' : len - 64 ≤ (rest.length + 1) * 64 := by
        simp only [List.length_cons] at hlen
        omega
      rw [ih next f (len - 64) hrest hlen' (by omega)]
      simp only [List.map_cons, List.flatten_cons]
      have h1 : ∀ X : List Byte, List.take len (mini_sector_bytes reader container m ++ X) =
          List.take len (mini_sector_bytes reader container m) ++ List.take (len - 64) X := by
        intro X
        rw [List.take_append_eq_append_take, hsl]
      rw [h1]
    · have : len = 0 := by omega
      subst this
      simp [hz]

/-- The function `xls2img_get_entry` along a directory chain that is long enough
for entry `k`: the entry at file offset `pos`, in the chain sector that holds
directory-stream offset `128 * k`, is returned when `pos + 128` is below the
buffer length, and `NULL` is returned otherwise. -/
theorem xls2img_get_entry_chain (reader : XLS2IMG_READER) (hss : 0 < reader.sectorSize)
    (chain : List Nat) (k : Nat) (hk : k ≠ 0xFFFFFFFF)
    (hch : is_fat_chain reader chain = true)
    (hhead : chain.head? = some (hdr_firstDirectorySectorLocation reader.buffer))
    (hq : k * 128 / reader.sectorSize < chain.length) :
    xls2img_get_entry reader k =
      if reader.buffer.length ≤
          reader.sectorSize * (chain.getD (k * 128 / reader.sectorSize) 0 + 1) +
            k * 128 % reader.sectorSize + 128 then .ok none
      else .ok (some (reader.sectorSize * (chain.getD (k * 128 / reader.sectorSize) 0 + 1) +
        k * 128 % reader.sectorSize)) := by
  cases chain with
  | nil => simp at hq
  | cons s rest =>
    have hs0 : s = hdr_firstDirectorySectorLocation reader.buffer := by simpa using hhead
    have hloc := locate_final_sector_loop_chain reader hss rest s (k * 128) (k * 128) hch
      (by simp only [List.length_cons] at hq; omega) (Nat.le_refl _)
    have hmul1 : reader.sectorSize * ((s :: rest).getD (k * 128 / reader.sectorSize) 0 + 1) =
        reader.sectorSize + reader.sectorSize * (s :: rest).getD (k * 128 / reader.sectorSize) 0 := by
      rw [Nat.mul_add]; omega
    unfold xls2img_get_entry xls2img_locate_final_sector
    rw [if_neg hk, ← hs0]
    simp only [sizeof_COMPOUND_FILE_ENTRY]
    rw [hloc]
    simp only
    rw [hmul1]

/-- The loop of `xls2img_locate_final_sector` on a FAT chain that ends with a
sentinel before the offset is reached: the pair returned is the last sector of the
chain and the offset reduced by the length of the chain, which can be below the
sector size. -/
theorem locate_final_sector_loop_truncated (reader : XLS2IMG_READER)
    (hss : 0 < reader.sectorSize) :
    ∀ (rest : List Nat) (s fuel offset last : Nat), is_fat_chain reader (s :: rest) = true →
      (s :: rest).getLast? = some last →
      (xls2img_get_next_sector reader last = .ok 0xFFFFFFFE ∨
        xls2img_get_next_sector reader last = .ok 0xFFFFFFFF) →
      (rest.length + 1) * reader.sectorSize ≤ offset → offset ≤ fuel →
      locate_final_sector_loop reader fuel s offset =
        .ok (last, offset - (rest.length + 1) * reader.sectorSize) := by
  intro rest
  induction rest with
  | nil =>
    intro s fuel offset last hch hlast hend hoff hf
    have hl : s = last := by simpa using hlast
    subst hl
    simp only [List.length_nil, Nat.zero_add, Nat.one_mul] at hoff ⊢
    obtain ⟨f, rfl⟩ : ∃ f, fuel = f + 1 := ⟨fuel - 1, by omega⟩
    unfold locate_final_sector_loop
    rw [if_pos (by omega)]
    rcases hend with h | h <;> rw [h] <;> simp
  | cons s' rest ih =>
    intro s fuel offset last hch hlast hend hoff hf
    obtain ⟨_, _, ⟨next, hnext, hlink⟩, hrest⟩ := is_fat_chain_cons reader s (s' :: rest) hch
    have hnx : next = s' := hlink s' rest rfl
    subst hnx
    obtain ⟨hs', _, _, _⟩ := is_fat_chain_cons reader next rest hrest
    have hlast' : (next :: rest).getLast? = some last := by
      simpa [List.getLast?_cons_cons] using hlast
    simp only [List.length_cons] at hoff ⊢
    have hoff2 : (rest.length + 1 + 1) * reader.sectorSize =
        (rest.length + 1) * reader.sectorSize + reader.sectorSize := by
      rw [Nat.add_mul, Nat.one_mul]
    obtain ⟨f, rfl⟩ : ∃ f, fuel = f + 1 := ⟨fuel - 1, by omega⟩
    unfold locate_final_sector_loop
    rw [if_pos (by omega), hnext]
    simp only
    rw [if_neg (by omega), ih next f (offset - reader.sectorSize) last hrest hlast' hend
      (by omega) (by omega), hoff2]
    congr 2
    omega

/-- When the loop bound of `xls2img_find_next_header` lies beyond the last index
the loop can reach, the loop does not end with "no header": it returns a position
or reads outside the data. -/
theorem find_next_header_loop_not_none (data : List Byte) (size bound : Nat) :
    ∀ (fuel i : Nat), i + fuel < bound →
      find_next_header_loop data size bound fuel i ≠ .ok none := by
  intro fuel
  induction fuel with
  | zero =>
    intro i h
    unfold find_next_header_loop
    rw [if_pos (by omega)]
    intro hc; cases hc
  | succ f ih =>
    intro i h
    unfold find_next_header_loop
    rw [if_pos (by omega)]
    cases hh : header_here data size i with
    | error e => intro hc; cases hc
    | ok b =>
      cases b with
      | true => intro hc; cases hc
      | false => exact ih (i + 1) (by omega)

/-- On a blob of fewer than 9 bytes `xls2img_find_next_header` never reports that
there is no image start: `size - 9` wraps around and the loop runs until it
returns a position or reads outside the blob. -/
theorem xls2img_find_next_header_short (blob : List Byte) (h : blob.length < 9) :
    xls2img_find_next_header blob blob.length ≠ .ok none := by
  unfold xls2img_find_next_header
  apply find_next_header_loop_not_none
  unfold size_t_sub
  rw [if_neg (by omega)]
  omega

/-! ## Claims C21 to C30 -/

/-- C21: for every blob of length `n ≥ 9`, `xls2img_find_next_header` returns, and
what it returns is the smallest position `r` with `r + 9 < n` at which the blob
holds an image start (the PNG signature, or `FF D8 FF E0` with `JFIF` at `r + 6`,
or `FF D8 FF E1` with `Exif` at `r + 6`); it returns no position exactly when
there is no such position. -/
theorem c21_find_next_header_smallest (blob : List Byte) (hn : 9 ≤ blob.length) :
    ∃ o, xls2img_find_next_header blob blob.length = .ok o ∧
      (∀ r, o = some r ↔
        (r + 9 < blob.length ∧ isImageStart blob r ∧
          ∀ k, k < r → ¬ isImageStart blob k)) ∧
      (o = none ↔ ∀ k, k + 9 < blob.length → ¬ isImageStart blob k) := by
  by_cases hex : ∃ k, k + 9 < blob.length ∧ isImageStart blob k
  · classical
    have hmin := Nat.find_spec hex
    have hlt : ∀ k, k < Nat.find hex → ¬ (k + 9 < blob.length ∧ isImageStart blob k) :=
      fun k hk => Nat.find_min hex hk
    have hno : ∀ k, k < Nat.find hex → ¬ isImageStart blob k := by
      intro k hk hc
      exact hlt k hk ⟨by omega, hc⟩
    refine ⟨some (Nat.find hex),
      xls2img_find_next_header_some blob _ hmin.1 hmin.2 hno, ?_, ?_⟩
    · intro r
      constructor
      · intro h
        simp only [Option.some.injEq] at h
        subst h
        exact ⟨hmin.1, hmin.2, hno⟩
      · rintro ⟨h1, h2, h3⟩
        simp only [Option.some.injEq]
        rcases Nat.lt_trichotomy (Nat.find hex) r with hc | hc | hc
        · exact absurd hmin.2 (h3 _ hc)
        · exact hc
        · exact absurd h2 (hno _ hc)
    · constructor
      · intro h; cases h
      · intro h
        exact absurd hmin.2 (h _ hmin.1)
  · have hno : ∀ k, k + 9 < blob.length → ¬ isImageStart blob k := by
      intro k hk hc
      exact hex ⟨k, hk, hc⟩
    refine ⟨none, xls2img_find_next_header_none blob hn hno, ?_, ?_⟩
    · intro r
      constructor
      · intro h; cases h
      · rintro ⟨h1, h2, _⟩
        exact absurd h2 (hno r h1)
    · exact ⟨fun _ => hno, fun _ => rfl⟩

/-- C21 on `c8_blob` (85 bytes): the bare `FF D8` pair at offset 0 is no image
start, the first one is the Exif header at offset 4. -/
theorem c21_find_next_header_smallest_witness :
    xls2img_find_next_header c8_blob c8_blob.length = .ok (some 4) ∧
    ∃ o, xls2img_find_next_header c8_blob c8_blob.length = .ok o ∧
      (∀ r, o = some r ↔
        (r + 9 < c8_blob.length ∧ isImageStart c8_blob r ∧
          ∀ k, k < r → ¬ isImageStart c8_blob k)) ∧
      (o = none ↔ ∀ k, k + 9 < c8_blob.length → ¬ isImageStart c8_blob k) :=
  ⟨by decide, c21_find_next_header_smallest c8_blob (by decide)⟩

/-- C22 (code defect): `c22_blob` is a JFIF JPEG of `2^31 + 1` bytes; with the
pending JPEG start `P = 0` and the bound `B = 2^31 + 1` (the end of the blob), the
largest index `i` with `P ≤ i ≤ B - 2` that holds `FF D9` is `2^31 - 1`, so the
length `(i + 2) - P` is `2^31 + 1`.  The conversion of that length to `int` gives
`-(2^31 - 1)`: `xls2img_find_jpg_end` returns a negative value although the index
exists, and the JPEG is not emitted. -/
theorem c22_wide_jpeg_is_dropped :
    c22_blob.length = 2 ^ 31 + 1 ∧
    isJpegStart c22_blob 0 ∧
    hasEoiAt c22_blob (2 ^ 31 - 1) ∧
    (∀ j, 2 ^ 31 - 1 < j → ¬ hasEoiAt c22_blob j) ∧
    2 ^ 31 - 1 + 2 - 0 = 2 ^ 31 + 1 ∧
    xls2img_find_jpg_end c22_blob (2 ^ 31 + 1) 0 = .ok (-2147483647) ∧
    process_last_image_if_any c22_blob (some (0, XLS2IMG_JPG)) [] (2 ^ 31 + 1) = .ok [] := by
  have hc : int_cast ((12 + (2 ^ 31 - 11) : Nat) : Int) = -2147483647 := by decide
  have hblob : c22_blob = jpeg_file false 0x00 0x10 (List.replicate (2 ^ 31 - 11) 0) := rfl
  have hlen : (jpeg_file false 0x00 0x10 (List.replicate (2 ^ 31 - 11) 0)).length =
      2 ^ 31 + 1 := by
    rw [jpeg_file_length, List.length_replicate]
    norm_num
  have hend : xls2img_find_jpg_end c22_blob (2 ^ 31 + 1) 0 = .ok (-2147483647) := by
    have h := xls2img_find_jpg_end_jpeg_file [] [] false 0x00 0x10
      (List.replicate (2 ^ 31 - 11) 0) (no_eoi_of_bounded _ (fun q hq => by simp at hq))
    simp only [List.nil_append, List.append_nil, List.length_nil] at h
    rw [hlen] at h
    rw [hblob, h]
    have hc1 : int_cast ((2 ^ 31 + 1 : Nat) : Int) = -2147483647 := by decide
    rw [hc1]
  have hproc : process_last_image_if_any c22_blob (some (0, XLS2IMG_JPG)) [] (2 ^ 31 + 1) =
      .ok [] := by
    have h := process_last_jpeg_file_cast [] [] [] false 0x00 0x10
      (List.replicate (2 ^ 31 - 11) 0) (no_eoi_of_bounded _ (fun q hq => by simp at hq))
    simp only [List.nil_append, List.append_nil, List.length_nil] at h
    rw [hlen] at h
    have hc1 : int_cast ((2 ^ 31 + 1 : Nat) : Int) = -2147483647 := by decide
    rw [hc1, if_neg (by decide)] at h
    rw [hblob, h]
  refine ⟨?_, ?_, ?_, ?_, by decide, hend, hproc⟩
  · rw [hblob, hlen]
  · have h := jpeg_file_isJpegStart [] [] false 0x00 0x10 (List.replicate (2 ^ 31 - 11) 0)
    simp only [List.nil_append, List.append_nil, List.length_nil] at h
    exact h
  · have h := zero_body_jpeg_eoi (2 ^ 31 - 11)
    exact h
  · intro j hj
    exact zero_body_jpeg_last_eoi (2 ^ 31 - 11) j (by omega)

/-- For every blob, pending JPEG start `P` and bound `B` inside the blob with
`B - P` below `2^31`: if `i` is the largest index with `P ≤ i ≤ B - 2` at which
the blob holds `FF D9`, `xls2img_find_jpg_end` yields the length `(i + 2) - P` and
`process_last_image_if_any` emits the `(i + 2) - P` bytes from `P`; if there is no
such index, the result is -1 and no image is emitted. -/
theorem jpg_end_is_last_eoi_before_bound (blob : List Byte) (P B : Nat)
    (images : List Emitted) (hB : B ≤ blob.length) (hsmall : B - P < 2 ^ 31) :
    (∀ i, P ≤ i → i + 2 ≤ B → hasEoiAt blob i →
      (∀ j, i < j → j + 2 ≤ B → ¬ hasEoiAt blob j) →
      xls2img_find_jpg_end blob B P = .ok ((i + 2 - P : Nat) : Int) ∧
      process_last_image_if_any blob (some (P, XLS2IMG_JPG)) images B =
        .ok (images ++ [⟨P, ⟨XLS2IMG_JPG, i + 2 - P, (blob.drop P).take (i + 2 - P)⟩⟩])) ∧
    ((∀ i, P ≤ i → i + 2 ≤ B → ¬ hasEoiAt blob i) →
      xls2img_find_jpg_end blob B P = .ok (-1) ∧
      process_last_image_if_any blob (some (P, XLS2IMG_JPG)) images B = .ok images) := by
  constructor
  · intro i hPi hiB hi hmax
    have hend : xls2img_find_jpg_end blob B P = .ok ((i + 2 - P : Nat) : Int) := by
      unfold xls2img_find_jpg_end
      rw [find_jpg_end_loop_found blob P i hi hPi (B - 1 - P) (by omega) (by omega)
        (fun j h1 h2 => hmax j h1 (by omega))]
      simp only
      rw [int_cast_natCast _ (by omega)]
    refine ⟨hend, ?_⟩
    simp only [process_last_image_if_any, hend]
    have hpos : ((i + 2 - P : Nat) : Int) > 0 := by
      have : 0 < i + 2 - P := by omega
      exact_mod_cast this
    rw [if_pos hpos]
    simp only [Int.toNat_ofNat, add_image_to_result]
    rw [if_pos (by omega)]
  · intro hno
    have hend : xls2img_find_jpg_end blob B P = .ok (-1) := by
      unfold xls2img_find_jpg_end
      rw [find_jpg_end_loop_none blob P (B - 1 - P) (by omega)
        (fun j h1 h2 => hno j h1 (by omega))]
      simp only
      rw [int_cast_neg_one]
    refine ⟨hend, ?_⟩
    simp only [process_last_image_if_any, hend]
    rfl

/-- The blob `c8_blob` with the pending JPEG at offset 4 and the bound 18 (the
start of the PNG): the last `FF D9` before the bound is at offset 16, so the
length is 14. -/
theorem jpg_end_is_last_eoi_before_bound_example :
    xls2img_find_jpg_end c8_blob 18 4 = .ok 14 ∧
    xls2img_find_jpg_end c8_blob 16 4 = .ok (-1) ∧
    (∀ i, 4 ≤ i → i + 2 ≤ 18 → hasEoiAt c8_blob i →
      (∀ j, i < j → j + 2 ≤ 18 → ¬ hasEoiAt c8_blob j) →
      xls2img_find_jpg_end c8_blob 18 4 = .ok ((i + 2 - 4 : Nat) : Int) ∧
      process_last_image_if_any c8_blob (some (4, XLS2IMG_JPG)) [] 18 =
        .ok ([] ++ [⟨4, ⟨XLS2IMG_JPG, i + 2 - 4, (c8_blob.drop 4).take (i + 2 - 4)⟩⟩])) ∧
    ((∀ i, 4 ≤ i → i + 2 ≤ 18 → ¬ hasEoiAt c8_blob i) →
      xls2img_find_jpg_end c8_blob 18 4 = .ok (-1) ∧
      process_last_image_if_any c8_blob (some (4, XLS2IMG_JPG)) [] 18 = .ok []) :=
  ⟨by decide, by decide,
    jpg_end_is_last_eoi_before_bound c8_blob 4 18 [] (by decide) (by decide)⟩

/-- C23 (code defect): in `c23_blob` the first image start after offset 0 is at
offset 16, so the PNG pending at offset 0 is finalised against the bound 16.
`xls2img_find_png_end` meets the `IEND` type at offset 12 with 8 bytes left before
the bound and returns 20, and the image is emitted with 20 bytes from offset 0:
it runs 4 bytes past the next image start and overlaps the image emitted from
offset 16. -/
theorem c23_png_runs_past_next_start :
    isImageStart c23_blob 16 ∧
    (∀ k, k < 16 → 0 < k → ¬ isImageStart c23_blob k) ∧
    xls2img_find_png_end c23_blob 16 = .ok 20 ∧
    scan_drawing_group c23_blob =
      .ok [⟨0, ⟨XLS2IMG_PNG, 20, c23_blob.take 20⟩⟩, ⟨16, ⟨XLS2IMG_PNG, 67, c2_png⟩⟩] ∧
    ¬ (0 + 20 ≤ 16) ∧
    xls2img_extract_images c23_workbook ⟨[], 0⟩ =
      .ok (2, ⟨[⟨XLS2IMG_PNG, 20, c23_blob.take 20⟩, ⟨XLS2IMG_PNG, 67, c2_png⟩], 2⟩) := by
  refine ⟨by decide, by decide, by decide, by decide, by decide, by decide⟩

/-- C24 (code defect): in the workbook `MsoDrawingGroup(p1)`,
`MsoDrawingGroup(p2)`, `EOF`, with `p1` the small PNG and `p2` the small Exif
JPEG, the scanner finds the PNG in `p1` and the JPEG in `p2`.  The second
`MsoDrawingGroup` record is met while collecting: it frees the collector and
starts again with its own payload, so the first group is never handed to the
scanner, and `xls2img_extract_images` returns 1 with the JPEG alone instead of 2
with the PNG followed by the JPEG.  The state of the record walk after the second
record holds `p2` only and no image. -/
theorem c24_second_drawing_group_discards_first :
    scan_drawing_group c2_png = .ok [⟨0, ⟨XLS2IMG_PNG, 67, c2_png⟩⟩] ∧
    scan_drawing_group c4_jpeg = .ok [⟨0, ⟨XLS2IMG_JPG, 14, c4_jpeg⟩⟩] ∧
    record_loop
        (encode_records [⟨BIFF8_MsoDrawingGroup, c2_png⟩,
          ⟨BIFF8_MsoDrawingGroup, c4_jpeg⟩]).length
        (encode_records [⟨BIFF8_MsoDrawingGroup, c2_png⟩, ⟨BIFF8_MsoDrawingGroup, c4_jpeg⟩])
        ⟨false, buffer_collector_init, []⟩ =
      .ok ⟨true, ⟨c4_jpeg, 28⟩, []⟩ ∧
    xls2img_extract_images
        (encode_records [⟨BIFF8_MsoDrawingGroup, c2_png⟩, ⟨BIFF8_MsoDrawingGroup, c4_jpeg⟩,
          eof_record]) ⟨[], 0⟩ =
      .ok (1, ⟨[⟨XLS2IMG_JPG, 14, c4_jpeg⟩], 1⟩) := by
  refine ⟨by decide, by decide, by decide, by decide⟩

/-- While a drawing group is being collected, a record that is neither `Continue`
nor `MsoDrawingGroup` flushes the collected bytes to the image scanner, and an
`MsoDrawingGroup` record restarts the collection with its own payload, without
the bytes collected so far being scanned.  So for all
non-empty payloads `p1`, `p2` and records `x`, `y` that are neither `Continue` nor
`MsoDrawingGroup`: the workbook `MsoDrawingGroup(p1), MsoDrawingGroup(p2), x`
yields the images found in `p2` only, and the workbook `MsoDrawingGroup(p1), y,
MsoDrawingGroup(p2), x` yields the images found in `p1` followed by those found in
`p2`. -/
theorem second_drawing_group_restarts (p1 p2 : List Byte) (x y : Record)
    (f1 f2 : List Emitted) (res0 : XLS2IMG_RESULT)
    (hp1 : p1.length < 65536) (hp2 : p2.length < 65536)
    (hx : x.valid ∧ x.type ≠ BIFF8_CONTINUE ∧ x.type ≠ BIFF8_MsoDrawingGroup)
    (hy : y.valid ∧ y.type ≠ BIFF8_CONTINUE ∧ y.type ≠ BIFF8_MsoDrawingGroup)
    (hne1 : p1 ≠ []) (hne2 : p2 ≠ [])
    (hs1 : scan_drawing_group p1 = .ok f1) (hs2 : scan_drawing_group p2 = .ok f2) :
    xls2img_extract_images
        (encode_records [⟨BIFF8_MsoDrawingGroup, p1⟩, ⟨BIFF8_MsoDrawingGroup, p2⟩, x]) res0 =
      .ok (extract_outcome (f2.map Emitted.image)) ∧
    xls2img_extract_images
        (encode_records [⟨BIFF8_MsoDrawingGroup, p1⟩, y, ⟨BIFF8_MsoDrawingGroup, p2⟩, x])
        res0 =
      .ok (extract_outcome ((f1 ++ f2).map Emitted.image)) := by
  have hty : BIFF8_MsoDrawingGroup < 65536 := by decide
  have hm1 : (⟨BIFF8_MsoDrawingGroup, p1⟩ : Record).valid := ⟨hty, hp1⟩
  have hm2 : (⟨BIFF8_MsoDrawingGroup, p2⟩ : Record).valid := ⟨hty, hp2⟩
  have hl1 : p1.length > 0 := List.length_pos.mpr hne1
  have hl2 : p2.length > 0 := List.length_pos.mpr hne2
  constructor
  · rw [xls2img_extract_images_records _ _ (by
      intro r hr
      simp only [List.mem_cons, List.mem_singleton, List.not_mem_nil, or_false] at hr
      rcases hr with rfl | rfl | rfl
      · exact hm1
      · exact hm2
      · exact hx.1) (by simp)]
    simp [walk_records, record_step, hx.2.1, hx.2.2, flush_collector, hl2, hs2]
  · rw [xls2img_extract_images_records _ _ (by
      intro r hr
      simp only [List.mem_cons, List.mem_singleton, List.not_mem_nil, or_false] at hr
      rcases hr with rfl | rfl | rfl | rfl
      · exact hm1
      · exact hy.1
      · exact hm2
      · exact hx.1) (by simp)]
    simp [walk_records, record_step, hx.2.1, hx.2.2, hy.2.1, hy.2.2, flush_collector, hl1, hl2,
      hs1, hs2, buffer_collector_init]

/-- The two workbooks of `second_drawing_group_restarts` on the small PNG and the
small Exif JPEG, with `BOF` and `EOF` as the two other records. -/
theorem second_drawing_group_restarts_example :
    xls2img_extract_images
        (encode_records [⟨BIFF8_MsoDrawingGroup, c2_png⟩, ⟨BIFF8_MsoDrawingGroup, c4_jpeg⟩,
          eof_record]) ⟨[], 0⟩ =
      .ok (extract_outcome
        (([⟨0, ⟨XLS2IMG_JPG, 14, c4_jpeg⟩⟩] : List Emitted).map Emitted.image)) ∧
    xls2img_extract_images
        (encode_records [⟨BIFF8_MsoDrawingGroup, c2_png⟩, bof_record,
          ⟨BIFF8_MsoDrawingGroup, c4_jpeg⟩, eof_record]) ⟨[], 0⟩ =
      .ok (extract_outcome
        ((([⟨0, ⟨XLS2IMG_PNG, 67, c2_png⟩⟩] : List Emitted) ++
          ([⟨0, ⟨XLS2IMG_JPG, 14, c4_jpeg⟩⟩] : List Emitted)).map Emitted.image)) :=
  second_drawing_group_restarts c2_png c4_jpeg eof_record bof_record
    ([⟨0, ⟨XLS2IMG_PNG, 67, c2_png⟩⟩] : List Emitted)
    ([⟨0, ⟨XLS2IMG_JPG, 14, c4_jpeg⟩⟩] : List Emitted) ⟨[], 0⟩
    (by decide) (by decide) (by decide) (by decide) (by decide) (by decide)
    (by decide) (by decide)

/-- C25 (code defect): an `MsoDrawingGroup` record, and a `Continue` record met
while collecting, whose declared size (16) exceeds the bytes that remain after
its header (2) is copied before the walk tests `ptr > end_ptr`: the `memcpy` of 16
bytes reads 14 bytes past the end of the workbook buffer.  A record of another
type with the same header is not copied, and the walk stops. -/
theorem c25_oversized_record_is_copied :
    record_loop c25_mso_workbook.length c25_mso_workbook ⟨false, buffer_collector_init, []⟩ =
      .error .outOfBounds ∧
    xls2img_extract_images c25_mso_workbook ⟨[], 0⟩ = .error .outOfBounds ∧
    xls2img_extract_images c25_continue_workbook ⟨[], 0⟩ = .error .outOfBounds ∧
    xls2img_extract_images c25_other_workbook ⟨[], 0⟩ =
      .ok (XLS2IMG_ERROR_NO_IMAGES, ⟨[], 0⟩) := by
  refine ⟨by decide, by decide, by decide, by decide⟩

/-- C26 (code defect): `c26_cfb` is a file of 1538 bytes that `xls2img_open`
accepts; its header names sector 2 as the first DIFAT sector, and only two bytes
of that sector are in the file.  For `N = 109` the value is entry 0 of that DIFAT
sector, at file offset 1536.  The four bytes of that entry do not lie in the
buffer, so the specified result is `0xFFFFFFFF`; the range test of
`xls2img_sector_offset_to_address` looks at the first byte only and accepts the
address, and the function reads the bytes 1536 to 1539, two of them past the end
of the buffer, instead of returning `0xFFFFFFFF`. -/
theorem c26_difat_entry_read_past_buffer_end :
    xls2img_open c26_cfb = .ok (XLS2IMG_SUCCESS, some c26_reader) ∧
    c26_cfb.length = 1538 ∧
    hdr_firstDIFATSectorLocation c26_cfb = 2 ∧
    (109 - 109) / (c26_reader.sectorSize / 4 - 1) = 0 ∧
    4 * ((109 - 109) % (c26_reader.sectorSize / 4 - 1)) = 0 ∧
    xls2img_sector_offset_to_address c26_reader 2 0 = some 1536 ∧
    sector_u32 c26_reader 2 0 = none ∧
    spec_fat_sector_location c26_reader 109 = 0xFFFFFFFF ∧
    parse_uint32 c26_cfb 1536 = .error .outOfBounds ∧
    xls2img_get_fat_sector_location c26_reader 109 = .error .outOfBounds := by
  refine ⟨by decide!, by decide!, by decide!, by decide!, by decide!, by decide!, by decide!,
    by decide!, by decide!, by decide!⟩

/-- For every reader with sector size 512 or 4096 and every `N`,
`xls2img_get_fat_sector_location` returns the value of the specification:
`headerDIFAT[N]` when `N < 109`; else, with `E = sectorSize / 4 - 1`, the
little-endian value at byte offset `4 * ((N - 109) mod E)` of the DIFAT sector
reached after `(N - 109) div E` links from `firstDIFATSectorLocation`, the link
being the last 4 bytes of each DIFAT sector, and `0xFFFFFFFF` when an address on
that path is out of range.  The only other outcome is a read that crosses the end
of the buffer, which needs a buffer length that is no multiple of 4. -/
theorem fat_sector_resolution (reader : XLS2IMG_READER) (N : Nat)
    (hss : reader.sectorSize = 512 ∨ reader.sectorSize = 4096) :
    (xls2img_get_fat_sector_location reader N = .ok (spec_fat_sector_location reader N) ∨
      xls2img_get_fat_sector_location reader N = .error .outOfBounds) ∧
    (4 ∣ reader.buffer.length →
      xls2img_get_fat_sector_location reader N = .ok (spec_fat_sector_location reader N)) := by
  have h4 : 4 ∣ reader.sectorSize := by
    rcases hss with h | h <;> rw [h]
    · exact ⟨128, rfl⟩
    · exact ⟨1024, rfl⟩
  have hE : 0 < reader.sectorSize / 4 - 1 := by
    rcases hss with h | h <;> rw [h] <;> decide
  have key : xls2img_get_fat_sector_location reader N =
        .ok (spec_fat_sector_location reader N) ∨
      (xls2img_get_fat_sector_location reader N = .error .outOfBounds ∧
        ¬ 4 ∣ reader.buffer.length) := by
    unfold xls2img_get_fat_sector_location spec_fat_sector_location
    by_cases hN : N < 109
    · rw [if_pos hN, if_pos hN]
      exact Or.inl rfl
    · rw [if_neg hN, if_neg hN]
      simp only
      rcases difat_loop_spec reader h4 _ hE (N - 109 + 1) (N - 109)
          (hdr_firstDIFATSectorLocation reader.buffer) (by omega) with hl | ⟨hl, hn⟩
      · rw [hl]
        cases hc : difat_chain_sector reader ((N - 109) / (reader.sectorSize / 4 - 1))
            (hdr_firstDIFATSectorLocation reader.buffer) with
        | none => exact Or.inl rfl
        | some d' =>
          simp only [Option.map_some']
          rcases address_read_spec reader h4 d' ((N - 109) % (reader.sectorSize / 4 - 1) * 4)
              (Dvd.intro_left _ rfl) with ⟨ha, hs⟩ | ⟨pos, v, ha, hp, hs⟩ | ⟨pos, ha, hp, hn⟩
          · left
            rw [Nat.mul_comm] at hs
            simp only [ha, hs, Option.getD_none]
          · left
            rw [Nat.mul_comm] at hs
            simp only [ha, hp, hs, Option.getD_some]
          · right
            simp only [ha, hp]
            exact ⟨trivial, hn⟩
      · right
        rw [hl]
        exact ⟨rfl, hn⟩
  constructor
  · rcases key with h | ⟨h, _⟩
    · exact Or.inl h
    · exact Or.inr h
  · intro hal
    rcases key with h | ⟨_, hn⟩
    · exact h
    · exact absurd hal hn

/-- The file `difat_cfb` for `N = 238 = 109 + 127 + 2`: one link leads from DIFAT
sector 0 to DIFAT sector 1, whose entry 2 is 202. -/
theorem fat_sector_resolution_example :
    xls2img_get_fat_sector_location difat_reader 238 = .ok 202 ∧
    spec_fat_sector_location difat_reader 238 = 202 ∧
    xls2img_get_fat_sector_location difat_reader 0 = .ok 5 ∧
    xls2img_get_fat_sector_location difat_reader 112 = .ok 103 ∧
    xls2img_get_fat_sector_location difat_reader 363 = .ok 0xFFFFFFFF ∧
    (xls2img_get_fat_sector_location difat_reader 238 =
        .ok (spec_fat_sector_location difat_reader 238) ∨
      xls2img_get_fat_sector_location difat_reader 238 = .error .outOfBounds) ∧
    (4 ∣ difat_reader.buffer.length →
      xls2img_get_fat_sector_location difat_reader 238 =
        .ok (spec_fat_sector_location difat_reader 238)) :=
  ⟨by decide!, by decide!, by decide!, by decide!, by decide!,
    fat_sector_resolution difat_reader 238 (Or.inl rfl)⟩

/-- C27 (code defect): in `last_dir_cfb`, a file that `xls2img_open` accepts, the
directory chain is the single sector 4 and entry 3 lies at file offset
`512 * (4 + 1) + 384 = 2944`; its 128 bytes are the last 128 bytes of the buffer
(2944 + 128 = 3072) and hold a stream named `Workbook`.  The test
`bufferLen <= pos + 128` of `xls2img_get_entry` rejects it and the function
returns `NULL`, whereas entry 2, which ends 128 bytes earlier, is returned.  The
directory walk reaches entry 3 as the left sibling of entry 1, cannot locate it,
and `xls2img_get_workbook` returns `XLS2IMG_ERROR_NO_WORKBOOK`. -/
theorem c27_entry_at_buffer_end_is_rejected :
    xls2img_open last_dir_cfb = .ok (XLS2IMG_SUCCESS, some last_dir_reader) ∧
    last_dir_cfb.length = 3072 ∧
    hdr_firstDirectorySectorLocation last_dir_cfb = 4 ∧
    xls2img_locate_final_sector last_dir_reader 4 (3 * 128) = .ok (4, 384) ∧
    512 * (4 + 1) + 384 + 128 = last_dir_cfb.length ∧
    entry_type last_dir_cfb 2944 = 2 ∧ named_workbook last_dir_cfb 2944 ∧
    xls2img_get_entry last_dir_reader 3 = .ok none ∧
    xls2img_get_entry last_dir_reader 2 = .ok (some 2816) ∧
    xls2img_get_entry last_dir_reader 1 = .ok (some 2688) ∧
    next_childID last_dir_cfb 2688 = some 3 ∧
    xls2img_get_workbook 10 last_dir_reader = .ok (XLS2IMG_ERROR_NO_WORKBOOK, none) := by
  refine ⟨by decide!, by decide!, by decide!, by decide!, by decide!, by decide!, by decide!,
    by decide!, by decide!, by decide!, by decide!, by decide!⟩

/-- C28 (code defect): in `good_cfb` the chain from sector 2 is 2, 3 and ends with
the sentinel `0xFFFFFFFE`, so byte offset 1029 lies beyond its 1024 bytes.
`xls2img_locate_final_sector` subtracts the sector size before it looks at the
sentinel and returns the pair (3, 5); the address lookup for that pair succeeds
and yields file offset 2053, byte 5 of sector 3.  In the same way the lookup of
directory entry 4, beyond the single directory sector, yields (0, 0), and
`xls2img_get_entry` returns the root entry. -/
theorem c28_truncated_chain_is_not_detected :
    is_fat_chain good_reader [2, 3] = true ∧
    xls2img_get_next_sector good_reader 3 = .ok 0xFFFFFFFE ∧
    xls2img_locate_final_sector good_reader 2 1029 = .ok (3, 5) ∧
    xls2img_sector_offset_to_address good_reader 3 5 = some 2053 ∧
    xls2img_get_next_sector good_reader 0 = .ok 0xFFFFFFFE ∧
    xls2img_locate_final_sector good_reader 0 (4 * 128) = .ok (0, 0) ∧
    xls2img_get_entry good_reader 4 = .ok (some 512) ∧
    xls2img_get_entry good_reader 0 = .ok (some 512) ∧
    xls2img_locate_final_sector good_reader 2 1600 = .ok (3, 576) ∧
    xls2img_sector_offset_to_address good_reader 3 576 = none := by
  refine ⟨by decide!, by decide!, by decide!, by decide!, by decide!, by decide!, by decide!,
    by decide!, by decide!, by decide!⟩

/-- C29: for every reader made by `xls2img_open` and every entry with
`size > 0`: `xls2img_read_file` reads through `xls2img_read_stream` when `size` is
at least the mini-stream cutoff and through `xls2img_read_mini_stream` when it is
below.  In the second case, for every FAT chain `container` of sectors inside the
buffer that starts at the reader's `miniStreamStartSector` (the start sector of
the root entry) and every mini-FAT chain `minis` of mini sectors inside the mini
stream stored in `container` that starts at the entry's `startSectorLocation` and
has at least `size / 64` (rounded up) mini sectors, the bytes written are the
first `size` bytes of the concatenation of the 64-byte blocks at mini-stream
offsets `64 * m` for the mini sectors `m` of the chain, in chain order. -/
theorem c29_mini_stream_read (buffer : List Byte) (reader : XLS2IMG_READER) (entry : Nat)
    (hopen : xls2img_open buffer = .ok (XLS2IMG_SUCCESS, some reader)) :
    (0 < entry_size reader.buffer entry →
      hdr_miniStreamCutoffSize reader.buffer ≤ entry_size reader.buffer entry →
      xls2img_read_file reader entry =
        xls2img_read_stream reader (entry_startSectorLocation reader.buffer entry) 0
          (entry_size reader.buffer entry)) ∧
    (0 < entry_size reader.buffer entry →
      entry_size reader.buffer entry < hdr_miniStreamCutoffSize reader.buffer →
      xls2img_read_file reader entry =
        xls2img_read_mini_stream reader (entry_startSectorLocation reader.buffer entry) 0
          (entry_size reader.buffer entry) ∧
      ∀ (container minis : List Nat),
        is_fat_chain reader container = true →
        container.head? = some reader.miniStreamStartSector →
        is_mini_fat_chain reader container minis = true →
        minis.head? = some (entry_startSectorLocation reader.buffer entry) →
        entry_size reader.buffer entry ≤ minis.length * 64 →
        xls2img_read_file reader entry =
          .ok (((minis.map (mini_sector_bytes reader container)).flatten).take
            (entry_size reader.buffer entry))) := by
  obtain ⟨_, _, _, _, hss, hmini, _, _⟩ := xls2img_open_success buffer _ reader hopen
  have hss' : reader.sectorSize = 512 ∨ reader.sectorSize = 4096 := by
    rw [hss]
    unfold header_sector_size
    split
    · exact Or.inl rfl
    · exact Or.inr rfl
  constructor
  · intro h0 hge
    unfold xls2img_read_file
    rw [if_neg (by omega), if_neg (by omega)]
  · intro h0 hlt
    have hpath : xls2img_read_file reader entry =
        xls2img_read_mini_stream reader (entry_startSectorLocation reader.buffer entry) 0
          (entry_size reader.buffer entry) := by
      unfold xls2img_read_file
      rw [if_neg (by omega), if_pos hlt]
    refine ⟨hpath, ?_⟩
    intro container minis hcont hhead hminis hstart hlen
    rw [hpath]
    cases minis with
    | nil => simp at hlen; omega
    | cons m rest =>
      have hm : m = entry_startSectorLocation reader.buffer entry := by simpa using hstart
      subst hm
      have hloc : xls2img_locate_final_mini_sector reader
          (entry_startSectorLocation reader.buffer entry) 0 =
          .ok (entry_startSectorLocation reader.buffer entry, 0) := by
        unfold xls2img_locate_final_mini_sector locate_final_mini_sector_loop
        rw [if_neg (by omega)]
      unfold xls2img_read_mini_stream
      rw [hloc]
      simp only
      exact read_mini_stream_loop_chain reader hss' hmini container hcont hhead rest _ _ _
        hminis (by simpa using hlen) (by omega)

/-- C29 on `left_workbook_cfb`: the stream `Workbook` of 600 bytes is below the
cutoff 4096; the mini stream is stored in sectors 3 and 4 and the mini-FAT chain
of the stream is 0, 1, ..., 9. -/
theorem c29_mini_stream_read_witness :
    entry_size left_workbook_reader.buffer 768 = 600 ∧
    hdr_miniStreamCutoffSize left_workbook_reader.buffer = 4096 ∧
    xls2img_read_file left_workbook_reader 768 =
      .ok ((([0, 1, 2, 3, 4, 5, 6, 7, 8, 9].map
        (mini_sector_bytes left_workbook_reader [3, 4])).flatten).take 600) ∧
    (([0, 1, 2, 3, 4, 5, 6, 7, 8, 9].map
        (mini_sector_bytes left_workbook_reader [3, 4])).flatten).take 600 =
      List.replicate 512 0xAA ++ List.replicate 88 0xBB :=
  have hsize : entry_size left_workbook_reader.buffer 768 = 600 := by decide!
  have hcut : hdr_miniStreamCutoffSize left_workbook_reader.buffer = 4096 := by decide!
  have h := (c29_mini_stream_read left_workbook_cfb left_workbook_reader 768 (by decide!)).2
    (by rw [hsize]; decide) (by rw [hsize, hcut]; decide)
  have h2 := h.2 [3, 4] [0, 1, 2, 3, 4, 5, 6, 7, 8, 9] (by decide!) (by decide!) (by decide!)
    (by decide!) (by rw [hsize]; decide)
  ⟨hsize, hcut, by rw [hsize] at h2; exact h2, by decide!⟩

/-- C30 (code defect): for a blob of 1 byte the loop bound `size - 9` of
`xls2img_find_next_header` is `2^64 - 8`; position 0 is examined and `data[1]` is
read, outside the blob.  For the blob made of the 8 bytes of the PNG signature,
position 0 is reported as an image start although `0 + 9 < 8` is false.  A
drawing group of one byte makes `xls2img_extract_images` perform the read outside
the blob. -/
theorem c30_short_blob_is_examined :
    size_t_sub 1 9 = 2 ^ 64 - 8 ∧
    header_here [0x00] 1 0 = .error .outOfBounds ∧
    xls2img_find_next_header [0x00] 1 = .error .outOfBounds ∧
    xls2img_find_next_header pngSignature 8 = .ok (some 0) ∧ ¬ (0 + 9 < 8) ∧
    xls2img_find_next_header (List.replicate 9 0x00) 9 = .ok none ∧
    xls2img_extract_images c30_workbook ⟨[], 0⟩ = .error .outOfBounds := by
  refine ⟨by decide, by decide, by decide, by decide, by decide, by decide, by decide⟩


/-! ## Termination of the stream reader, and the end of the record walk: lemmas -/

/-- The bytes written in a run recorded by `read_stream_walk` are the result of
`read_stream_loop`. -/
theorem read_stream_walk_written (reader : XLS2IMG_READER) :
    ∀ (fuel sector offset len : Nat),
      read_stream_loop reader fuel sector offset len =
        (read_stream_walk reader fuel sector offset len).map StreamWalk.written := by
  intro fuel
  induction fuel with
  | zero =>
    intro sector offset len
    unfold read_stream_loop read_stream_walk
    split <;> rfl
  | succ f ih =>
    intro sector offset len
    unfold read_stream_loop read_stream_walk
    by_cases hl : len > 0
    · rw [if_pos hl, if_pos hl]
      cases xls2img_sector_offset_to_address reader sector offset with
      | none => rfl
      | some src =>
        simp only
        generalize (if len < reader.sectorSize - offset then len
            else reader.sectorSize - offset) = copylen
        by_cases hb : reader.buffer.length < src + copylen
        · rw [if_pos hb, if_pos hb]
          rfl
        · rw [if_neg hb, if_neg hb]
          cases xls2img_get_next_sector reader sector with
          | error e => rfl
          | ok next =>
            simp only
            by_cases hs : next = 0xFFFFFFFE ∨ next = 0xFFFFFFFF
            · rw [if_pos hs, if_pos hs]
              rfl
            · rw [if_neg hs, if_neg hs, ih]
              cases read_stream_walk reader f next 0 (len - copylen) with
              | error e => rfl
              | ok w => rfl
    · rw [if_neg hl, if_neg hl]
      rfl

/-- A 4-byte read at a looked-up address returns or crosses the end of the
buffer. -/
theorem address_read_no_hang (reader : XLS2IMG_READER) (a : Option Nat) :
    (match a with
      | none => (.ok 0xFFFFFFFF : Except Fault Nat)
      | some addr => parse_uint32 reader.buffer addr) ≠ .error .nonTermination := by
  cases a with
  | none => intro hc; cases hc
  | some addr =>
    simp only [parse_uint32]
    split <;> intro hc <;> cases hc

/-- The function `xls2img_get_fat_sector_location` never uses up the iterations of
its loop. -/
theorem xls2img_get_fat_sector_location_no_hang (reader : XLS2IMG_READER)
    (hss : reader.sectorSize = 512 ∨ reader.sectorSize = 4096) (n : Nat) :
    xls2img_get_fat_sector_location reader n ≠ .error .nonTermination := by
  have h4 : 4 ∣ reader.sectorSize := by
    rcases hss with h | h <;> rw [h]
    · exact ⟨128, rfl⟩
    · exact ⟨1024, rfl⟩
  have hE : 0 < reader.sectorSize / 4 - 1 := by
    rcases hss with h | h <;> rw [h] <;> decide
  unfold xls2img_get_fat_sector_location
  by_cases hn : n < 109
  · rw [if_pos hn]
    intro hc; cases hc
  · rw [if_neg hn]
    simp only
    rcases difat_loop_spec reader h4 _ hE (n - 109 + 1) (n - 109)
        (hdr_firstDIFATSectorLocation reader.buffer) (by omega) with hl | ⟨hl, _⟩
    · rw [hl]
      cases difat_chain_sector reader ((n - 109) / (reader.sectorSize / 4 - 1))
          (hdr_firstDIFATSectorLocation reader.buffer) with
      | none => intro hc; cases hc
      | some d => exact address_read_no_hang reader _
    · rw [hl]
      intro hc; cases hc

/-- The function `xls2img_get_next_sector` never uses up the iterations of its
DIFAT loop: it returns, or performs a read that crosses the end of the buffer. -/
theorem xls2img_get_next_sector_no_hang (reader : XLS2IMG_READER)
    (hss : reader.sectorSize = 512 ∨ reader.sectorSize = 4096) (sector : Nat) :
    xls2img_get_next_sector reader sector ≠ .error .nonTermination := by
  unfold xls2img_get_next_sector
  simp only
  cases hloc : xls2img_get_fat_sector_location reader
      (sector / (reader.sectorSize / 4)) with
  | error e =>
    intro hc
    simp only [Except.error.injEq] at hc
    subst hc
    exact xls2img_get_fat_sector_location_no_hang reader hss _ hloc
  | ok loc => exact address_read_no_hang reader _

/-- The loop of `xls2img_locate_final_sector` ends within `offset` iterations. -/
theorem locate_final_sector_loop_no_hang (reader : XLS2IMG_READER)
    (hss : reader.sectorSize = 512 ∨ reader.sectorSize = 4096) :
    ∀ (fuel sector offset : Nat), offset ≤ fuel →
      locate_final_sector_loop reader fuel sector offset ≠ .error .nonTermination := by
  have hpos : 0 < reader.sectorSize := by rcases hss with h | h <;> omega
  intro fuel
  induction fuel with
  | zero =>
    intro sector offset h
    unfold locate_final_sector_loop
    rw [if_neg (by omega)]
    intro hc; cases hc
  | succ f ih =>
    intro sector offset h
    unfold locate_final_sector_loop
    split
    · cases hn : xls2img_get_next_sector reader sector with
      | error e =>
        intro hc
        simp only [Except.error.injEq] at hc
        subst hc
        exact xls2img_get_next_sector_no_hang reader hss _ hn
      | ok next =>
        simp only
        split
        · intro hc; cases hc
        · exact ih next _ (by omega)
    · intro hc; cases hc

/-- The loop of `xls2img_read_stream` ends within `len` iterations: every
iteration that goes on copies at least one byte. -/
theorem read_stream_loop_no_hang (reader : XLS2IMG_READER)
    (hss : reader.sectorSize = 512 ∨ reader.sectorSize = 4096) :
    ∀ (fuel sector offset len : Nat), len ≤ fuel →
      read_stream_loop reader fuel sector offset len ≠ .error .nonTermination := by
  intro fuel
  induction fuel with
  | zero =>
    intro sector offset len h
    unfold read_stream_loop
    rw [if_neg (by omega)]
    intro hc; cases hc
  | succ f ih =>
    intro sector offset len h
    unfold read_stream_loop
    by_cases hl : len > 0
    · rw [if_pos hl]
      cases ha : xls2img_sector_offset_to_address reader sector offset with
      | none => intro hc; cases hc
      | some src =>
        obtain ⟨_, _, hoff, _⟩ :=
          xls2img_sector_offset_to_address_some reader sector offset src ha
        simp only
        have hcl : 1 ≤ (if len < reader.sectorSize - offset then len
            else reader.sectorSize - offset) := by
          split <;> omega
        generalize (if len < reader.sectorSize - offset then len
            else reader.sectorSize - offset) = copylen at hcl ⊢
        by_cases hb : reader.buffer.length < src + copylen
        · rw [if_pos hb]
          intro hc; cases hc
        · rw [if_neg hb]
          cases hn : xls2img_get_next_sector reader sector with
          | error e =>
            intro hc
            simp only [Except.error.injEq] at hc
            subst hc
            exact xls2img_get_next_sector_no_hang reader hss _ hn
          | ok next =>
            simp only
            by_cases hs : next = 0xFFFFFFFE ∨ next = 0xFFFFFFFF
            · rw [if_pos hs]
              intro hc; cases hc
            · rw [if_neg hs]
              have := ih next 0 (len - copylen) (by omega)
              cases hr : read_stream_loop reader f next 0 (len - copylen) with
              | error e =>
                intro hc
                simp only [Except.error.injEq] at hc
                subst hc
                exact this hr
              | ok more => intro hc; cases hc
    · rw [if_neg hl]
      intro hc; cases hc

/-- The function `xls2img_read_stream` terminates, for every sector, offset and
length. -/
theorem xls2img_read_stream_no_hang (reader : XLS2IMG_READER)
    (hss : reader.sectorSize = 512 ∨ reader.sectorSize = 4096) (sector offset len : Nat) :
    xls2img_read_stream reader sector offset len ≠ .error .nonTermination := by
  unfold xls2img_read_stream xls2img_locate_final_sector
  cases hl : locate_final_sector_loop reader offset sector offset with
  | error e =>
    intro hc
    simp only [Except.error.injEq] at hc
    subst hc
    exact locate_final_sector_loop_no_hang reader hss _ _ _ (Nat.le_refl _) hl
  | ok p =>
    obtain ⟨s, o⟩ := p
    exact read_stream_loop_no_hang reader hss _ _ _ _ (Nat.le_refl _)

/-- What a run of the loop of `xls2img_read_stream` from the start of a sector
does: the bytes written and the length left add up to `len`, every sector copied
from gave at least one byte, the sectors copied from are linked through the FAT
from the start sector on, the bytes written are the first bytes of the stream
stored in them, and the loop is left at a failed lookup or a failed window only
with bytes left to copy, and by its condition only with none. -/
theorem read_stream_walk_run (reader : XLS2IMG_READER) :
    ∀ (fuel sector len : Nat) (w : StreamWalk),
      read_stream_walk reader fuel sector 0 len = .ok w →
      w.written.length + w.remaining = len ∧
      w.visited.length ≤ w.written.length ∧
      List.Chain' (fun a b => xls2img_get_next_sector reader a = .ok b) w.visited ∧
      (∀ a ∈ w.visited.head?, a = sector) ∧
      w.written = (chain_bytes reader w.visited).take len ∧
      (w.stop = .complete → w.remaining = 0) ∧
      (w.stop = .lookup ∨ w.stop = .window → 0 < w.remaining) := by
  intro fuel
  induction fuel with
  | zero =>
    intro sector len w h
    unfold read_stream_walk at h
    split at h
    · cases h
    · simp only [Except.ok.injEq] at h
      subst h
      refine ⟨by simp, by simp, List.chain'_nil, by simp, by simp [chain_bytes], ?_, ?_⟩
      · intro _; simp only; omega
      · intro hc; rcases hc with hc | hc <;> cases hc
  | succ f ih =>
    intro sector len w h
    unfold read_stream_walk at h
    by_cases hl : len > 0
    · rw [if_pos hl] at h
      cases ha : xls2img_sector_offset_to_address reader sector 0 with
      | none =>
        rw [ha] at h
        simp only [Except.ok.injEq] at h
        subst h
        refine ⟨by simp, by simp, List.chain'_nil, by simp, by simp [chain_bytes], ?_, ?_⟩
        · intro hc; cases hc
        · intro _; exact hl
      | some src =>
        obtain ⟨hsrc, _, hoff, hin⟩ :=
          xls2img_sector_offset_to_address_some reader sector 0 src ha
        rw [ha] at h
        simp only [Nat.sub_zero] at h
        have hcl : (if len < reader.sectorSize then len else reader.sectorSize) =
            min len reader.sectorSize := by
          split
          · rw [Nat.min_eq_left (by omega)]
          · rw [Nat.min_eq_right (by omega)]
        rw [hcl] at h
        have hc1 : 1 ≤ min len reader.sectorSize := by
          rw [Nat.le_min]; exact ⟨hl, hoff⟩
        have hc2 : min len reader.sectorSize ≤ len := Nat.min_le_left _ _
        have hc3 : min len reader.sectorSize ≤ reader.sectorSize := Nat.min_le_right _ _
        by_cases hb : reader.buffer.length < src + min len reader.sectorSize
        · rw [if_pos hb] at h
          simp only [Except.ok.injEq] at h
          subst h
          refine ⟨by simp, by simp, List.chain'_nil, by simp, by simp [chain_bytes], ?_, ?_⟩
          · intro hc; cases hc
          · intro _; exact hl
        · rw [if_neg hb] at h
          have hcopied : (List.take (min len reader.sectorSize)
              (List.drop src reader.buffer)).length = min len reader.sectorSize := by
            rw [List.length_take, List.length_drop]; omega
          have hsb : List.take (min len reader.sectorSize) (List.drop src reader.buffer) =
              List.take len (sector_bytes reader sector) := by
            simp only [sector_bytes, List.take_take]
            rw [hsrc, Nat.add_zero]
          have hsbl : min len reader.sectorSize ≤ (sector_bytes reader sector).length := by
            simp only [sector_bytes, List.length_take, List.length_drop]
            rw [hsrc, Nat.add_zero] at hb
            omega
          have hsbl2 : (sector_bytes reader sector).length ≤ reader.sectorSize := by
            simp only [sector_bytes, List.length_take]
            exact Nat.min_le_left _ _
          cases hn : xls2img_get_next_sector reader sector with
          | error e => rw [hn] at h; cases h
          | ok next =>
            rw [hn] at h
            simp only at h
            by_cases hs : next = 0xFFFFFFFE ∨ next = 0xFFFFFFFF
            · rw [if_pos hs] at h
              simp only [Except.ok.injEq] at h
              subst h
              refine ⟨?_, ?_, List.chain'_singleton _, by simp, ?_, ?_, ?_⟩
              · simp only [hcopied]; omega
              · simp only [hcopied, List.length_singleton]; exact hc1
              · simp only [chain_bytes, List.map_cons, List.map_nil, List.flatten_cons,
                  List.flatten_nil, List.append_nil]
                exact hsb
              · intro hc; cases hc
              · intro hc; rcases hc with hc | hc <;> cases hc
            · rw [if_neg hs] at h
              cases hr : read_stream_walk reader f next 0 (len - min len reader.sectorSize) with
              | error e => rw [hr] at h; cases h
              | ok w' =>
                rw [hr] at h
                simp only [Except.ok.injEq] at h
                subst h
                obtain ⟨h1, h2, h3, h4, h5, h6, h7⟩ := ih next _ w' hr
                refine ⟨?_, ?_, ?_, by simp, ?_, h6, h7⟩
                · simp only [List.length_append, hcopied]; omega
                · simp only [List.length_append, hcopied, List.length_cons]; omega
                · rw [List.chain'_cons']
                  refine ⟨?_, h3⟩
                  intro y hy
                  rw [h4 y hy]
                  exact hn
                · have hcb : chain_bytes reader (sector :: w'.visited) =
                      sector_bytes reader sector ++ chain_bytes reader w'.visited := by
                    simp [chain_bytes]
                  simp only
                  rw [hcb, List.take_append_eq_append_take, hsb, h5]
                  congr 1
                  by_cases hlt : len < reader.sectorSize
                  · rw [Nat.min_eq_left (by omega)] at hsbl ⊢
                    rw [Nat.sub_self, Nat.sub_eq_zero_of_le hsbl]
                  · rw [Nat.min_eq_right (by omega)] at hsbl ⊢
                    have : (sector_bytes reader sector).length = reader.sectorSize := by omega
                    rw [this]
    · rw [if_neg hl] at h
      simp only [Except.ok.injEq] at h
      subst h
      refine ⟨by simp, by simp, List.chain'_nil, by simp, by simp [chain_bytes], ?_, ?_⟩
      · intro _; simp only; omega
      · intro hc; rcases hc with hc | hc <;> cases hc

/-- The record walk leaves the state unchanged on fewer than 4 bytes. -/
theorem record_loop_short (fuel : Nat) (tail : List Byte) (st : WalkState)
    (h : tail.length < 4) : record_loop fuel tail st = .ok st := by
  cases fuel with
  | zero => simp [record_loop]
  | succ f =>
    match tail, h with
    | [], _ => simp [record_loop]
    | [_], _ => simp [record_loop]
    | [_, _], _ => simp [record_loop]
    | [_, _, _], _ => simp [record_loop]
    | _ :: _ :: _ :: _ :: _, h => simp at h; omega

/-! ## Claims C31 to C35 -/

/-- C31 (code defect): the advance `12 + chunk_len` of `xls2img_find_png_end` is
computed in 32 bits.  In `c31_blob` the first chunk has the length field
`FF FF FF F5` and a type other than `IEND`; the cursor advances by
`(12 + 0xFFFFFFF5) mod 2^32 = 1` instead of `12 + 0xFFFFFFF5`, reads a chunk header
at offset 9, finds the type `IEND` there and returns 21, where the walk with the
exact advance leaves the blob at once; `xls2img_extract_images` emits the 21 bytes
as a PNG.  In `c1_blob` the length field is `FF FF FF F4`, the advance is 0 and the
cursor does not move: the walk does not end. -/
theorem c31_chunk_advance_wraps :
    be32 0xFF 0xFF 0xFF 0xF5 = 0xFFFFFFF5 ∧
    (12 + be32 0xFF 0xFF 0xFF 0xF5) % 2 ^ 32 = 1 ∧
    ¬ iendType <+: c31_blob.drop (8 + 4) ∧
    find_png_end_loop c31_blob 21 21 8 = find_png_end_loop c31_blob 21 20 9 ∧
    xls2img_find_png_end c31_blob 21 = .ok 21 ∧
    spec_png_end c31_blob 21 8 = none ∧
    xls2img_extract_images c31_workbook ⟨[], 0⟩ =
      .ok (1, ⟨[⟨XLS2IMG_PNG, 21, c31_blob⟩], 1⟩) ∧
    xls2img_find_png_end c1_blob 16 = .error .nonTermination := by
  refine ⟨by decide, by decide, by decide, by decide, by decide, by decide, by decide,
    by decide⟩

/-- C32 (code defect): `cycle_cfb` is accepted by `xls2img_open`; the child of
its root is entry 1, a stream named `A` that the name test does not accept and
whose `leftSiblingID` is 1.  The walk sets `childID` to 1 again and again: for
every number of iterations it is given, `xls2img_get_workbook` has not returned
when they are used up. -/
theorem c32_sibling_cycle_never_returns :
    xls2img_open cycle_cfb = .ok (XLS2IMG_SUCCESS, some cycle_reader) ∧
    xls2img_get_entry cycle_reader 0 = .ok (some 512) ∧
    entry_childID cycle_cfb 512 = 1 ∧
    xls2img_get_entry cycle_reader 1 = .ok (some 640) ∧
    entry_is_workbook cycle_cfb 640 = .ok false ∧
    entry_leftSiblingID cycle_cfb 640 = 1 ∧
    next_childID cycle_cfb 640 = some 1 ∧
    ∀ fuel, xls2img_get_workbook fuel cycle_reader = .error .nonTermination := by
  have hroot : xls2img_get_entry cycle_reader 0 = .ok (some 512) := by decide!
  have hchild : entry_childID cycle_reader.buffer 512 = 1 := by decide!
  have h1 : xls2img_get_entry cycle_reader 1 = .ok (some 640) := by decide!
  have h1w : entry_is_workbook cycle_reader.buffer 640 = .ok false := by decide!
  have h1n : next_childID cycle_reader.buffer 640 = some 1 := by decide!
  refine ⟨by decide!, hroot, hchild, h1, h1w, by decide!, h1n, ?_⟩
  have hwalk : ∀ fuel, workbook_walk cycle_reader fuel 1 = .error .nonTermination := by
    intro fuel
    induction fuel with
    | zero => rfl
    | succ f ih => simp [workbook_walk, h1, h1w, h1n, ih]
  intro fuel
  simp [xls2img_get_workbook, xls2img_get_workbook_malloc, hroot, hchild, hwalk fuel]

/-- Counterexample to C33: `partial_cfb` is accepted by `xls2img_open`; its
sector 2 starts at file offset 1536 and only 100 of its bytes are in the 1636-byte
buffer.  For `xls2img_read_stream` from sector 2 with `len = 200` the address
lookup succeeds, the copy window of 200 bytes leaves the buffer, and the loop is
left through `buffer + bufferLen < src + copylen`: no byte is written, although no
sentinel was met and no address lookup failed. -/
theorem c33_counterexample :
    xls2img_open partial_cfb = .ok (XLS2IMG_SUCCESS, some partial_reader) ∧
    partial_cfb.length = 1636 ∧
    xls2img_sector_offset_to_address partial_reader 2 0 = some 1536 ∧
    xls2img_read_stream partial_reader 2 0 200 = .ok [] ∧
    read_stream_walk partial_reader 200 2 0 200 = .ok ⟨[], 200, [], .window⟩ ∧
    xls2img_read_stream partial_reader 2 0 100 = .ok (List.replicate 100 0xAA) := by
  refine ⟨by decide!, by decide!, by decide!, by decide!, by decide!, by decide!⟩

/-- C33 (amended): for every reader with sector size 512 or 4096, every start
sector and every `len`, `xls2img_read_stream` terminates.  Whenever it returns, it
has written at most `len` bytes in at most `len` copy steps, each of at least one
byte; the sectors copied from are linked through the FAT from the start sector on
and the bytes written are the first bytes of the stream stored in them; and fewer
than `len` bytes are written exactly when the loop was left, with bytes still to
copy, at a failed address lookup, at a copy window that leaves the buffer, or at a
sentinel.  It returns whenever the buffer length is a multiple of 4. -/
theorem c33_read_stream_bounded (reader : XLS2IMG_READER) (sector len : Nat)
    (hss : reader.sectorSize = 512 ∨ reader.sectorSize = 4096) :
    xls2img_read_stream reader sector 0 len ≠ .error .nonTermination ∧
    (∀ d, xls2img_read_stream reader sector 0 len = .ok d →
      ∃ w, read_stream_walk reader len sector 0 len = .ok w ∧ w.written = d ∧
        d.length ≤ len ∧ w.visited.length ≤ len ∧ w.visited.length ≤ d.length ∧
        List.Chain' (fun a b => xls2img_get_next_sector reader a = .ok b) w.visited ∧
        (∀ a ∈ w.visited.head?, a = sector) ∧
        d = (chain_bytes reader w.visited).take len ∧
        (d.length < len ↔
          (w.stop = .lookup ∨ w.stop = .window ∨ (w.stop = .sentinel ∧ 0 < w.remaining)))) ∧
    (4 ∣ reader.buffer.length → ∃ d, xls2img_read_stream reader sector 0 len = .ok d) := by
  have hpos : 0 < reader.sectorSize := by rcases hss with h | h <;> omega
  have h4 : 4 ∣ reader.sectorSize ∧ 8 ≤ reader.sectorSize := by
    rcases hss with h | h <;> rw [h]
    · exact ⟨⟨128, rfl⟩, by omega⟩
    · exact ⟨⟨1024, rfl⟩, by omega⟩
  have hrs : xls2img_read_stream reader sector 0 len =
      read_stream_loop reader len sector 0 len := by
    unfold xls2img_read_stream xls2img_locate_final_sector locate_final_sector_loop
    rw [if_neg (by omega)]
  refine ⟨xls2img_read_stream_no_hang reader hss sector 0 len, ?_, ?_⟩
  · intro d hd
    rw [hrs, read_stream_walk_written] at hd
    cases hw : read_stream_walk reader len sector 0 len with
    | error e => rw [hw] at hd; cases hd
    | ok w =>
      rw [hw] at hd
      have hwd : w.written = d := by
        simpa [Except.map] using hd
      obtain ⟨h1, h2, h3, h4', h5, h6, h7⟩ := read_stream_walk_run reader len sector len w hw
      rw [hwd] at h1 h2 h5
      refine ⟨w, rfl, hwd, by omega, by omega, h2, h3, h4', h5, ?_⟩
      constructor
      · intro hlt
        have hrem : 0 < w.remaining := by omega
        cases hst : w.stop with
        | complete => have := h6 hst; omega
        | lookup => exact Or.inl rfl
        | window => exact Or.inr (Or.inl rfl)
        | sentinel => exact Or.inr (Or.inr ⟨rfl, hrem⟩)
      · intro hc
        rcases hc with hc | hc | ⟨_, hc⟩
        · have := h7 (Or.inl hc); omega
        · have := h7 (Or.inr hc); omega
        · omega
  · intro hal
    rw [hrs]
    exact read_stream_loop_returns reader h4.1 h4.2 hal len sector 0 len (Nat.le_refl _)

/-- C33 (amended) on `good_cfb`, from sector 2 with `len = 2000`: the chain 2, 3
ends with a sentinel after 1024 bytes, with 976 bytes still to copy. -/
theorem c33_read_stream_bounded_witness :
    read_stream_walk good_reader 2000 2 0 2000 =
      .ok ⟨List.replicate 512 0xAA ++ List.replicate 512 0xBB, 976, [2, 3], .sentinel⟩ ∧
    read_stream_walk good_reader 600 2 0 600 =
      .ok ⟨List.replicate 512 0xAA ++ List.replicate 88 0xBB, 0, [2, 3], .sentinel⟩ ∧
    xls2img_read_stream good_reader 2 0 2000 ≠ .error .nonTermination ∧
    (∀ d, xls2img_read_stream good_reader 2 0 2000 = .ok d →
      ∃ w, read_stream_walk good_reader 2000 2 0 2000 = .ok w ∧ w.written = d ∧
        d.length ≤ 2000 ∧ w.visited.length ≤ 2000 ∧ w.visited.length ≤ d.length ∧
        List.Chain' (fun a b => xls2img_get_next_sector good_reader a = .ok b) w.visited ∧
        (∀ a ∈ w.visited.head?, a = 2) ∧
        d = (chain_bytes good_reader w.visited).take 2000 ∧
        (d.length < 2000 ↔
          (w.stop = .lookup ∨ w.stop = .window ∨ (w.stop = .sentinel ∧ 0 < w.remaining)))) ∧
    (4 ∣ good_reader.buffer.length →
      ∃ d, xls2img_read_stream good_reader 2 0 2000 = .ok d) :=
  ⟨by decide!, by decide!, c33_read_stream_bounded good_reader 2 2000 (Or.inl rfl)⟩

/-- C34: a drawing-group chain is scanned only when a later record header is
read.  For every workbook made of whole records `pre`, then an `MsoDrawingGroup`
record and `Continue` records, then fewer than 4 further bytes (no further record
header), none of the images of that last chain is emitted: the outcome is the one
of the walk over `pre` alone.  In particular a workbook that consists of a single
`MsoDrawingGroup` record returns no-images, whatever its payload holds. -/
theorem c34_unterminated_chain_is_not_scanned (pre : List Record) (p0 : List Byte)
    (ps : List (List Byte)) (tail : List Byte) (res0 : XLS2IMG_RESULT)
    (hpre : ∀ r ∈ pre, r.valid) (hp0 : p0.length < 65536)
    (hps : ∀ p ∈ ps, p.length < 65536) (htail : tail.length < 4) :
    xls2img_extract_images
        (encode_records (pre ++ (⟨BIFF8_MsoDrawingGroup, p0⟩ ::
          ps.map (fun p => (⟨BIFF8_CONTINUE, p⟩ : Record)))) ++ tail) res0 =
      (match walk_records ⟨false, buffer_collector_init, []⟩ pre with
       | .error e => .error e
       | .ok st => .ok (extract_outcome st.images)) ∧
    xls2img_extract_images (encode_records [⟨BIFF8_MsoDrawingGroup, p0⟩]) res0 =
      .ok (XLS2IMG_ERROR_NO_IMAGES, ⟨[], 0⟩) := by
  have hty : BIFF8_MsoDrawingGroup < 65536 := by decide
  have htc : BIFF8_CONTINUE < 65536 := by decide
  have hne : BIFF8_CONTINUE ≠ BIFF8_MsoDrawingGroup := by decide
  have hvalid : ∀ r ∈ pre ++ (⟨BIFF8_MsoDrawingGroup, p0⟩ ::
      ps.map (fun p => (⟨BIFF8_CONTINUE, p⟩ : Record))), r.valid := by
    intro r hr
    simp only [List.mem_append, List.mem_cons, List.mem_map] at hr
    rcases hr with h | rfl | ⟨p, hp, rfl⟩
    · exact hpre r h
    · exact ⟨hty, hp0⟩
    · exact ⟨htc, hps p hp⟩
  have main : ∀ (tl : List Byte), tl.length < 4 →
      xls2img_extract_images
        (encode_records (pre ++ (⟨BIFF8_MsoDrawingGroup, p0⟩ ::
          ps.map (fun p => (⟨BIFF8_CONTINUE, p⟩ : Record)))) ++ tl) res0 =
      (match walk_records ⟨false, buffer_collector_init, []⟩ pre with
       | .error e => .error e
       | .ok st => .ok (extract_outcome st.images)) := by
    intro tl htl
    rw [xls2img_extract_images_eq]
    have hlen : (encode_records (pre ++ (⟨BIFF8_MsoDrawingGroup, p0⟩ ::
        ps.map (fun p => (⟨BIFF8_CONTINUE, p⟩ : Record)))) ++ tl).length ≠ 0 := by
      cases pre with
      | nil =>
        simp only [List.nil_append, encode_records, Record.encode, u16le, List.length_append,
          List.length_cons, List.length_nil]
        omega
      | cons r rs =>
        simp only [List.cons_append, encode_records, Record.encode, u16le, List.length_append,
          List.length_cons, List.length_nil]
        omega
    rw [if_neg hlen, record_loop_encode_records _ _ _ _ hvalid (Nat.le_refl _),
      walk_records_append]
    cases hw : walk_records ⟨false, buffer_collector_init, []⟩ pre with
    | error e => rfl
    | ok st =>
      simp only [walk_records, record_step, if_true]
      rw [walk_records_continue ps _ rfl]
      simp only [record_loop_short _ tl _ htl]
      rfl
  refine ⟨main tail htail, ?_⟩
  rw [xls2img_extract_images_records _ _ (by
    intro r hr
    simp only [List.mem_singleton] at hr
    subst hr
    exact ⟨hty, hp0⟩) (by simp)]
  simp [walk_records, record_step, extract_outcome]

/-- C34 on `c34_workbook`: the first drawing group, ended by a `BOF` record,
yields the JPEG; the second, split over an `MsoDrawingGroup` and a `Continue`
record and followed by two stray bytes only, holds the small PNG and yields
nothing.  The workbook made of a single `MsoDrawingGroup` record carrying the small
PNG returns no-images. -/
theorem c34_unterminated_chain_is_not_scanned_witness :
    xls2img_extract_images c34_workbook ⟨[], 0⟩ =
      .ok (1, ⟨[⟨XLS2IMG_JPG, 14, c4_jpeg⟩], 1⟩) ∧
    xls2img_extract_images c34_single_workbook ⟨[], 0⟩ =
      .ok (XLS2IMG_ERROR_NO_IMAGES, ⟨[], 0⟩) ∧
    scan_drawing_group c2_png = .ok [⟨0, ⟨XLS2IMG_PNG, 67, c2_png⟩⟩] ∧
    (xls2img_extract_images
        (encode_records (([⟨BIFF8_MsoDrawingGroup, c4_jpeg⟩, bof_record] : List Record) ++
          (⟨BIFF8_MsoDrawingGroup, c2_png.take 40⟩ ::
            [c2_png.drop 40].map (fun p => (⟨BIFF8_CONTINUE, p⟩ : Record)))) ++
          [0x0A, 0x00]) ⟨[], 0⟩ =
      (match walk_records ⟨false, buffer_collector_init, []⟩
          [⟨BIFF8_MsoDrawingGroup, c4_jpeg⟩, bof_record] with
       | .error e => .error e
       | .ok st => .ok (extract_outcome st.images)) ∧
    xls2img_extract_images (encode_records [⟨BIFF8_MsoDrawingGroup, c2_png.take 40⟩])
        ⟨[], 0⟩ =
      .ok (XLS2IMG_ERROR_NO_IMAGES, ⟨[], 0⟩)) :=
  ⟨by decide, by decide, by decide,
    c34_unterminated_chain_is_not_scanned [⟨BIFF8_MsoDrawingGroup, c4_jpeg⟩, bof_record]
      (c2_png.take 40) [c2_png.drop 40] [0x0A, 0x00] ⟨[], 0⟩ (by decide) (by decide)
      (by decide) (by decide)⟩

/-- C35: for every reader and entry id, whenever `xls2img_get_entry` returns an
entry, the 128 bytes of the entry lie inside the buffer (its offset `p` satisfies
`p + 128 ≤ bufferLen`, in fact `p + 128 < bufferLen`) and the id is not
`0xFFFFFFFF`, wherever the walk along the directory chain ended; and for the id
`0xFFFFFFFF` it returns no entry. -/
theorem c35_returned_entry_inside_buffer (reader : XLS2IMG_READER) (entryID p : Nat) :
    (xls2img_get_entry reader entryID = .ok (some p) →
      p + 128 ≤ reader.buffer.length ∧ p + 128 < reader.buffer.length ∧
      entryID ≠ 0xFFFFFFFF) ∧
    xls2img_get_entry reader 0xFFFFFFFF = .ok none := by
  constructor
  · intro h
    unfold xls2img_get_entry at h
    split at h
    · cases h
    · rename_i hid
      split at h
      · cases h
      · rename_i sector offset hloc
        simp only [sizeof_COMPOUND_FILE_ENTRY] at h
        split at h
        · cases h
        · rename_i hlen
          simp only [Except.ok.injEq, Option.some.injEq] at h
          subst h
          exact ⟨by omega, by omega, hid⟩
  · unfold xls2img_get_entry
    rw [if_pos rfl]

/-- C35 on `good_cfb` for the entry id 4, which lies beyond the single directory
sector: the walk along the directory chain ends early at the sentinel and the
entry returned is at offset 512, inside the 2560-byte buffer. -/
theorem c35_returned_entry_inside_buffer_witness :
    xls2img_get_entry good_reader 4 = .ok (some 512) ∧
    512 + 128 ≤ good_reader.buffer.length ∧ 512 + 128 < good_reader.buffer.length ∧
    (4 : Nat) ≠ 0xFFFFFFFF ∧
    xls2img_get_entry good_reader 0xFFFFFFFF = .ok none :=
  have h : xls2img_get_entry good_reader 4 = .ok (some 512) := by decide!
  have hc := c35_returned_entry_inside_buffer good_reader 4 512
  ⟨h, (hc.1 h).1, (hc.1 h).2.1, (hc.1 h).2.2, hc.2⟩

end Xls2Img
